import Mathlib

/-!
# Dipolar direct-summation methods of ESPResSo

A shallow embedding of `src/core/electrostatics_magnetostatics/magnetic_non_p3m_methods.cpp`,
of the dispatch layer in `src/core/electrostatics_magnetostatics/dipole.cpp` and of the
virial functions of `src/core/npt.cpp`.

Conventions of the embedding.

* `double` values are elements of a linearly ordered field `K` (exact arithmetic); every
  theorem holds for every such field, in particular for the real numbers, and every
  definition can be evaluated over the rationals.
* `std::sqrt`, `get_mi_vector` and `folded_position` are services the file consumes from
  headers outside the source tree; they are fields of `Services`.
* `int` values are integers; the loop bounds are assumed small enough for the products
  `nx * nx` and `Ncut * Ncut` to stay inside the range of `int`.
* `local_cells.particles()` is a list of particles; the pointers `&(*it)` and `&(*jt)` are
  positions in that list.
* `errexit()` is the result `none`.
* The solvers outside the source tree (mesh Ewald, layer correction, third-party library)
  are fields of `External`; they act on the particles and on a solver state of their own.
* Preprocessor switches are Boolean fields (`ROTATION` in `Services`, the others in `Build`);
  text printed to `stderr` is not part of the state.
-/

namespace Espresso

/-! ## Data model -/

/-- Three components, as `Utils::Vector3d` (indices 0, 1, 2 are `x`, `y`, `z`). -/
@[ext]
structure Vec3 (K : Type) where
  x : K
  y : K
  z : K
deriving DecidableEq

namespace Vec3

variable {K : Type}

/-- Scalar product, `operator*` of two vectors in the source. -/
def dot [Add K] [Mul K] (a b : Vec3 K) : K :=
  a.x * b.x + a.y * b.y + a.z * b.z

instance [Zero K] : Zero (Vec3 K) := ⟨⟨0, 0, 0⟩⟩

instance [Add K] : Add (Vec3 K) := ⟨fun a b => ⟨a.x + b.x, a.y + b.y, a.z + b.z⟩⟩

instance [Sub K] : Sub (Vec3 K) := ⟨fun a b => ⟨a.x - b.x, a.y - b.y, a.z - b.z⟩⟩

instance [Neg K] : Neg (Vec3 K) := ⟨fun a => ⟨-a.x, -a.y, -a.z⟩⟩

instance instAddCommGroup [AddCommGroup K] : AddCommGroup (Vec3 K) where
  add a b := a + b
  zero := 0
  neg a := -a
  sub a b := a - b
  add_assoc a b c := Vec3.ext (add_assoc _ _ _) (add_assoc _ _ _) (add_assoc _ _ _)
  zero_add a := Vec3.ext (zero_add _) (zero_add _) (zero_add _)
  add_zero a := Vec3.ext (add_zero _) (add_zero _) (add_zero _)
  add_comm a b := Vec3.ext (add_comm _ _) (add_comm _ _) (add_comm _ _)
  neg_add_cancel a := Vec3.ext (neg_add_cancel _) (neg_add_cancel _) (neg_add_cancel _)
  sub_eq_add_neg a b :=
    Vec3.ext (sub_eq_add_neg _ _) (sub_eq_add_neg _ _) (sub_eq_add_neg _ _)
  nsmul := nsmulRec
  zsmul := zsmulRec

/-- Scaling of a vector by a scalar. -/
def smul [Mul K] (c : K) (a : Vec3 K) : Vec3 K :=
  ⟨c * a.x, c * a.y, c * a.z⟩

/-- Vector product. -/
def cross [Mul K] [Sub K] (a b : Vec3 K) : Vec3 K :=
  ⟨a.y * b.z - a.z * b.y, a.z * b.x - a.x * b.z, a.x * b.y - a.y * b.x⟩

end Vec3

/-- The method enumeration of `dipole.hpp`, named as the switch statements of
`dipole.cpp` name its values. -/
inductive DipolarInteraction where
  | DIPOLAR_NONE
  | DIPOLAR_P3M
  | DIPOLAR_MDLC_P3M
  | DIPOLAR_ALL_WITH_ALL_AND_NO_REPLICA
  | DIPOLAR_DS
  | DIPOLAR_MDLC_DS
  | DIPOLAR_DS_GPU
  | DIPOLAR_BH_GPU
  | DIPOLAR_SCAFACOS
deriving DecidableEq

/-- The global `dipole` of `dipole.cpp`: `{prefactor, method}`. -/
structure Dipole_parameters (K : Type) where
  prefactor : K
  method : DipolarInteraction
deriving DecidableEq

/-- The part of `box_geo` the file reads: `length()` and `periodic(i)`. -/
structure BoxGeometry (K : Type) where
  length : Vec3 K
  periodic : Vec3 Bool

/-- The fields of `Particle` the file touches: `r.p`, `p.dipm`, the value of
`calc_dip()`, `f.f` and `f.torque`. -/
structure Particle (K : Type) where
  pos : Vec3 K
  dipm : K
  dip : Vec3 K
  f : Vec3 K
  torque : Vec3 K
deriving DecidableEq

/-- Services consumed from outside the source tree, and the compile-time switch
`ROTATION`. `folded_position(p)` reads the global box, passed here explicitly. -/
structure Services (K : Type) where
  sqrt : K → K
  get_mi_vector : Vec3 K → Vec3 K → BoxGeometry K → Vec3 K
  folded_position : Vec3 K → BoxGeometry K → Vec3 K
  ROTATION : Bool

/-- The process-wide variables the engines read. -/
structure Globals (K : Type) where
  dipole : Dipole_parameters K
  n_nodes : Int
  Ncut_off_magnetic_dipolar_direct_sum : Int
  box_geo : BoxGeometry K

/-! ## The pair kernel -/

section Kernel

variable {K : Type} [LinearOrderedField K]

/-- The kernel `calc_dipole_dipole_ia(p1, dip1, p2, force_flag)`: returns the energy and
the two particles as the call leaves them. -/
def calc_dipole_dipole_ia (sv : Services K) (g : Globals K) (p1 : Particle K)
    (dip1 : Vec3 K) (p2 : Particle K) (force_flag : Bool) :
    K × Particle K × Particle K :=
  -- Cache dipole momente
  let dip2 := p2.dip
  -- Distance between particles
  let dr := sv.get_mi_vector p1.pos p2.pos g.box_geo
  -- Powers of distance
  let r2 := dr.dot dr
  let r := sv.sqrt r2
  let r3 := r2 * r
  let r5 := r3 * r2
  let r7 := r5 * r2
  -- Dot products
  let pe1 := dip1.dot dip2
  let pe2 := dip1.dot dr
  let pe3 := dip2.dot dr
  let pe4 := 3 / r5
  -- Energy
  let u := g.dipole.prefactor * (pe1 / r3 - pe4 * pe2 * pe3)
  if force_flag then
    let a := pe4 * pe1
    let b := -15 * pe2 * pe3 / r7
    let ab := a + b
    let cc := pe4 * pe3
    let d := pe4 * pe2
    let ffx := ab * dr.x + cc * dip1.x + d * dip2.x
    let ffy := ab * dr.y + cc * dip1.y + d * dip2.y
    let ffz := ab * dr.z + cc * dip1.z + d * dip2.z
    let f1 : Vec3 K := ⟨p1.f.x + g.dipole.prefactor * ffx, p1.f.y + g.dipole.prefactor * ffy,
      p1.f.z + g.dipole.prefactor * ffz⟩
    let f2 : Vec3 K := ⟨p2.f.x - g.dipole.prefactor * ffx, p2.f.y - g.dipole.prefactor * ffy,
      p2.f.z - g.dipole.prefactor * ffz⟩
    if sv.ROTATION then
      let ax := dip1.y * dip2.z - dip2.y * dip1.z
      let ay := dip2.x * dip1.z - dip1.x * dip2.z
      let az := dip1.x * dip2.y - dip2.x * dip1.y
      let bx := dip1.y * dr.z - dr.y * dip1.z
      let by1 := dr.x * dip1.z - dip1.x * dr.z
      let bz := dip1.x * dr.y - dr.x * dip1.y
      let t1 : Vec3 K := ⟨p1.torque.x + g.dipole.prefactor * (-ax / r3 + bx * cc),
        p1.torque.y + g.dipole.prefactor * (-ay / r3 + by1 * cc),
        p1.torque.z + g.dipole.prefactor * (-az / r3 + bz * cc)⟩
      -- 2nd particle
      let bx2 := dip2.y * dr.z - dr.y * dip2.z
      let by2 := dr.x * dip2.z - dip2.x * dr.z
      let bz2 := dip2.x * dr.y - dr.x * dip2.y
      let t2 : Vec3 K := ⟨p2.torque.x + g.dipole.prefactor * (ax / r3 + bx2 * d),
        p2.torque.y + g.dipole.prefactor * (ay / r3 + by2 * d),
        p2.torque.z + g.dipole.prefactor * (az / r3 + bz2 * d)⟩
      (u, { p1 with f := f1, torque := t1 }, { p2 with f := f2, torque := t2 })
    else
      (u, { p1 with f := f1 }, { p2 with f := f2 })
  else
    (u, p1, p2)

end Kernel

/-! ## The all-pairs engine (DAWAANR) -/

section Engines

variable {K : Type} [LinearOrderedField K]

/-- A particle with every field zero; the value of an out-of-range read, which the loops
below never perform. -/
def Particle.nil : Particle K :=
  ⟨0, 0, 0, 0, 0⟩

/-- One kernel invocation `calc_dipole_dipole_ia(&(*it), dip1, &(*jt), force_flag)` with `it`
at position `i` and `jt` at position `j` of the particle list: the energy is added to `u`
and the two particles are written back. -/
def dawaanr_kernel_at (sv : Services K) (g : Globals K) (force_flag : Bool)
    (s : K × List (Particle K)) (i : Nat) (dip1 : Vec3 K) (j : Nat) :
    K × List (Particle K) :=
  let r := calc_dipole_dipole_ia sv g (s.2.getD i Particle.nil) dip1
    (s.2.getD j Particle.nil) force_flag
  (s.1 + r.1, (s.2.set i r.2.1).set j r.2.2)

/-- The inner loop of `dawaanr_calculations`: `jt` runs from `it + 1` to `end`. -/
def dawaanr_inner (sv : Services K) (g : Globals K) (force_flag : Bool) (n i : Nat)
    (dip1 : Vec3 K) (s : K × List (Particle K)) : K × List (Particle K) :=
  (List.range' (i + 1) (n - (i + 1))).foldl
    (fun s j =>
      -- If the particle has no dipole moment, ignore it
      if (s.2.getD j Particle.nil).dipm = 0 then s
      else dawaanr_kernel_at sv g force_flag s i dip1 j)
    s

/-- The function `dawaanr_calculations(force_flag, energy_flag)`: `none` is `errexit()`,
otherwise the returned energy and the particles as the call leaves them. -/
def dawaanr_calculations (sv : Services K) (g : Globals K) (parts : List (Particle K))
    (force_flag energy_flag : Bool) : Option (K × List (Particle K)) :=
  if g.n_nodes ≠ 1 then none
  else if !force_flag && !energy_flag then some (0, parts)
  else
    some ((List.range parts.length).foldl
      (fun s i =>
        -- If the particle has no dipole moment, ignore it
        if (s.2.getD i Particle.nil).dipm = 0 then s
        else
          let dip1 := (s.2.getD i Particle.nil).dip
          dawaanr_inner sv g force_flag parts.length i dip1 s)
      (0, parts))

/-! ## The direct-summation engine (MDDS) -/

/-- The integers `lo, lo + 1, ..., hi` in this order: the values a loop
`for (n = lo; n <= hi; n++)` visits. -/
def intRange (lo hi : Int) : List Int :=
  (List.range (hi - lo + 1).toNat).map (fun (k : Nat) => lo + (k : Int))

/-- The three replica loops of one ordered pair `(i, j)` with the two guards of the source;
`body` stands for the guarded block. -/
def mdds_pair_loop {σ : Type} (NCUT : Vec3 Int) (NCUT2 : Int)
    (body : σ → Nat → Nat → Int → Int → Int → σ) (i j : Nat) (s : σ) : σ :=
  (intRange (-NCUT.x) NCUT.x).foldl
    (fun s nx =>
      (intRange (-NCUT.y) NCUT.y).foldl
        (fun s ny =>
          (intRange (-NCUT.z) NCUT.z).foldl
            (fun s nz =>
              if !(i == j && nx == 0 && ny == 0 && nz == 0) then
                if nx * nx + ny * ny + nz * nz ≤ NCUT2 then body s i j nx ny nz else s
              else s)
            s)
        s)
    s

/-- The five nested loops of `magnetic_dipolar_direct_sum_calculations`. -/
def mdds_loop {σ : Type} (dip_particles : Nat) (NCUT : Vec3 Int) (NCUT2 : Int)
    (body : σ → Nat → Nat → Int → Int → Int → σ) (s : σ) : σ :=
  (List.range dip_particles).foldl
    (fun s i =>
      (List.range dip_particles).foldl
        (fun s j => mdds_pair_loop NCUT NCUT2 body i j s)
        s)
    s

/-- The array `NCUT[3]`: the replica cutoff, forced to zero on a non-periodic axis. -/
def mdds_NCUT (g : Globals K) : Vec3 Int :=
  ⟨if g.box_geo.periodic.x = false then 0 else g.Ncut_off_magnetic_dipolar_direct_sum,
   if g.box_geo.periodic.y = false then 0 else g.Ncut_off_magnetic_dipolar_direct_sum,
   if g.box_geo.periodic.z = false then 0 else g.Ncut_off_magnetic_dipolar_direct_sum⟩

/-- The value `NCUT2`. -/
def mdds_NCUT2 (g : Globals K) : Int :=
  g.Ncut_off_magnetic_dipolar_direct_sum * g.Ncut_off_magnetic_dipolar_direct_sum

/-- The working set: for each particle with `dipm != 0`, in iteration order, its folded
position (`x, y, z`) and its dipole moment (`mx, my, mz`). -/
def mdds_gather (sv : Services K) (g : Globals K) (parts : List (Particle K)) :
    List (Vec3 K × Vec3 K) :=
  (parts.filter (fun p => decide (p.dipm ≠ 0))).map
    (fun p => (sv.folded_position p.pos g.box_geo, p.dip))

/-- The accumulators of the calculation area: `u`, the arrays `fx, fy, fz` and the arrays
`tx, ty, tz`, each array a map from its index. -/
structure MddsAcc (K : Type) where
  u : K
  f : Nat → Vec3 K
  t : Nat → Vec3 K

/-- The guarded block of the innermost loop (source lines 313-354) for the triple
`(i, j, (nx, ny, nz))`. The values `pe1, rx, ry, rz, rnx, rnx2, rny, rny2`, which the source
computes in the enclosing loops, depend on the loop indices only and are computed here. -/
def mdds_body (sv : Services K) (g : Globals K) (ws : List (Vec3 K × Vec3 K))
    (force_flag : Bool) (s : MddsAcc K) (i j : Nat) (nx ny nz : Int) : MddsAcc K :=
  let xi := (ws.getD i (0, 0)).1
  let xj := (ws.getD j (0, 0)).1
  let mi := (ws.getD i (0, 0)).2
  let mj := (ws.getD j (0, 0)).2
  let pe1 := mi.x * mj.x + mi.y * mj.y + mi.z * mj.z
  let rx := xi.x - xj.x
  let ry := xi.y - xj.y
  let rz := xi.z - xj.z
  let rnx := rx + (nx : K) * g.box_geo.length.x
  let rnx2 := rnx * rnx
  let rny := ry + (ny : K) * g.box_geo.length.y
  let rny2 := rny * rny
  let rnz := rz + (nz : K) * g.box_geo.length.z
  let r2 := rnx2 + rny2 + rnz * rnz
  let r := sv.sqrt r2
  let r3 := r2 * r
  let r5 := r3 * r2
  let r7 := r5 * r2
  let pe2 := mi.x * rnx + mi.y * rny + mi.z * rnz
  let pe3 := mj.x * rnx + mj.y * rny + mj.z * rnz
  -- Energy
  let u := s.u + (pe1 / r3 - 3 * pe2 * pe3 / r5)
  if force_flag then
    -- force
    let a := mi.x * mj.x + mi.y * mj.y + mi.z * mj.z
    let a := 3 * a / r5
    let b := -15 * pe2 * pe3 / r7
    let c := 3 * pe3 / r5
    let d := 3 * pe2 / r5
    let f := Function.update s.f i
      ⟨(s.f i).x + ((a + b) * rnx + c * mi.x + d * mj.x),
       (s.f i).y + ((a + b) * rny + c * mi.y + d * mj.y),
       (s.f i).z + ((a + b) * rnz + c * mi.z + d * mj.z)⟩
    if sv.ROTATION then
      -- torque
      let c := 3 / r5 * pe3
      let ax := mi.y * mj.z - mj.y * mi.z
      let ay := mj.x * mi.z - mi.x * mj.z
      let az := mi.x * mj.y - mj.x * mi.y
      let bx := mi.y * rnz - rny * mi.z
      let by1 := rnx * mi.z - mi.x * rnz
      let bz := mi.x * rny - rnx * mi.y
      let t := Function.update s.t i
        ⟨(s.t i).x + (-ax / r3 + bx * c),
         (s.t i).y + (-ay / r3 + by1 * c),
         (s.t i).z + (-az / r3 + bz * c)⟩
      ⟨u, f, t⟩
    else ⟨u, f, s.t⟩
  else ⟨u, s.f, s.t⟩

/-- The scatter loop (source lines 368-384): `k` is the counter `dip_particles2`. -/
def mdds_scatter (sv : Services K) (g : Globals K) (f t : Nat → Vec3 K) :
    List (Particle K) → Nat → List (Particle K)
  | [], _ => []
  | p :: ps, k =>
    if p.dipm ≠ 0 then
      { p with
        f := ⟨p.f.x + g.dipole.prefactor * (f k).x, p.f.y + g.dipole.prefactor * (f k).y,
          p.f.z + g.dipole.prefactor * (f k).z⟩
        torque :=
          if sv.ROTATION then
            ⟨p.torque.x + g.dipole.prefactor * (t k).x,
             p.torque.y + g.dipole.prefactor * (t k).y,
             p.torque.z + g.dipole.prefactor * (t k).z⟩
          else p.torque } :: mdds_scatter sv g f t ps (k + 1)
    else p :: mdds_scatter sv g f t ps k

/-- The accumulators after the calculation area of the direct sum. -/
def mdds_accumulate (sv : Services K) (g : Globals K) (parts : List (Particle K))
    (force_flag : Bool) : MddsAcc K :=
  let ws := mdds_gather sv g parts
  mdds_loop ws.length (mdds_NCUT g) (mdds_NCUT2 g) (mdds_body sv g ws force_flag)
    ⟨0, fun _ => 0, fun _ => 0⟩

/-- The function `magnetic_dipolar_direct_sum_calculations(force_flag, energy_flag)`:
`none` is `errexit()`, otherwise the returned energy and the particles as the call leaves
them. -/
def magnetic_dipolar_direct_sum_calculations (sv : Services K) (g : Globals K)
    (parts : List (Particle K)) (force_flag energy_flag : Bool) :
    Option (K × List (Particle K)) :=
  if g.n_nodes ≠ 1 then none
  else if !force_flag && !energy_flag then some (0, parts)
  else
    let acc := mdds_accumulate sv g parts force_flag
    -- set the forces, and torques of the particles within Espresso
    let parts1 := if force_flag then mdds_scatter sv g acc.f acc.t parts 0 else parts
    some (0.5 * g.dipole.prefactor * acc.u, parts1)

end Engines

/-! ## Concrete services over the rationals

Used to evaluate the engines on explicit configurations. -/

/-- A square root on the rationals that is exact on the squares the examples meet and
zero elsewhere. -/
def sqrtQ (q : ℚ) : ℚ :=
  if q = 1 then 1 else if q = 4 then 2 else if q = 9 then 3 else if q = 25 then 5
  else if q = 64 then 8 else if q = 100 then 10 else 0

/-- Modelled from the spec: one coordinate of the "minimum-image displacement operation
respecting per-axis periodicity" (`get_mi_vector` comes from `grid.hpp`, which is not in
the source tree): on a periodic axis a difference longer than half the box is reduced by
the nearest multiple of the box length. -/
def get_mi_coord_Q (a b box_length : ℚ) (periodic : Bool) : ℚ :=
  let dx := a - b
  if periodic && decide (|dx| > box_length / 2) then
    dx - (round (dx / box_length) : ℚ) * box_length
  else dx

/-- Modelled from the spec: the minimum-image displacement, coordinate by coordinate. -/
def get_mi_vector_Q (a b : Vec3 ℚ) (box : BoxGeometry ℚ) : Vec3 ℚ :=
  ⟨get_mi_coord_Q a.x b.x box.length.x box.periodic.x,
   get_mi_coord_Q a.y b.y box.length.y box.periodic.y,
   get_mi_coord_Q a.z b.z box.length.z box.periodic.z⟩

/-- Modelled from the spec: one coordinate of the "fold position into primary box"
operation (`folded_position` comes from `grid.hpp`, which is not in the source tree): on a
periodic axis the coordinate is moved into `[0, box_length)`. -/
def fold_coordinate_Q (x box_length : ℚ) (periodic : Bool) : ℚ :=
  if periodic then x - (⌊x / box_length⌋ : ℚ) * box_length else x

/-- Modelled from the spec: the folded position, coordinate by coordinate. -/
def folded_position_Q (p : Vec3 ℚ) (box : BoxGeometry ℚ) : Vec3 ℚ :=
  ⟨fold_coordinate_Q p.x box.length.x box.periodic.x,
   fold_coordinate_Q p.y box.length.y box.periodic.y,
   fold_coordinate_Q p.z box.length.z box.periodic.z⟩

/-- The rational services, with `ROTATION` as given. -/
def servicesQ (rotation : Bool) : Services ℚ :=
  ⟨sqrtQ, get_mi_vector_Q, folded_position_Q, rotation⟩

/-- A cubic box of edge 10, periodic along the axes flagged in `periodic`, on one process,
with prefactor 2 and the given replica cutoff. -/
def globalsQ (periodic : Vec3 Bool) (Ncut : Int) : Globals ℚ :=
  ⟨⟨2, DipolarInteraction.DIPOLAR_DS⟩, 1, Ncut, ⟨⟨10, 10, 10⟩, periodic⟩⟩

/-- A particle at rest at `pos` with unit dipole magnitude and moment `dip`. -/
def dipoleQ (pos dip : Vec3 ℚ) : Particle ℚ :=
  ⟨pos, 1, dip, 0, 0⟩

/-! ## Closed forms used to state the theorems -/

section ClosedForms

variable {K : Type} [LinearOrderedField K]

/-- The force term of the spec for moments `m1`, `m2` at separation `r` of length `d`:
`(3/d^5*(m1.m2) - 15/d^7*(m1.r)*(m2.r)) * r + 3/d^5*(m2.r)*m1 + 3/d^5*(m1.r)*m2`. -/
def pair_force (m1 m2 r : Vec3 K) (d : K) : Vec3 K :=
  Vec3.smul (3 / d ^ 5 * m1.dot m2 - 15 / d ^ 7 * m1.dot r * m2.dot r) r +
    Vec3.smul (3 / d ^ 5 * m2.dot r) m1 + Vec3.smul (3 / d ^ 5 * m1.dot r) m2

/-- The vector `(ffx, ffy, ffz)` of the kernel as a function of the moments, the
displacement `dr`, `r2` and `r`. -/
def kernel_ff (dip1 dip2 dr : Vec3 K) (r2 r : K) : Vec3 K :=
  let r3 := r2 * r
  let r5 := r3 * r2
  let r7 := r5 * r2
  let pe1 := dip1.dot dip2
  let pe2 := dip1.dot dr
  let pe3 := dip2.dot dr
  let pe4 := 3 / r5
  let a := pe4 * pe1
  let b := -15 * pe2 * pe3 / r7
  let ab := a + b
  let cc := pe4 * pe3
  let d := pe4 * pe2
  ⟨ab * dr.x + cc * dip1.x + d * dip2.x, ab * dr.y + cc * dip1.y + d * dip2.y,
    ab * dr.z + cc * dip1.z + d * dip2.z⟩

end ClosedForms

/-- Two unit dipoles along `x` at `x = 1` and `x = 9`. -/
def pairQ : List (Particle ℚ) :=
  [dipoleQ ⟨1, 0, 0⟩ ⟨1, 0, 0⟩, dipoleQ ⟨9, 0, 0⟩ ⟨1, 0, 0⟩]

section Traces

/-- The replica offsets the guarded block is reached with for the ordered pair `(i, j)`,
in loop order: the record of `mdds_pair_loop`. -/
def mdds_offsets (NCUT : Vec3 Int) (NCUT2 : Int) (i j : Nat) : List (Int × Int × Int) :=
  mdds_pair_loop NCUT NCUT2 (fun l _ _ nx ny nz => l ++ [(nx, ny, nz)]) i j []

/-- The triples `(i, j, nx, ny, nz)` the guarded block is reached with, in loop order: the
record of `mdds_loop`. -/
def mdds_triples (dip_particles : Nat) (NCUT : Vec3 Int) (NCUT2 : Int) :
    List (Nat × Nat × Int × Int × Int) :=
  mdds_loop dip_particles NCUT NCUT2 (fun l i j nx ny nz => l ++ [(i, j, nx, ny, nz)]) []

/-- The guard of the innermost loop as a Boolean. -/
def mdds_guard (NCUT2 : Int) (i j : Nat) (nx ny nz : Int) : Bool :=
  !(i == j && nx == 0 && ny == 0 && nz == 0) && decide (nx * nx + ny * ny + nz * nz ≤ NCUT2)

/-- The offsets of a pair written as a list comprehension. -/
def mdds_offsets_list (NCUT : Vec3 Int) (NCUT2 : Int) (i j : Nat) : List (Int × Int × Int) :=
  (intRange (-NCUT.x) NCUT.x).flatMap fun nx =>
    (intRange (-NCUT.y) NCUT.y).flatMap fun ny =>
      ((intRange (-NCUT.z) NCUT.z).filter fun nz => mdds_guard NCUT2 i j nx ny nz).map
        fun nz => (nx, ny, nz)

/-- The triples written as a list comprehension. -/
def mdds_triples_list (dip_particles : Nat) (NCUT : Vec3 Int) (NCUT2 : Int) :
    List (Nat × Nat × Int × Int × Int) :=
  (List.range dip_particles).flatMap fun i =>
    (List.range dip_particles).flatMap fun j =>
      (mdds_offsets_list NCUT NCUT2 i j).map fun o => (i, j, o)

end Traces

section DirectSumTerms

variable {K : Type} [LinearOrderedField K]

/-- The energy term of the spec for moments `m1`, `m2` at separation `r` of length `d`:
`(m1.m2)/d^3 - 3*(m1.r)*(m2.r)/d^5`. -/
def pair_energy (m1 m2 r : Vec3 K) (d : K) : K :=
  m1.dot m2 / d ^ 3 - 3 * m1.dot r * m2.dot r / d ^ 5

/-- The folded position `(x[i], y[i], z[i])` of entry `i` of the working set. -/
def mdds_x (ws : List (Vec3 K × Vec3 K)) (i : Nat) : Vec3 K :=
  (ws.getD i (0, 0)).1

/-- The moment `(mx[i], my[i], mz[i])` of entry `i` of the working set. -/
def mdds_m (ws : List (Vec3 K × Vec3 K)) (i : Nat) : Vec3 K :=
  (ws.getD i (0, 0)).2

/-- The image-shifted separation `(rnx, rny, rnz)` of a triple:
`(x[i] - x[j]) + n * boxLength`, componentwise. -/
def mdds_rn (g : Globals K) (ws : List (Vec3 K × Vec3 K)) (t : Nat × Nat × Int × Int × Int) :
    Vec3 K :=
  ⟨(mdds_x ws t.1).x - (mdds_x ws t.2.1).x + (t.2.2.1 : K) * g.box_geo.length.x,
   (mdds_x ws t.1).y - (mdds_x ws t.2.1).y + (t.2.2.2.1 : K) * g.box_geo.length.y,
   (mdds_x ws t.1).z - (mdds_x ws t.2.1).z + (t.2.2.2.2 : K) * g.box_geo.length.z⟩

/-- The value the guarded block adds to `u`, as a function of the two moments and the
image-shifted separation. -/
def mdds_u_term (sv : Services K) (mi mj rn : Vec3 K) : K :=
  let pe1 := mi.x * mj.x + mi.y * mj.y + mi.z * mj.z
  let r2 := rn.x * rn.x + rn.y * rn.y + rn.z * rn.z
  let r := sv.sqrt r2
  let r3 := r2 * r
  let r5 := r3 * r2
  let pe2 := mi.x * rn.x + mi.y * rn.y + mi.z * rn.z
  let pe3 := mj.x * rn.x + mj.y * rn.y + mj.z * rn.z
  pe1 / r3 - 3 * pe2 * pe3 / r5

/-- The vector the guarded block adds to `(fx[i], fy[i], fz[i])`. -/
def mdds_f_term (sv : Services K) (mi mj rn : Vec3 K) : Vec3 K :=
  let r2 := rn.x * rn.x + rn.y * rn.y + rn.z * rn.z
  let r := sv.sqrt r2
  let r3 := r2 * r
  let r5 := r3 * r2
  let r7 := r5 * r2
  let pe2 := mi.x * rn.x + mi.y * rn.y + mi.z * rn.z
  let pe3 := mj.x * rn.x + mj.y * rn.y + mj.z * rn.z
  let a := mi.x * mj.x + mi.y * mj.y + mi.z * mj.z
  let a := 3 * a / r5
  let b := -15 * pe2 * pe3 / r7
  let c := 3 * pe3 / r5
  let d := 3 * pe2 / r5
  ⟨(a + b) * rn.x + c * mi.x + d * mj.x, (a + b) * rn.y + c * mi.y + d * mj.y,
    (a + b) * rn.z + c * mi.z + d * mj.z⟩

/-- The vector the guarded block adds to `(tx[i], ty[i], tz[i])`. -/
def mdds_t_term (sv : Services K) (mi mj rn : Vec3 K) : Vec3 K :=
  let r2 := rn.x * rn.x + rn.y * rn.y + rn.z * rn.z
  let r := sv.sqrt r2
  let r3 := r2 * r
  let r5 := r3 * r2
  let pe3 := mj.x * rn.x + mj.y * rn.y + mj.z * rn.z
  let c := 3 / r5 * pe3
  let ax := mi.y * mj.z - mj.y * mi.z
  let ay := mj.x * mi.z - mi.x * mj.z
  let az := mi.x * mj.y - mj.x * mi.y
  let bx := mi.y * rn.z - rn.y * mi.z
  let by1 := rn.x * mi.z - mi.x * rn.z
  let bz := mi.x * rn.y - rn.x * mi.y
  ⟨-ax / r3 + bx * c, -ay / r3 + by1 * c, -az / r3 + bz * c⟩

/-- The guarded block applied to a recorded triple. -/
def mdds_step (sv : Services K) (g : Globals K) (ws : List (Vec3 K × Vec3 K))
    (force_flag : Bool) (s : MddsAcc K) (t : Nat × Nat × Int × Int × Int) : MddsAcc K :=
  mdds_body sv g ws force_flag s t.1 t.2.1 t.2.2.1 t.2.2.2.1 t.2.2.2.2

end DirectSumTerms

/-- Two unit dipoles along `x` at `x = 1` and `x = 9` with a particle without dipole
between them. -/
def tripleQ : List (Particle ℚ) :=
  [dipoleQ ⟨1, 0, 0⟩ ⟨1, 0, 0⟩, ⟨⟨5, 0, 0⟩, 0, 0, 0, 0⟩, dipoleQ ⟨9, 0, 0⟩ ⟨1, 0, 0⟩]

section AllPairsTerms

variable {K : Type} [LinearOrderedField K]

/-- The fields of a particle no engine writes: position, dipole magnitude, moment. -/
def Particle.static (p : Particle K) : Vec3 K × K × Vec3 K :=
  (p.pos, p.dipm, p.dip)

/-- The index pairs `(i, j)`, in iteration order, with `i < j` and both particles of
non-zero dipole magnitude. -/
def dawaanr_pairs (parts : List (Particle K)) : List (Nat × Nat) :=
  (List.range parts.length).flatMap fun i =>
    if (parts.getD i Particle.nil).dipm = 0 then []
    else
      ((List.range' (i + 1) (parts.length - (i + 1))).filter fun j =>
        decide ((parts.getD j Particle.nil).dipm ≠ 0)).map fun j => (i, j)

/-- One kernel invocation on the particles at positions `ij.1` and `ij.2`, the cached
moment `dip1` being that of the particle at `ij.1` in `parts`. -/
def dawaanr_step (sv : Services K) (g : Globals K) (force_flag : Bool)
    (parts : List (Particle K)) (s : K × List (Particle K)) (ij : Nat × Nat) :
    K × List (Particle K) :=
  dawaanr_kernel_at sv g force_flag s ij.1 (parts.getD ij.1 Particle.nil).dip ij.2

end AllPairsTerms

/-- Two unit dipoles along `x` at `x = 1` and `x = 4`. -/
def nearQ : List (Particle ℚ) :=
  [dipoleQ ⟨1, 0, 0⟩ ⟨1, 0, 0⟩, dipoleQ ⟨4, 0, 0⟩ ⟨1, 0, 0⟩]

section PairSums

variable {K : Type} [LinearOrderedField K]

/-- The sum of `G a b` over the pairs of entries of a list with `a` before `b`. -/
def pairs_sum {α : Type} (G : α → α → K) : List α → K
  | [] => 0
  | a :: l => (l.map (G a)).sum + pairs_sum G l

end PairSums

section ForceTerms

variable {K : Type} [LinearOrderedField K]

/-- The torque term of the spec on a dipole `m1` in the field of a dipole `m2` at
separation `r` of length `d`: `-(m1 x m2)/d^3 + (3*(m2.r)/d^5) * (m1 x r)`. -/
def pair_torque (m1 m2 r : Vec3 K) (d : K) : Vec3 K :=
  Vec3.smul (-1 / d ^ 3) (m1.cross m2) + Vec3.smul (3 * m2.dot r / d ^ 5) (m1.cross r)

/-- The particle the scatter loop leaves for a dipole-bearing particle `p` when the
counter `dip_particles2` is `k`. -/
def mdds_apply (sv : Services K) (g : Globals K) (f t : Nat → Vec3 K) (p : Particle K)
    (k : Nat) : Particle K :=
  { p with
    f := ⟨p.f.x + g.dipole.prefactor * (f k).x, p.f.y + g.dipole.prefactor * (f k).y,
      p.f.z + g.dipole.prefactor * (f k).z⟩
    torque :=
      if sv.ROTATION then
        ⟨p.torque.x + g.dipole.prefactor * (t k).x,
         p.torque.y + g.dipole.prefactor * (t k).y,
         p.torque.z + g.dipole.prefactor * (t k).z⟩
      else p.torque }

/-- The triple of the reversed pair at the opposite offset. -/
def mdds_swap (t : Nat × Nat × Int × Int × Int) : Nat × Nat × Int × Int × Int :=
  (t.2.1, t.1, -t.2.2.1, -t.2.2.2.1, -t.2.2.2.2)

end ForceTerms

/-- One unit dipole along `x` at `x = 1`. -/
def singleQ : List (Particle ℚ) :=
  [dipoleQ ⟨1, 0, 0⟩ ⟨1, 0, 0⟩]

/-! ## Configuration calls of the dispatch layer -/

section Configuration

variable {K : Type} [LinearOrderedField K]

/-- The value of `ES_OK` in `utils/constants.hpp`. -/
def ES_OK : Int := 0

/-- The value of `ES_ERROR` in `utils/constants.hpp`. -/
def ES_ERROR : Int := 1

/-- The state of the coordinating process a configuration call acts on: the process-wide
variables, the number of parameter broadcasts made so far, and the messages handed to
`runtimeErrorMsg()` so far. -/
structure Node (K : Type) where
  globals : Globals K
  broadcasts : Nat
  runtime_errors : List String

/-- Modelled from the spec: `mpi_bcast_coulomb_params` (declared in `communication.hpp`,
which is not in the source tree), the blocking broadcast of the full parameter block from
the coordinating process; on that process it leaves the parameters as they are and counts
as one broadcast. -/
def mpi_bcast_coulomb_params (s : Node K) : Node K :=
  { s with broadcasts := s.broadcasts + 1 }

/-- The function `Dipole::set_Dprefactor(prefactor)`: the returned status and the state the
call leaves. -/
def set_Dprefactor (s : Node K) (prefactor : K) : Int × Node K :=
  if prefactor < 0 then
    (ES_ERROR,
      { s with runtime_errors := s.runtime_errors ++ ["Dipolar prefactor has to be >=0"] })
  else
    (ES_OK,
      mpi_bcast_coulomb_params
        { s with
          globals := { s.globals with dipole := { s.globals.dipole with prefactor := prefactor } } })

end Configuration

/-! ## Method selection (`magnetic_non_p3m_methods.cpp`) -/

section MethodSelection

variable {K : Type} [LinearOrderedField K]

/-- Modelled from the spec: `Dipole::set_method_local` (declared in `dipole.hpp`, which is
not in the source tree), the configuration-time change of the active method; it stores
the new method in `dipole.method`. -/
def set_method_local (s : Node K) (method : DipolarInteraction) : Node K :=
  { s with globals := { s.globals with dipole := { s.globals.dipole with method := method } } }

/-- The function `dawaanr_set_params()`: the returned status and the state the call
leaves. -/
def dawaanr_set_params (s : Node K) : Int × Node K :=
  if s.globals.n_nodes > 1 then (ES_ERROR, s)
  else
    let s1 :=
      if s.globals.dipole.method ≠ DipolarInteraction.DIPOLAR_ALL_WITH_ALL_AND_NO_REPLICA then
        set_method_local s DipolarInteraction.DIPOLAR_ALL_WITH_ALL_AND_NO_REPLICA
      else s
    -- also necessary on 1 CPU, does more than just broadcasting
    (ES_OK, mpi_bcast_coulomb_params s1)

/-- The function `mdds_set_params(n_cut)`: the returned status and the state the call
leaves. The message printed to `stderr` when the cutoff is zero is not part of the
state. -/
def mdds_set_params (s : Node K) (n_cut : Int) : Int × Node K :=
  if s.globals.n_nodes > 1 then (ES_ERROR, s)
  else
    let s1 : Node K :=
      { s with globals := { s.globals with Ncut_off_magnetic_dipolar_direct_sum := n_cut } }
    let s2 :=
      if s1.globals.dipole.method ≠ DipolarInteraction.DIPOLAR_DS ∧
          s1.globals.dipole.method ≠ DipolarInteraction.DIPOLAR_MDLC_DS then
        set_method_local s1 DipolarInteraction.DIPOLAR_DS
      else s1
    -- also necessary on 1 CPU, does more than just broadcasting
    (ES_OK, mpi_bcast_coulomb_params s2)

/-- How a call of one of the two engines ends, with the particles as they are at that
point: `fatal` is `errexit()`, `returned` a return with the energy. -/
inductive Outcome (K : Type) where
  | fatal (parts : List (Particle K))
  | returned (u : K) (parts : List (Particle K))

/-- The end of a call of `dawaanr_calculations`. The process count is checked by the
first statement of the function (source lines 137-140), so `errexit()` is reached with the
particles of the call's entry. -/
def dawaanr_calculations_outcome (sv : Services K) (g : Globals K)
    (parts : List (Particle K)) (force_flag energy_flag : Bool) : Outcome K :=
  if g.n_nodes ≠ 1 then Outcome.fatal parts
  else
    match dawaanr_calculations sv g parts force_flag energy_flag with
    | some r => Outcome.returned r.1 r.2
    | none => Outcome.fatal parts

/-- The end of a call of `magnetic_dipolar_direct_sum_calculations`. The process count is
checked by the first statement of the function (source lines 212-215), so `errexit()` is
reached with the particles of the call's entry. -/
def magnetic_dipolar_direct_sum_calculations_outcome (sv : Services K) (g : Globals K)
    (parts : List (Particle K)) (force_flag energy_flag : Bool) : Outcome K :=
  if g.n_nodes ≠ 1 then Outcome.fatal parts
  else
    match magnetic_dipolar_direct_sum_calculations sv g parts force_flag energy_flag with
    | some r => Outcome.returned r.1 r.2
    | none => Outcome.fatal parts

end MethodSelection

/-! ## The barostat virial (`npt.cpp`) -/

section Npt

variable {K : Type} [LinearOrderedField K]

/-- The compile-time switches the dispatch layer is written under, and the constant
`INTEG_METHOD_NPT_ISO` of `integrate.hpp`, which is not in the source tree. -/
structure Build where
  DP3M : Bool
  DIPOLAR_BARNES_HUT : Bool
  SCAFACOS : Bool
  SCAFACOS_DIPOLES : Bool
  NPT : Bool
  INTEG_METHOD_NPT_ISO : Int

/-- The fields of the global `nptiso` that `npt.cpp` names. -/
structure nptiso_struct (K : Type) where
  piston : K
  inv_piston : K
  volume : K
  p_inst : K
  p_diff : K
  p_vir : Vec3 K
  p_vel : Vec3 K
  geometry : Int
  dimension : Int
  cubic_box : Bool
  non_const_dim : Int

/-- The integrator state the virial functions act on: `integ_switch` and `nptiso`. -/
structure Integrator (K : Type) where
  integ_switch : Int
  nptiso : nptiso_struct K

/-- The function `npt_reset_instantaneous_virials()`. -/
def npt_reset_instantaneous_virials (b : Build) (s : Integrator K) : Integrator K :=
  if s.integ_switch = b.INTEG_METHOD_NPT_ISO then
    { s with nptiso := { s.nptiso with p_vir := ⟨0, 0, 0⟩ } }
  else s

/-- The function `npt_add_virial_contribution(force, d)`. -/
def npt_add_virial_contribution (b : Build) (s : Integrator K) (force d : Vec3 K) :
    Integrator K :=
  if s.integ_switch = b.INTEG_METHOD_NPT_ISO then
    { s with
      nptiso :=
        { s.nptiso with
          p_vir :=
            ⟨s.nptiso.p_vir.x + force.x * d.x, s.nptiso.p_vir.y + force.y * d.y,
              s.nptiso.p_vir.z + force.z * d.z⟩ } }
  else s

end Npt

/-! ## The dispatch layer (`dipole.cpp`) -/

section Dispatch

variable {K : Type} [LinearOrderedField K] {S : Type}

/-- The two arrays of an `Observable_stat` the dispatch layer writes, each a map from its
index. The struct comes from a header outside the source tree; the arrays are taken as
disjoint. -/
structure Observable_stat (K : Type) where
  coulomb : Nat → K
  dipolar : Nat → K

/-- The state the dispatch layer acts on: the process-wide variables with the error log,
the integrator state, the particles, and the state `S` of the solvers outside the source
tree. -/
structure Core (K S : Type) where
  node : Node K
  integrator : Integrator K
  parts : List (Particle K)
  solver : S

/-- Modelled from the spec: the long-range solvers outside the source tree (mesh Ewald,
layer correction, third-party library), each acting on the particles and on its own state
and, where the source uses its value, returning a scalar. -/
structure External (K S : Type) where
  dp3m_dipole_assign : List (Particle K) × S → List (Particle K) × S
  dp3m_calc_kspace_forces : Bool → Bool → List (Particle K) × S → K × (List (Particle K) × S)
  add_mdlc_force_corrections : List (Particle K) × S → List (Particle K) × S
  add_mdlc_energy_corrections : List (Particle K) × S → K × (List (Particle K) × S)
  scafacos_dipolar : S → Bool
  scafacos_add_long_range_force : List (Particle K) × S → List (Particle K) × S
  scafacos_long_range_energy : List (Particle K) × S → K × (List (Particle K) × S)

/-- A state with the particles and the solver state replaced. -/
def Core.with_sim (w : Core K S) (r : List (Particle K) × S) : Core K S :=
  { w with parts := r.1, solver := r.2 }

/-- The default branch of the force and energy switches:
`runtimeErrorMsg() << "unknown dipolar method"`. -/
def unknown_dipolar_method (w : Core K S) : Core K S :=
  { w with
    node := { w.node with runtime_errors := w.node.runtime_errors ++ ["unknown dipolar method"] } }

/-- The function `Dipole::energy_n(n_dipolar)`: the value the reference argument holds after
the call. The switch has no default branch. -/
def energy_n (b : Build) (method : DipolarInteraction) (n_dipolar : Int) : Int :=
  match method with
  | DipolarInteraction.DIPOLAR_NONE => 1 -- because there may be an external magnetic field
  | DipolarInteraction.DIPOLAR_MDLC_P3M => 3
  | DipolarInteraction.DIPOLAR_P3M => 2
  | DipolarInteraction.DIPOLAR_ALL_WITH_ALL_AND_NO_REPLICA => 2
  | DipolarInteraction.DIPOLAR_MDLC_DS => 3
  | DipolarInteraction.DIPOLAR_DS => 2
  | DipolarInteraction.DIPOLAR_DS_GPU => 2
  | DipolarInteraction.DIPOLAR_BH_GPU => if b.DIPOLAR_BARNES_HUT then 2 else n_dipolar
  | DipolarInteraction.DIPOLAR_SCAFACOS => 2

/-- The function `Dipole::integrate_sanity_check()`. -/
def integrate_sanity_check (b : Build) (s : Node K) : Node K :=
  match s.globals.dipole.method with
  | DipolarInteraction.DIPOLAR_NONE => s
  | DipolarInteraction.DIPOLAR_P3M =>
    if b.DP3M then s
    else
      { s with
        runtime_errors :=
          s.runtime_errors ++ ["NpT does not work with your dipolar method, please use P3M."] }
  | _ =>
    { s with
      runtime_errors :=
        s.runtime_errors ++ ["NpT does not work with your dipolar method, please use P3M."] }

/-- The statements of the `DIPOLAR_P3M` case of `Dipole::calc_long_range_force` (source
lines 207-214). -/
def dp3m_long_range_force (b : Build) (ext : External K S) (w : Core K S) : Core K S :=
  let w1 := w.with_sim (ext.dp3m_dipole_assign (w.parts, w.solver))
  if b.NPT && decide (w1.integrator.integ_switch = b.INTEG_METHOD_NPT_ISO) then
    let r := ext.dp3m_calc_kspace_forces true true (w1.parts, w1.solver)
    let w2 := w1.with_sim r.2
    { w2 with
      integrator :=
        { w2.integrator with
          nptiso :=
            { w2.integrator.nptiso with
              p_vir :=
                ⟨w2.integrator.nptiso.p_vir.x + r.1, w2.integrator.nptiso.p_vir.y,
                  w2.integrator.nptiso.p_vir.z⟩ } } }
  else w1.with_sim (ext.dp3m_calc_kspace_forces true false (w1.parts, w1.solver)).2

/-- The statements of the `DIPOLAR_DS` case of `Dipole::calc_long_range_force`. -/
def mdds_long_range_force (sv : Services K) (w : Core K S) : Option (Core K S) :=
  (magnetic_dipolar_direct_sum_calculations sv w.node.globals w.parts true false).map
    fun r => { w with parts := r.2 }

/-- The function `Dipole::calc_long_range_force()`: `none` is a fatal end (`errexit()` in an
engine, or a failed `assert`). -/
def calc_long_range_force (b : Build) (sv : Services K) (ext : External K S) (w : Core K S) :
    Option (Core K S) :=
  match w.node.globals.dipole.method with
  | DipolarInteraction.DIPOLAR_MDLC_P3M =>
    if b.DP3M then
      some (dp3m_long_range_force b ext
        (w.with_sim (ext.add_mdlc_force_corrections (w.parts, w.solver))))
    else some (unknown_dipolar_method w)
  | DipolarInteraction.DIPOLAR_P3M =>
    if b.DP3M then some (dp3m_long_range_force b ext w) else some (unknown_dipolar_method w)
  | DipolarInteraction.DIPOLAR_ALL_WITH_ALL_AND_NO_REPLICA =>
    (dawaanr_calculations sv w.node.globals w.parts true false).map
      fun r => { w with parts := r.2 }
  | DipolarInteraction.DIPOLAR_MDLC_DS =>
    if b.DP3M then
      mdds_long_range_force sv (w.with_sim (ext.add_mdlc_force_corrections (w.parts, w.solver)))
    else some (unknown_dipolar_method w)
  | DipolarInteraction.DIPOLAR_DS => mdds_long_range_force sv w
  | DipolarInteraction.DIPOLAR_DS_GPU => some w -- Do nothing. It's an actor
  | DipolarInteraction.DIPOLAR_BH_GPU =>
    if b.DIPOLAR_BARNES_HUT then some w else some (unknown_dipolar_method w)
  | DipolarInteraction.DIPOLAR_SCAFACOS =>
    if b.SCAFACOS_DIPOLES then
      if ext.scafacos_dipolar w.solver then
        some (w.with_sim (ext.scafacos_add_long_range_force (w.parts, w.solver)))
      else none
    else some (unknown_dipolar_method w)
  | DipolarInteraction.DIPOLAR_NONE => some w

/-- The assignment `energy.dipolar[i] = v`. -/
def Observable_stat.set_dipolar (energy : Observable_stat K) (i : Nat) (v : K) :
    Observable_stat K :=
  { energy with dipolar := Function.update energy.dipolar i v }

/-- The assignment `p_tensor.coulomb[i] = v`. -/
def Observable_stat.set_coulomb (p_tensor : Observable_stat K) (i : Nat) (v : K) :
    Observable_stat K :=
  { p_tensor with coulomb := Function.update p_tensor.coulomb i v }

/-- The function `Dipole::calc_energy_long_range(energy)`: the array and the state the call
leaves; `none` is a fatal end (`errexit()` in an engine, or a failed `assert`). -/
def calc_energy_long_range (b : Build) (sv : Services K) (ext : External K S) (w : Core K S)
    (energy : Observable_stat K) : Option (Observable_stat K × Core K S) :=
  match w.node.globals.dipole.method with
  | DipolarInteraction.DIPOLAR_P3M =>
    if b.DP3M then
      let w1 := w.with_sim (ext.dp3m_dipole_assign (w.parts, w.solver))
      let r := ext.dp3m_calc_kspace_forces false true (w1.parts, w1.solver)
      some (energy.set_dipolar 1 r.1, w1.with_sim r.2)
    else some (energy, unknown_dipolar_method w)
  | DipolarInteraction.DIPOLAR_MDLC_P3M =>
    if b.DP3M then
      let w1 := w.with_sim (ext.dp3m_dipole_assign (w.parts, w.solver))
      let r := ext.dp3m_calc_kspace_forces false true (w1.parts, w1.solver)
      let w2 := w1.with_sim r.2
      let c := ext.add_mdlc_energy_corrections (w2.parts, w2.solver)
      some ((energy.set_dipolar 1 r.1).set_dipolar 2 c.1, w2.with_sim c.2)
    else some (energy, unknown_dipolar_method w)
  | DipolarInteraction.DIPOLAR_ALL_WITH_ALL_AND_NO_REPLICA =>
    (dawaanr_calculations sv w.node.globals w.parts false true).map
      fun r => (energy.set_dipolar 1 r.1, { w with parts := r.2 })
  | DipolarInteraction.DIPOLAR_MDLC_DS =>
    if b.DP3M then
      (magnetic_dipolar_direct_sum_calculations sv w.node.globals w.parts false true).map
        fun r =>
          let w1 : Core K S := { w with parts := r.2 }
          let c := ext.add_mdlc_energy_corrections (w1.parts, w1.solver)
          ((energy.set_dipolar 1 r.1).set_dipolar 2 c.1, w1.with_sim c.2)
    else some (energy, unknown_dipolar_method w)
  | DipolarInteraction.DIPOLAR_DS =>
    (magnetic_dipolar_direct_sum_calculations sv w.node.globals w.parts false true).map
      fun r => (energy.set_dipolar 1 r.1, { w with parts := r.2 })
  | DipolarInteraction.DIPOLAR_DS_GPU => some (energy, w) -- Do nothing, it's an actor.
  | DipolarInteraction.DIPOLAR_BH_GPU =>
    if b.DIPOLAR_BARNES_HUT then some (energy, w) else some (energy, unknown_dipolar_method w)
  | DipolarInteraction.DIPOLAR_SCAFACOS =>
    if b.SCAFACOS_DIPOLES then
      if ext.scafacos_dipolar w.solver then
        let r := ext.scafacos_long_range_energy (w.parts, w.solver)
        some (energy.set_dipolar 1 r.1, w.with_sim r.2)
      else none
    else some (energy, unknown_dipolar_method w)
  | DipolarInteraction.DIPOLAR_NONE => some (energy, w)

/-- The function `Dipole::calc_pressure_long_range(virials, p_tensor)`: the two arrays and
the state the call leaves. The warnings printed to `stderr` are not part of the state. -/
def calc_pressure_long_range (b : Build) (ext : External K S) (w : Core K S)
    (virials p_tensor : Observable_stat K) :
    Observable_stat K × Observable_stat K × Core K S :=
  match w.node.globals.dipole.method with
  | DipolarInteraction.DIPOLAR_P3M =>
    if b.DP3M then
      let w1 := w.with_sim (ext.dp3m_dipole_assign (w.parts, w.solver))
      let r := ext.dp3m_calc_kspace_forces false true (w1.parts, w1.solver)
      let virials1 := virials.set_dipolar 1 r.1
      let p_tensor1 :=
        (List.range 3).foldl
          (fun (p : Observable_stat K) k => p.set_coulomb (9 + k * 3 + k) (virials1.dipolar 1 / 3))
          p_tensor
      (virials1, p_tensor1, w1.with_sim r.2)
    else (virials, p_tensor, w)
  | _ => (virials, p_tensor, w)

/-- The methods the force and energy switches have a case for under the build `b`. -/
def dipolar_method_handled (b : Build) (method : DipolarInteraction) : Bool :=
  match method with
  | DipolarInteraction.DIPOLAR_MDLC_P3M => b.DP3M
  | DipolarInteraction.DIPOLAR_P3M => b.DP3M
  | DipolarInteraction.DIPOLAR_MDLC_DS => b.DP3M
  | DipolarInteraction.DIPOLAR_BH_GPU => b.DIPOLAR_BARNES_HUT
  | DipolarInteraction.DIPOLAR_SCAFACOS => b.SCAFACOS_DIPOLES
  | _ => true

end Dispatch

/-! ## Concrete states of the dispatch layer -/

/-- The box of `globalsQ` shared by two processes. -/
def globalsQ_two : Globals ℚ :=
  ⟨⟨2, DipolarInteraction.DIPOLAR_DS⟩, 2, 0, ⟨⟨10, 10, 10⟩, ⟨true, true, true⟩⟩⟩

/-- A coordinating process with the box of `globalsQ`, the given method and replica
cutoff, no broadcast made and no error raised. -/
def nodeQ (method : DipolarInteraction) (Ncut : Int) : Node ℚ :=
  ⟨⟨⟨2, method⟩, 1, Ncut, ⟨⟨10, 10, 10⟩, ⟨true, true, true⟩⟩⟩, 0, []⟩

/-- A build with every switch on and `INTEG_METHOD_NPT_ISO = 0`. -/
def buildQ : Build :=
  ⟨true, true, true, true, true, 0⟩

/-- Solvers outside the source tree that leave particles and solver state alone and
return the scalar 3 where one is asked for. -/
def externalQ : External ℚ Unit :=
  ⟨id, fun _ _ r => (3, r), id, fun r => (3, r), fun _ => true, id, fun r => (3, r)⟩

/-- The two dipoles of `pairQ` on one process with the given method, no replicas, an
integrator other than the barostat, and no error raised. -/
def coreQ (method : DipolarInteraction) : Core ℚ Unit :=
  ⟨nodeQ method 0, ⟨1, ⟨1, 1, 1000, 0, 0, 0, 0, 0, 3, true, 0⟩⟩, pairQ, ()⟩

/-- An `Observable_stat` with 5 in every slot. -/
def statQ : Observable_stat ℚ :=
  ⟨fun _ => 5, fun _ => 5⟩

/-- A barostat integrator state (`integ_switch = INTEG_METHOD_NPT_ISO` of `buildQ`) with
virial `(7, 8, 9)`. -/
def integratorQ : Integrator ℚ :=
  ⟨0, ⟨1, 1, 1000, 0, 0, ⟨7, 8, 9⟩, 0, 0, 3, true, 0⟩⟩

/-! ## Closed forms of the kernel torques -/

section TorqueForms

variable {K : Type} [LinearOrderedField K]

/-- The field of a dipole `m` at displacement `r` of length `d` from it, without the
prefactor: `3*(m.r)/d^5 * r - m/d^3`. It is even in `r`. -/
def dipole_field (m r : Vec3 K) (d : K) : Vec3 K :=
  Vec3.smul (3 * m.dot r / d ^ 5) r - Vec3.smul (1 / d ^ 3) m

/-- The vector the kernel adds, times the prefactor, to the torque of particle 1, as a
function of the moments, the displacement `dr`, `r2` and `r`. -/
def kernel_tt1 (dip1 dip2 dr : Vec3 K) (r2 r : K) : Vec3 K :=
  let r3 := r2 * r
  let r5 := r3 * r2
  let pe3 := dip2.dot dr
  let pe4 := 3 / r5
  let cc := pe4 * pe3
  let ax := dip1.y * dip2.z - dip2.y * dip1.z
  let ay := dip2.x * dip1.z - dip1.x * dip2.z
  let az := dip1.x * dip2.y - dip2.x * dip1.y
  let bx := dip1.y * dr.z - dr.y * dip1.z
  let by1 := dr.x * dip1.z - dip1.x * dr.z
  let bz := dip1.x * dr.y - dr.x * dip1.y
  ⟨-ax / r3 + bx * cc, -ay / r3 + by1 * cc, -az / r3 + bz * cc⟩

/-- The vector the kernel adds, times the prefactor, to the torque of particle 2. -/
def kernel_tt2 (dip1 dip2 dr : Vec3 K) (r2 r : K) : Vec3 K :=
  let r3 := r2 * r
  let r5 := r3 * r2
  let pe2 := dip1.dot dr
  let pe4 := 3 / r5
  let d := pe4 * pe2
  let ax := dip1.y * dip2.z - dip2.y * dip1.z
  let ay := dip2.x * dip1.z - dip1.x * dip2.z
  let az := dip1.x * dip2.y - dip2.x * dip1.y
  let bx := dip2.y * dr.z - dr.y * dip2.z
  let by2 := dr.x * dip2.z - dip2.x * dr.z
  let bz := dip2.x * dr.y - dr.x * dip2.y
  ⟨ax / r3 + bx * d, ay / r3 + by2 * d, az / r3 + bz * d⟩

end TorqueForms

section KernelIncrementDefs

variable {K : Type} [LinearOrderedField K]

/-- The vector one kernel call on `(p, q)` with `force_flag` set adds to the force of `p`
and subtracts from the force of `q`. -/
def kernel_force (sv : Services K) (g : Globals K) (p q : Particle K) : Vec3 K :=
  Vec3.smul g.dipole.prefactor
    (kernel_ff p.dip q.dip (sv.get_mi_vector p.pos q.pos g.box_geo)
      ((sv.get_mi_vector p.pos q.pos g.box_geo).dot (sv.get_mi_vector p.pos q.pos g.box_geo))
      (sv.sqrt ((sv.get_mi_vector p.pos q.pos g.box_geo).dot
        (sv.get_mi_vector p.pos q.pos g.box_geo))))

/-- The vector one kernel call on `(p, q)` with `force_flag` set adds to the torque of `p`;
zero in a build without `ROTATION`. -/
def kernel_torque1 (sv : Services K) (g : Globals K) (p q : Particle K) : Vec3 K :=
  if sv.ROTATION = true then
    Vec3.smul g.dipole.prefactor
      (kernel_tt1 p.dip q.dip (sv.get_mi_vector p.pos q.pos g.box_geo)
        ((sv.get_mi_vector p.pos q.pos g.box_geo).dot
          (sv.get_mi_vector p.pos q.pos g.box_geo))
        (sv.sqrt ((sv.get_mi_vector p.pos q.pos g.box_geo).dot
          (sv.get_mi_vector p.pos q.pos g.box_geo))))
  else 0

/-- The vector one kernel call on `(p, q)` with `force_flag` set adds to the torque of `q`;
zero in a build without `ROTATION`. -/
def kernel_torque2 (sv : Services K) (g : Globals K) (p q : Particle K) : Vec3 K :=
  if sv.ROTATION = true then
    Vec3.smul g.dipole.prefactor
      (kernel_tt2 p.dip q.dip (sv.get_mi_vector p.pos q.pos g.box_geo)
        ((sv.get_mi_vector p.pos q.pos g.box_geo).dot
          (sv.get_mi_vector p.pos q.pos g.box_geo))
        (sv.sqrt ((sv.get_mi_vector p.pos q.pos g.box_geo).dot
          (sv.get_mi_vector p.pos q.pos g.box_geo))))
  else 0

end KernelIncrementDefs

section ZeroSepDefs

variable {K : Type} [LinearOrderedField K]

/-- The image-shifted separation `(rnx, rny, rnz)` the direct sum forms for the particles
`p` and `q` at replica offset zero: the difference of the folded positions plus
`0 * boxLength`. -/
def mdds_zero_sep (sv : Services K) (g : Globals K) (p q : Particle K) : Vec3 K :=
  ⟨(sv.folded_position p.pos g.box_geo).x - (sv.folded_position q.pos g.box_geo).x +
      ((0 : Int) : K) * g.box_geo.length.x,
    (sv.folded_position p.pos g.box_geo).y - (sv.folded_position q.pos g.box_geo).y +
      ((0 : Int) : K) * g.box_geo.length.y,
    (sv.folded_position p.pos g.box_geo).z - (sv.folded_position q.pos g.box_geo).z +
      ((0 : Int) : K) * g.box_geo.length.z⟩

end ZeroSepDefs

/-- A unit dipole along `x` at `(1,0,0)`, a particle without dipole at `(5,0,0)` and a unit
dipole along `z` at `(1,0,3)`. -/
def mixedQ : List (Particle ℚ) :=
  [dipoleQ ⟨1, 0, 0⟩ ⟨1, 0, 0⟩, ⟨⟨5, 0, 0⟩, 0, 0, 0, 0⟩, dipoleQ ⟨1, 0, 3⟩ ⟨0, 0, 1⟩]

/-! ## Theorems -/

section KernelTheorems

variable {K : Type} [LinearOrderedField K]

@[simp] theorem Vec3.add_x {R : Type} [Add R] (a b : Vec3 R) : (a + b).x = a.x + b.x := rfl
@[simp] theorem Vec3.add_y {R : Type} [Add R] (a b : Vec3 R) : (a + b).y = a.y + b.y := rfl
@[simp] theorem Vec3.add_z {R : Type} [Add R] (a b : Vec3 R) : (a + b).z = a.z + b.z := rfl
@[simp] theorem Vec3.sub_x {R : Type} [Sub R] (a b : Vec3 R) : (a - b).x = a.x - b.x := rfl
@[simp] theorem Vec3.sub_y {R : Type} [Sub R] (a b : Vec3 R) : (a - b).y = a.y - b.y := rfl
@[simp] theorem Vec3.sub_z {R : Type} [Sub R] (a b : Vec3 R) : (a - b).z = a.z - b.z := rfl
@[simp] theorem Vec3.neg_x {R : Type} [Neg R] (a : Vec3 R) : (-a).x = -a.x := rfl
@[simp] theorem Vec3.neg_y {R : Type} [Neg R] (a : Vec3 R) : (-a).y = -a.y := rfl
@[simp] theorem Vec3.neg_z {R : Type} [Neg R] (a : Vec3 R) : (-a).z = -a.z := rfl
@[simp] theorem Vec3.zero_x {R : Type} [Zero R] : (0 : Vec3 R).x = 0 := rfl
@[simp] theorem Vec3.zero_y {R : Type} [Zero R] : (0 : Vec3 R).y = 0 := rfl
@[simp] theorem Vec3.zero_z {R : Type} [Zero R] : (0 : Vec3 R).z = 0 := rfl
@[simp] theorem Vec3.smul_x {R : Type} [Mul R] (c : R) (a : Vec3 R) :
    (Vec3.smul c a).x = c * a.x := rfl
@[simp] theorem Vec3.smul_y {R : Type} [Mul R] (c : R) (a : Vec3 R) :
    (Vec3.smul c a).y = c * a.y := rfl
@[simp] theorem Vec3.smul_z {R : Type} [Mul R] (c : R) (a : Vec3 R) :
    (Vec3.smul c a).z = c * a.z := rfl

/-- The energy the kernel returns, in terms of `r2` and `r = sqrt r2`; it does not depend
on `force_flag`. -/
theorem calc_dipole_dipole_ia_fst (sv : Services K) (g : Globals K) (p1 p2 : Particle K)
    (dip1 : Vec3 K) (force_flag : Bool) :
    (calc_dipole_dipole_ia sv g p1 dip1 p2 force_flag).1 =
      g.dipole.prefactor *
        (dip1.dot p2.dip /
            ((sv.get_mi_vector p1.pos p2.pos g.box_geo).dot
                (sv.get_mi_vector p1.pos p2.pos g.box_geo) *
              sv.sqrt ((sv.get_mi_vector p1.pos p2.pos g.box_geo).dot
                (sv.get_mi_vector p1.pos p2.pos g.box_geo))) -
          3 / ((sv.get_mi_vector p1.pos p2.pos g.box_geo).dot
                (sv.get_mi_vector p1.pos p2.pos g.box_geo) *
              sv.sqrt ((sv.get_mi_vector p1.pos p2.pos g.box_geo).dot
                (sv.get_mi_vector p1.pos p2.pos g.box_geo)) *
              (sv.get_mi_vector p1.pos p2.pos g.box_geo).dot
                (sv.get_mi_vector p1.pos p2.pos g.box_geo)) *
            dip1.dot (sv.get_mi_vector p1.pos p2.pos g.box_geo) *
            p2.dip.dot (sv.get_mi_vector p1.pos p2.pos g.box_geo)) := by
  unfold calc_dipole_dipole_ia
  cases force_flag <;> cases sv.ROTATION <;> rfl

/-- C1: for every `m1` (the argument `dip1`), `m2` (the moment of `p2`), prefactor and
minimum-image displacement `r` with `d = |r| > 0`, the kernel returns
`prefactor * ((m1.m2)/d^3 - 3*(m1.r)*(m2.r)/d^5)`, for both values of `force_flag`. -/
theorem calc_dipole_dipole_ia_energy (sv : Services K) (g : Globals K) (p1 p2 : Particle K)
    (dip1 : Vec3 K) (force_flag : Bool) (d : K)
    (hd : d = sv.sqrt ((sv.get_mi_vector p1.pos p2.pos g.box_geo).dot
      (sv.get_mi_vector p1.pos p2.pos g.box_geo)))
    (hsq : d * d = (sv.get_mi_vector p1.pos p2.pos g.box_geo).dot
      (sv.get_mi_vector p1.pos p2.pos g.box_geo))
    (hpos : 0 < d) :
    (calc_dipole_dipole_ia sv g p1 dip1 p2 force_flag).1 =
      g.dipole.prefactor *
        (dip1.dot p2.dip / d ^ 3 -
          3 * dip1.dot (sv.get_mi_vector p1.pos p2.pos g.box_geo) *
            p2.dip.dot (sv.get_mi_vector p1.pos p2.pos g.box_geo) / d ^ 5) := by
  rw [calc_dipole_dipole_ia_fst, ← hd, ← hsq]
  have hne : d ≠ 0 := ne_of_gt hpos
  field_simp
  ring

/-- Witness of C1: two parallel unit dipoles along `x`, one box unit apart along `z`. -/
theorem calc_dipole_dipole_ia_energy_witness :
    (calc_dipole_dipole_ia (servicesQ true) (globalsQ ⟨true, true, true⟩ 0)
      (dipoleQ ⟨0, 0, 1⟩ ⟨1, 0, 0⟩) ⟨1, 0, 0⟩ (dipoleQ ⟨0, 0, 0⟩ ⟨1, 0, 0⟩) true).1 = 2 := by
  have h := calc_dipole_dipole_ia_energy (servicesQ true) (globalsQ ⟨true, true, true⟩ 0)
    (dipoleQ ⟨0, 0, 1⟩ ⟨1, 0, 0⟩) (dipoleQ ⟨0, 0, 0⟩ ⟨1, 0, 0⟩) ⟨1, 0, 0⟩ true 1
    (by norm_num [servicesQ, globalsQ, dipoleQ, get_mi_vector_Q, get_mi_coord_Q, Vec3.dot,
      sqrtQ])
    (by norm_num [servicesQ, globalsQ, dipoleQ, get_mi_vector_Q, get_mi_coord_Q, Vec3.dot])
    (by norm_num)
  rw [h]
  norm_num [servicesQ, globalsQ, dipoleQ, get_mi_vector_Q, get_mi_coord_Q, Vec3.dot]

/-- The force the kernel leaves on particle 1 when `force_flag` is set. -/
theorem calc_dipole_dipole_ia_f1 (sv : Services K) (g : Globals K) (p1 p2 : Particle K)
    (dip1 : Vec3 K) :
    (calc_dipole_dipole_ia sv g p1 dip1 p2 true).2.1.f =
      p1.f + Vec3.smul g.dipole.prefactor
        (kernel_ff dip1 p2.dip (sv.get_mi_vector p1.pos p2.pos g.box_geo)
          ((sv.get_mi_vector p1.pos p2.pos g.box_geo).dot
            (sv.get_mi_vector p1.pos p2.pos g.box_geo))
          (sv.sqrt ((sv.get_mi_vector p1.pos p2.pos g.box_geo).dot
            (sv.get_mi_vector p1.pos p2.pos g.box_geo)))) := by
  unfold calc_dipole_dipole_ia
  cases sv.ROTATION <;> rfl

/-- The force the kernel leaves on particle 2 when `force_flag` is set. -/
theorem calc_dipole_dipole_ia_f2 (sv : Services K) (g : Globals K) (p1 p2 : Particle K)
    (dip1 : Vec3 K) :
    (calc_dipole_dipole_ia sv g p1 dip1 p2 true).2.2.f =
      p2.f - Vec3.smul g.dipole.prefactor
        (kernel_ff dip1 p2.dip (sv.get_mi_vector p1.pos p2.pos g.box_geo)
          ((sv.get_mi_vector p1.pos p2.pos g.box_geo).dot
            (sv.get_mi_vector p1.pos p2.pos g.box_geo))
          (sv.sqrt ((sv.get_mi_vector p1.pos p2.pos g.box_geo).dot
            (sv.get_mi_vector p1.pos p2.pos g.box_geo)))) := by
  unfold calc_dipole_dipole_ia
  cases sv.ROTATION <;> rfl

/-- With `r2 = d * d` and `r = d` the kernel's force vector is the force term of the spec. -/
theorem kernel_ff_eq_pair_force (m1 m2 r : Vec3 K) (d : K) :
    kernel_ff m1 m2 r (d * d) d = pair_force m1 m2 r d := by
  unfold kernel_ff pair_force
  ext
  · show _ = _ + _ + _
    simp only [Vec3.smul]
    ring
  · show _ = _ + _ + _
    simp only [Vec3.smul]
    ring
  · show _ = _ + _ + _
    simp only [Vec3.smul]
    ring

/-- C2: with `force_flag` set, the kernel adds `prefactor * F1` to the force of particle 1
and subtracts the same vector from the force of particle 2, `F1` being the force term of the
spec at the minimum-image displacement; the two increments sum to the zero vector. -/
theorem calc_dipole_dipole_ia_force (sv : Services K) (g : Globals K) (p1 p2 : Particle K)
    (dip1 : Vec3 K) (d : K)
    (hd : d = sv.sqrt ((sv.get_mi_vector p1.pos p2.pos g.box_geo).dot
      (sv.get_mi_vector p1.pos p2.pos g.box_geo)))
    (hsq : d * d = (sv.get_mi_vector p1.pos p2.pos g.box_geo).dot
      (sv.get_mi_vector p1.pos p2.pos g.box_geo))
    (hpos : 0 < d) :
    (calc_dipole_dipole_ia sv g p1 dip1 p2 true).2.1.f =
        p1.f + Vec3.smul g.dipole.prefactor
          (pair_force dip1 p2.dip (sv.get_mi_vector p1.pos p2.pos g.box_geo) d) ∧
      (calc_dipole_dipole_ia sv g p1 dip1 p2 true).2.2.f =
        p2.f - Vec3.smul g.dipole.prefactor
          (pair_force dip1 p2.dip (sv.get_mi_vector p1.pos p2.pos g.box_geo) d) ∧
      ((calc_dipole_dipole_ia sv g p1 dip1 p2 true).2.1.f - p1.f) +
        ((calc_dipole_dipole_ia sv g p1 dip1 p2 true).2.2.f - p2.f) = 0 := by
  have _hne : d ≠ 0 := ne_of_gt hpos
  rw [calc_dipole_dipole_ia_f1, calc_dipole_dipole_ia_f2, ← hd, ← hsq,
    kernel_ff_eq_pair_force]
  refine ⟨rfl, rfl, ?_⟩
  ext <;> simp

/-- Witness of C2: two parallel unit dipoles along `x`, one box unit apart along `z`. -/
theorem calc_dipole_dipole_ia_force_witness :
    (calc_dipole_dipole_ia (servicesQ true) (globalsQ ⟨true, true, true⟩ 0)
        (dipoleQ ⟨0, 0, 1⟩ ⟨1, 0, 0⟩) ⟨1, 0, 0⟩ (dipoleQ ⟨0, 0, 0⟩ ⟨1, 0, 0⟩)
        true).2.1.f = ⟨0, 0, 6⟩ ∧
      (calc_dipole_dipole_ia (servicesQ true) (globalsQ ⟨true, true, true⟩ 0)
        (dipoleQ ⟨0, 0, 1⟩ ⟨1, 0, 0⟩) ⟨1, 0, 0⟩ (dipoleQ ⟨0, 0, 0⟩ ⟨1, 0, 0⟩)
        true).2.2.f = ⟨0, 0, -6⟩ := by
  have h := calc_dipole_dipole_ia_force (servicesQ true) (globalsQ ⟨true, true, true⟩ 0)
    (dipoleQ ⟨0, 0, 1⟩ ⟨1, 0, 0⟩) (dipoleQ ⟨0, 0, 0⟩ ⟨1, 0, 0⟩) ⟨1, 0, 0⟩ 1
    (by norm_num [servicesQ, globalsQ, dipoleQ, get_mi_vector_Q, get_mi_coord_Q, Vec3.dot,
      sqrtQ])
    (by norm_num [servicesQ, globalsQ, dipoleQ, get_mi_vector_Q, get_mi_coord_Q, Vec3.dot])
    (by norm_num)
  rw [h.1, h.2.1]
  constructor <;> ext <;>
    norm_num [servicesQ, globalsQ, dipoleQ, get_mi_vector_Q, get_mi_coord_Q, Vec3.dot,
      pair_force]

end KernelTheorems

section Loops

theorem foldl_flatMap_of_forall {α β σ : Type} (T : α → List β) (step : σ → β → σ)
    (F : σ → α → σ) (h : ∀ s a, F s a = (T a).foldl step s) (l : List α) (s : σ) :
    l.foldl F s = (l.flatMap T).foldl step s := by
  induction l generalizing s with
  | nil => rfl
  | cons a l ih => simp [List.foldl_cons, List.flatMap_cons, List.foldl_append, h, ih]

theorem foldl_guard_eq_filter {β σ γ : Type} (c : β → Bool) (mk : β → γ) (step : σ → γ → σ)
    (l : List β) (s : σ) :
    l.foldl (fun s b => if c b then step s (mk b) else s) s =
      ((l.filter c).map mk).foldl step s := by
  induction l generalizing s with
  | nil => rfl
  | cons a l ih =>
    by_cases hc : c a = true
    · simp [List.foldl_cons, List.filter_cons, hc, ih]
    · simp [List.foldl_cons, List.filter_cons, hc, ih]

theorem mdds_pair_loop_eq_foldl {σ : Type} (NCUT : Vec3 Int) (NCUT2 : Int)
    (body : σ → Nat → Nat → Int → Int → Int → σ) (i j : Nat) (s : σ) :
    mdds_pair_loop NCUT NCUT2 body i j s =
      (mdds_offsets_list NCUT NCUT2 i j).foldl (fun s o => body s i j o.1 o.2.1 o.2.2) s := by
  unfold mdds_pair_loop mdds_offsets_list
  apply foldl_flatMap_of_forall
  intro s nx
  apply foldl_flatMap_of_forall
  intro s ny
  rw [← foldl_guard_eq_filter (fun nz => mdds_guard NCUT2 i j nx ny nz)
    (fun nz => (nx, ny, nz)) (fun s o => body s i j o.1 o.2.1 o.2.2)]
  congr 1
  funext s nz
  unfold mdds_guard
  by_cases h1 : (i == j && nx == 0 && ny == 0 && nz == 0) = true <;>
    by_cases h2 : nx * nx + ny * ny + nz * nz ≤ NCUT2 <;> simp [h1, h2]

theorem mdds_loop_eq_foldl_list {σ : Type} (n : Nat) (NCUT : Vec3 Int) (NCUT2 : Int)
    (body : σ → Nat → Nat → Int → Int → Int → σ) (s : σ) :
    mdds_loop n NCUT NCUT2 body s =
      (mdds_triples_list n NCUT NCUT2).foldl
        (fun s t => body s t.1 t.2.1 t.2.2.1 t.2.2.2.1 t.2.2.2.2) s := by
  unfold mdds_loop mdds_triples_list
  apply foldl_flatMap_of_forall
  intro s i
  apply foldl_flatMap_of_forall
  intro s j
  rw [mdds_pair_loop_eq_foldl, List.foldl_map]

theorem foldl_snoc_eq {α : Type} (l acc : List α) :
    l.foldl (fun acc a => acc ++ [a]) acc = acc ++ l := by
  induction l generalizing acc with
  | nil => simp
  | cons a l ih => simp [ih]

theorem mdds_triples_eq_list (n : Nat) (NCUT : Vec3 Int) (NCUT2 : Int) :
    mdds_triples n NCUT NCUT2 = mdds_triples_list n NCUT NCUT2 := by
  unfold mdds_triples
  rw [mdds_loop_eq_foldl_list]
  exact (foldl_snoc_eq _ []).trans (List.nil_append _)

theorem mdds_offsets_eq_list (NCUT : Vec3 Int) (NCUT2 : Int) (i j : Nat) :
    mdds_offsets NCUT NCUT2 i j = mdds_offsets_list NCUT NCUT2 i j := by
  unfold mdds_offsets
  rw [mdds_pair_loop_eq_foldl]
  exact (foldl_snoc_eq _ []).trans (List.nil_append _)

theorem mem_intRange (lo hi x : Int) : x ∈ intRange lo hi ↔ lo ≤ x ∧ x ≤ hi := by
  unfold intRange
  simp only [List.mem_map, List.mem_range]
  constructor
  · rintro ⟨k, hk, rfl⟩
    omega
  · rintro ⟨h1, h2⟩
    exact ⟨(x - lo).toNat, by omega, by omega⟩

theorem nodup_intRange (lo hi : Int) : (intRange lo hi).Nodup := by
  unfold intRange
  refine List.Nodup.map ?_ (List.nodup_range _)
  intro a b h
  simpa using h

end Loops

section LoopLists

theorem nodup_flatMap_of_tag {α β : Type} (l : List α) (f : α → List β) (tag : β → α)
    (hl : l.Nodup) (hf : ∀ a ∈ l, (f a).Nodup) (ht : ∀ a, ∀ b ∈ f a, tag b = a) :
    (l.flatMap f).Nodup := by
  rw [List.nodup_flatMap]
  refine ⟨hf, ?_⟩
  refine List.Pairwise.imp ?_ hl
  intro a b hab x hxa hxb
  exact hab ((ht a x hxa).symm.trans (ht b x hxb))

theorem mem_mdds_offsets_list (NCUT : Vec3 Int) (NCUT2 : Int) (i j : Nat) (nx ny nz : Int) :
    (nx, ny, nz) ∈ mdds_offsets_list NCUT NCUT2 i j ↔
      (-NCUT.x ≤ nx ∧ nx ≤ NCUT.x) ∧ (-NCUT.y ≤ ny ∧ ny ≤ NCUT.y) ∧
        (-NCUT.z ≤ nz ∧ nz ≤ NCUT.z) ∧ ¬(i = j ∧ nx = 0 ∧ ny = 0 ∧ nz = 0) ∧
        nx * nx + ny * ny + nz * nz ≤ NCUT2 := by
  unfold mdds_offsets_list mdds_guard
  simp only [List.mem_flatMap, List.mem_map, List.mem_filter, mem_intRange, Prod.mk.injEq,
    Bool.and_eq_true, Bool.not_eq_true', Bool.and_eq_false_iff, beq_eq_false_iff_ne,
    decide_eq_true_eq, beq_iff_eq, ne_eq]
  constructor
  · rintro ⟨a, ha, b, hb, c, ⟨hc, hg, hs⟩, rfl, rfl, rfl⟩
    refine ⟨ha, hb, hc, ?_, hs⟩
    rintro ⟨h1, h2, h3, h4⟩
    tauto
  · rintro ⟨ha, hb, hc, hg, hs⟩
    refine ⟨nx, ha, ny, hb, nz, ⟨hc, ?_, hs⟩, rfl, rfl, rfl⟩
    tauto

theorem nodup_mdds_offsets_list (NCUT : Vec3 Int) (NCUT2 : Int) (i j : Nat) :
    (mdds_offsets_list NCUT NCUT2 i j).Nodup := by
  unfold mdds_offsets_list
  refine nodup_flatMap_of_tag _ _ (fun o => o.1) (nodup_intRange _ _) ?_ ?_
  · intro nx _
    refine nodup_flatMap_of_tag _ _ (fun o => o.2.1) (nodup_intRange _ _) ?_ ?_
    · intro ny _
      refine List.Nodup.map ?_ ((nodup_intRange _ _).filter _)
      intro a b h
      simpa using h
    · intro ny o ho
      simp only [List.mem_map] at ho
      obtain ⟨_, _, rfl⟩ := ho
      rfl
  · intro nx o ho
    simp only [List.mem_flatMap, List.mem_map] at ho
    obtain ⟨_, _, _, _, rfl⟩ := ho
    rfl

theorem mem_mdds_triples_list (n : Nat) (NCUT : Vec3 Int) (NCUT2 : Int) (i j : Nat)
    (nx ny nz : Int) :
    (i, j, nx, ny, nz) ∈ mdds_triples_list n NCUT NCUT2 ↔
      i < n ∧ j < n ∧ (nx, ny, nz) ∈ mdds_offsets_list NCUT NCUT2 i j := by
  unfold mdds_triples_list
  simp only [List.mem_flatMap, List.mem_map, List.mem_range, Prod.mk.injEq]
  constructor
  · rintro ⟨a, ha, b, hb, o, ho, rfl, rfl, rfl⟩
    exact ⟨ha, hb, ho⟩
  · rintro ⟨hi, hj, ho⟩
    exact ⟨i, hi, j, hj, (nx, ny, nz), ho, rfl, rfl, rfl⟩

theorem nodup_mdds_triples_list (n : Nat) (NCUT : Vec3 Int) (NCUT2 : Int) :
    (mdds_triples_list n NCUT NCUT2).Nodup := by
  unfold mdds_triples_list
  refine nodup_flatMap_of_tag _ _ (fun t => t.1) (List.nodup_range _) ?_ ?_
  · intro i _
    refine nodup_flatMap_of_tag _ _ (fun t => t.2.1) (List.nodup_range _) ?_ ?_
    · intro j _
      refine List.Nodup.map ?_ (nodup_mdds_offsets_list _ _ _ _)
      intro a b h
      simpa using h
    · intro j t ht
      simp only [List.mem_map] at ht
      obtain ⟨_, _, rfl⟩ := ht
      rfl
  · intro i t ht
    simp only [List.mem_flatMap, List.mem_map] at ht
    obtain ⟨_, _, _, _, rfl⟩ := ht
    rfl

end LoopLists

section ContributingTriples

variable {K : Type} [LinearOrderedField K]

theorem mem_mdds_triples (n : Nat) (NCUT : Vec3 Int) (NCUT2 : Int) (i j : Nat)
    (nx ny nz : Int) :
    (i, j, nx, ny, nz) ∈ mdds_triples n NCUT NCUT2 ↔
      i < n ∧ j < n ∧ (-NCUT.x ≤ nx ∧ nx ≤ NCUT.x) ∧ (-NCUT.y ≤ ny ∧ ny ≤ NCUT.y) ∧
        (-NCUT.z ≤ nz ∧ nz ≤ NCUT.z) ∧ ¬(i = j ∧ nx = 0 ∧ ny = 0 ∧ nz = 0) ∧
        nx * nx + ny * ny + nz * nz ≤ NCUT2 := by
  rw [mdds_triples_eq_list, mem_mdds_triples_list, mem_mdds_offsets_list]

theorem nodup_mdds_triples (n : Nat) (NCUT : Vec3 Int) (NCUT2 : Int) :
    (mdds_triples n NCUT NCUT2).Nodup := by
  rw [mdds_triples_eq_list]
  exact nodup_mdds_triples_list n NCUT NCUT2

theorem mdds_loop_eq_foldl_triples {σ : Type} (n : Nat) (NCUT : Vec3 Int) (NCUT2 : Int)
    (body : σ → Nat → Nat → Int → Int → Int → σ) (s : σ) :
    mdds_loop n NCUT NCUT2 body s =
      (mdds_triples n NCUT NCUT2).foldl
        (fun s t => body s t.1 t.2.1 t.2.2.1 t.2.2.2.1 t.2.2.2.2) s := by
  rw [mdds_triples_eq_list, mdds_loop_eq_foldl_list]

theorem mdds_offsets_list_of_ne (NCUT : Vec3 Int) (NCUT2 : Int) (i j : Nat) (hij : i ≠ j) :
    mdds_offsets_list NCUT NCUT2 i j = mdds_offsets_list NCUT NCUT2 0 1 := by
  unfold mdds_offsets_list mdds_guard
  have h : (i == j) = false := by simpa using hij
  simp [h]

theorem mdds_filter_pair_perm (n : Nat) (NCUT : Vec3 Int) (NCUT2 : Int) (i j : Nat)
    (hi : i < n) (hj : j < n) :
    ((mdds_triples n NCUT NCUT2).filter (fun t => decide (t.1 = i ∧ t.2.1 = j))).Perm
      ((mdds_offsets_list NCUT NCUT2 i j).map (fun o => (i, j, o))) := by
  rw [List.perm_ext_iff_of_nodup ((nodup_mdds_triples n NCUT NCUT2).filter _)
    (List.Nodup.map (fun a b h => by simpa using h) (nodup_mdds_offsets_list _ _ _ _))]
  rintro ⟨a, b, nx, ny, nz⟩
  rw [mdds_triples_eq_list]
  simp only [List.mem_filter, mem_mdds_triples_list, List.mem_map, decide_eq_true_eq,
    Prod.mk.injEq]
  constructor
  · rintro ⟨⟨_, _, ho⟩, rfl, rfl⟩
    exact ⟨(nx, ny, nz), ho, rfl, rfl, rfl⟩
  · rintro ⟨o, ho, rfl, rfl, rfl⟩
    exact ⟨⟨hi, hj, ho⟩, rfl, rfl⟩

theorem mdds_axis_iff (b : Bool) (N x : Int) :
    (-(if b = false then 0 else N) ≤ x ∧ x ≤ (if b = false then 0 else N)) ↔
      (if b = true then |x| ≤ N else x = 0) := by
  cases b
  · simp only [if_true, Bool.false_eq_true, if_false]
    omega
  · simp only [Bool.true_eq_false, if_false, if_true, abs_le]

/-- C3: for every replica cutoff and every per-axis periodicity the guarded block of the
direct sum runs over the recorded triples, each of which occurs once; a triple is recorded
exactly when both indices are dipole-particle indices,
each offset is within the cutoff on a periodic axis and zero on a non-periodic one, the
squared offsets sum to at most `Ncut^2`, and the triple is not a particle with itself
at offset zero. For `Ncut = 1` on a fully periodic box and `i ≠ j` seven offsets are
recorded, and `(1, 1, 1)` is not one of them. -/
theorem mdds_contributing_triples (sv : Services K) (g : Globals K)
    (parts : List (Particle K)) (force_flag : Bool) :
    mdds_accumulate sv g parts force_flag =
        (mdds_triples (mdds_gather sv g parts).length (mdds_NCUT g) (mdds_NCUT2 g)).foldl
          (fun s t => mdds_body sv g (mdds_gather sv g parts) force_flag s
            t.1 t.2.1 t.2.2.1 t.2.2.2.1 t.2.2.2.2)
          ⟨0, fun _ => 0, fun _ => 0⟩ ∧
      (mdds_triples (mdds_gather sv g parts).length (mdds_NCUT g) (mdds_NCUT2 g)).Nodup ∧
      (∀ (i j : Nat) (nx ny nz : Int),
        (i, j, nx, ny, nz) ∈
            mdds_triples (mdds_gather sv g parts).length (mdds_NCUT g) (mdds_NCUT2 g) ↔
          i < (mdds_gather sv g parts).length ∧ j < (mdds_gather sv g parts).length ∧
            (if g.box_geo.periodic.x = true then
              |nx| ≤ g.Ncut_off_magnetic_dipolar_direct_sum else nx = 0) ∧
            (if g.box_geo.periodic.y = true then
              |ny| ≤ g.Ncut_off_magnetic_dipolar_direct_sum else ny = 0) ∧
            (if g.box_geo.periodic.z = true then
              |nz| ≤ g.Ncut_off_magnetic_dipolar_direct_sum else nz = 0) ∧
            nx ^ 2 + ny ^ 2 + nz ^ 2 ≤ g.Ncut_off_magnetic_dipolar_direct_sum ^ 2 ∧
            ¬(i = j ∧ (nx, ny, nz) = (0, 0, 0))) ∧
      (g.Ncut_off_magnetic_dipolar_direct_sum = 1 → g.box_geo.periodic = ⟨true, true, true⟩ →
        ∀ i j : Nat, i < (mdds_gather sv g parts).length →
          j < (mdds_gather sv g parts).length → i ≠ j →
          ((mdds_triples (mdds_gather sv g parts).length (mdds_NCUT g)
            (mdds_NCUT2 g)).filter (fun t => decide (t.1 = i ∧ t.2.1 = j))).length = 7 ∧
          (i, j, 1, 1, 1) ∉
            mdds_triples (mdds_gather sv g parts).length (mdds_NCUT g) (mdds_NCUT2 g)) := by
  refine ⟨?_, nodup_mdds_triples _ _ _, ?_, ?_⟩
  · unfold mdds_accumulate
    exact mdds_loop_eq_foldl_triples _ _ _ _ _
  · intro i j nx ny nz
    rw [mem_mdds_triples]
    simp only [mdds_NCUT, mdds_NCUT2, mdds_axis_iff, sq, Prod.mk.injEq]
    tauto
  · intro h1 hp i j hi hj hij
    constructor
    · rw [(mdds_filter_pair_perm _ _ _ i j hi hj).length_eq, List.length_map,
        mdds_offsets_list_of_ne _ _ _ _ hij]
      simp only [mdds_NCUT, mdds_NCUT2, h1, hp]
      rfl
    · rw [mem_mdds_triples]
      simp only [mdds_NCUT, mdds_NCUT2, h1, hp]
      omega

/-- Witness of C3: two dipoles in a fully periodic box with `Ncut = 1`; the ordered pair
`(0, 1)` contributes seven offsets and `(1, 1, 1)` is not among them. -/
theorem mdds_contributing_triples_witness :
    ((mdds_triples (mdds_gather (servicesQ true) (globalsQ ⟨true, true, true⟩ 1) pairQ).length
        (mdds_NCUT (globalsQ ⟨true, true, true⟩ 1))
        (mdds_NCUT2 (globalsQ ⟨true, true, true⟩ 1))).filter
        (fun t => decide (t.1 = 0 ∧ t.2.1 = 1))).length = 7 ∧
      (0, 1, 1, 1, 1) ∉
        mdds_triples (mdds_gather (servicesQ true) (globalsQ ⟨true, true, true⟩ 1) pairQ).length
          (mdds_NCUT (globalsQ ⟨true, true, true⟩ 1))
          (mdds_NCUT2 (globalsQ ⟨true, true, true⟩ 1)) :=
  (mdds_contributing_triples (servicesQ true) (globalsQ ⟨true, true, true⟩ 1) pairQ
    true).2.2.2 rfl rfl 0 1 (by norm_num [mdds_gather, pairQ, dipoleQ])
    (by norm_num [mdds_gather, pairQ, dipoleQ]) (by decide)

end ContributingTriples

section DirectSumLemmas

variable {K : Type} [LinearOrderedField K]

theorem mdds_step_u (sv : Services K) (g : Globals K) (ws : List (Vec3 K × Vec3 K))
    (force_flag : Bool) (s : MddsAcc K) (t : Nat × Nat × Int × Int × Int) :
    (mdds_step sv g ws force_flag s t).u =
      s.u + mdds_u_term sv (mdds_m ws t.1) (mdds_m ws t.2.1) (mdds_rn g ws t) := by
  unfold mdds_step mdds_body
  cases force_flag <;> cases sv.ROTATION <;> rfl

theorem mdds_step_f (sv : Services K) (g : Globals K) (ws : List (Vec3 K × Vec3 K))
    (force_flag : Bool) (s : MddsAcc K) (t : Nat × Nat × Int × Int × Int) :
    (mdds_step sv g ws force_flag s t).f =
      if force_flag = true then
        Function.update s.f t.1
          (s.f t.1 + mdds_f_term sv (mdds_m ws t.1) (mdds_m ws t.2.1) (mdds_rn g ws t))
      else s.f := by
  unfold mdds_step mdds_body
  cases force_flag <;> cases sv.ROTATION <;> rfl

theorem mdds_step_t (sv : Services K) (g : Globals K) (ws : List (Vec3 K × Vec3 K))
    (force_flag : Bool) (s : MddsAcc K) (t : Nat × Nat × Int × Int × Int) :
    (mdds_step sv g ws force_flag s t).t =
      if (force_flag && sv.ROTATION) = true then
        Function.update s.t t.1
          (s.t t.1 + mdds_t_term sv (mdds_m ws t.1) (mdds_m ws t.2.1) (mdds_rn g ws t))
      else s.t := by
  unfold mdds_step mdds_body
  cases force_flag <;> cases sv.ROTATION <;> rfl

theorem mdds_foldl_u (sv : Services K) (g : Globals K) (ws : List (Vec3 K × Vec3 K))
    (force_flag : Bool) (l : List (Nat × Nat × Int × Int × Int)) (s : MddsAcc K) :
    (l.foldl (mdds_step sv g ws force_flag) s).u =
      s.u + (l.map fun t =>
        mdds_u_term sv (mdds_m ws t.1) (mdds_m ws t.2.1) (mdds_rn g ws t)).sum := by
  induction l generalizing s with
  | nil => simp
  | cons t l ih => simp [List.foldl_cons, ih, mdds_step_u, add_assoc]

theorem mdds_accumulate_eq (sv : Services K) (g : Globals K) (parts : List (Particle K))
    (force_flag : Bool) :
    mdds_accumulate sv g parts force_flag =
      (mdds_triples (mdds_gather sv g parts).length (mdds_NCUT g) (mdds_NCUT2 g)).foldl
        (mdds_step sv g (mdds_gather sv g parts) force_flag) ⟨0, fun _ => 0, fun _ => 0⟩ := by
  unfold mdds_accumulate
  exact mdds_loop_eq_foldl_triples _ _ _ _ _

theorem mdds_u_term_eq_pair_energy (sv : Services K) (mi mj rn : Vec3 K)
    (h : sv.sqrt (rn.dot rn) * sv.sqrt (rn.dot rn) = rn.dot rn) :
    mdds_u_term sv mi mj rn = pair_energy mi mj rn (sv.sqrt (rn.dot rn)) := by
  unfold mdds_u_term pair_energy
  simp only [Vec3.dot] at h ⊢
  generalize sv.sqrt (rn.x * rn.x + rn.y * rn.y + rn.z * rn.z) = d at h ⊢
  rw [← h]
  ring

/-- C4: on a single process with at least one flag set the direct sum returns
`0.5 * prefactor * S`, where `S` sums the energy term of the spec over the contributing
triples at the image-shifted separation `r_n = (x_i - x_j) + n * boxLength` of folded
positions; the returned value does not depend on `force_flag`. -/
theorem mdds_energy (sv : Services K) (g : Globals K) (parts : List (Particle K))
    (force_flag energy_flag : Bool) (h1 : g.n_nodes = 1)
    (hflag : force_flag = true ∨ energy_flag = true)
    (hsqrt : ∀ t ∈ mdds_triples (mdds_gather sv g parts).length (mdds_NCUT g) (mdds_NCUT2 g),
      sv.sqrt ((mdds_rn g (mdds_gather sv g parts) t).dot
          (mdds_rn g (mdds_gather sv g parts) t)) *
        sv.sqrt ((mdds_rn g (mdds_gather sv g parts) t).dot
          (mdds_rn g (mdds_gather sv g parts) t)) =
      (mdds_rn g (mdds_gather sv g parts) t).dot (mdds_rn g (mdds_gather sv g parts) t)) :
    (magnetic_dipolar_direct_sum_calculations sv g parts force_flag energy_flag).map Prod.fst =
        some (0.5 * g.dipole.prefactor *
          ((mdds_triples (mdds_gather sv g parts).length (mdds_NCUT g) (mdds_NCUT2 g)).map
            fun t => pair_energy (mdds_m (mdds_gather sv g parts) t.1)
              (mdds_m (mdds_gather sv g parts) t.2.1) (mdds_rn g (mdds_gather sv g parts) t)
              (sv.sqrt ((mdds_rn g (mdds_gather sv g parts) t).dot
                (mdds_rn g (mdds_gather sv g parts) t)))).sum) ∧
      (magnetic_dipolar_direct_sum_calculations sv g parts true energy_flag).map Prod.fst =
        (magnetic_dipolar_direct_sum_calculations sv g parts false true).map Prod.fst := by
  have key : ∀ ff : Bool, (mdds_accumulate sv g parts ff).u =
      ((mdds_triples (mdds_gather sv g parts).length (mdds_NCUT g) (mdds_NCUT2 g)).map
        fun t => pair_energy (mdds_m (mdds_gather sv g parts) t.1)
          (mdds_m (mdds_gather sv g parts) t.2.1) (mdds_rn g (mdds_gather sv g parts) t)
          (sv.sqrt ((mdds_rn g (mdds_gather sv g parts) t).dot
            (mdds_rn g (mdds_gather sv g parts) t)))).sum := by
    intro ff
    rw [mdds_accumulate_eq, mdds_foldl_u, zero_add]
    congr 1
    apply List.map_congr_left
    intro t ht
    exact mdds_u_term_eq_pair_energy sv _ _ _ (hsqrt t ht)
  constructor
  · unfold magnetic_dipolar_direct_sum_calculations
    rcases hflag with h | h <;> simp [h1, h, key]
  · unfold magnetic_dipolar_direct_sum_calculations
    simp [h1, key]

end DirectSumLemmas

section DirectSumEnergyExample

theorem pairQ_gather (rot : Bool) (Ncut : Int) :
    mdds_gather (servicesQ rot) (globalsQ ⟨true, true, true⟩ Ncut) pairQ =
      [(⟨1, 0, 0⟩, ⟨1, 0, 0⟩), (⟨9, 0, 0⟩, ⟨1, 0, 0⟩)] := by
  norm_num [mdds_gather, pairQ, dipoleQ, servicesQ, globalsQ, folded_position_Q,
    fold_coordinate_Q]

theorem pairQ_triples :
    mdds_triples 2 (mdds_NCUT (globalsQ ⟨true, true, true⟩ 0))
      (mdds_NCUT2 (globalsQ ⟨true, true, true⟩ 0)) = [(0, 1, 0, 0, 0), (1, 0, 0, 0, 0)] := by
  rfl

/-- Witness of C4: two parallel unit dipoles along `x`, eight box units apart along `x`,
without replicas. -/
theorem mdds_energy_witness :
    (magnetic_dipolar_direct_sum_calculations (servicesQ true)
      (globalsQ ⟨true, true, true⟩ 0) pairQ false true).map Prod.fst = some (-1 / 128) := by
  have h := (mdds_energy (servicesQ true) (globalsQ ⟨true, true, true⟩ 0) pairQ false true rfl
    (Or.inr rfl) (by
      rw [pairQ_gather]
      simp only [List.length_cons, List.length_nil, Nat.reduceAdd, pairQ_triples,
        List.mem_cons, List.mem_nil_iff, or_false, forall_eq_or_imp, forall_eq]
      norm_num [mdds_rn, mdds_x, Vec3.dot, servicesQ, sqrtQ, globalsQ])).1
  rw [h, pairQ_gather]
  simp only [List.length_cons, List.length_nil, Nat.reduceAdd, pairQ_triples]
  norm_num [mdds_rn, mdds_x, mdds_m, Vec3.dot, servicesQ, sqrtQ, globalsQ, pair_energy]

end DirectSumEnergyExample

section AllPairsLemmas

variable {K : Type} [LinearOrderedField K]

theorem foldl_flatMap_of_inv {α β σ : Type} (Inv : σ → Prop) (T : α → List β)
    (step : σ → β → σ) (F : σ → α → σ) (h : ∀ s a, Inv s → F s a = (T a).foldl step s)
    (hstep : ∀ s b, Inv s → Inv (step s b)) (l : List α) (s : σ) (hs : Inv s) :
    l.foldl F s = (l.flatMap T).foldl step s := by
  have hfold : ∀ (bs : List β) (s : σ), Inv s → Inv (bs.foldl step s) := by
    intro bs
    induction bs with
    | nil => intro s hs; exact hs
    | cons b bs ih => intro s hs; exact ih _ (hstep s b hs)
  induction l generalizing s with
  | nil => rfl
  | cons a l ih =>
    rw [List.foldl_cons, List.flatMap_cons, List.foldl_append, h s a hs]
    exact ih _ (hfold _ _ hs)

theorem foldl_guard_of_inv {β σ γ : Type} (Inv : σ → Prop) (c : σ → β → Prop)
    [∀ s b, Decidable (c s b)] (c0 : β → Bool) (mk : β → γ) (step : σ → γ → σ)
    (hc : ∀ s b, Inv s → (c s b ↔ c0 b = false))
    (hstep : ∀ s b, Inv s → Inv (step s b)) (l : List β) (s : σ) (hs : Inv s) :
    l.foldl (fun s b => if c s b then s else step s (mk b)) s =
      ((l.filter c0).map mk).foldl step s := by
  induction l generalizing s with
  | nil => rfl
  | cons b l ih =>
    rw [List.foldl_cons]
    by_cases hb : c0 b = true
    · have hcb : ¬ c s b := by
        rw [hc s b hs, hb]
        exact Bool.noConfusion
      rw [if_neg hcb, List.filter_cons_of_pos hb, List.map_cons, List.foldl_cons]
      exact ih _ (hstep _ _ hs)
    · have hcb : c s b := by
        rw [hc s b hs]
        simpa using hb
      rw [if_pos hcb, List.filter_cons_of_neg hb]
      exact ih _ hs

theorem map_set_of_eq {α β : Type} (f : α → β) (d : α) (l : List α) (i : Nat) (a : α)
    (h : f a = f (l.getD i d)) : (l.set i a).map f = l.map f := by
  induction l generalizing i with
  | nil => rfl
  | cons b l ih =>
    cases i with
    | zero =>
      simp only [List.set_cons_zero, List.map_cons]
      rw [h]
      rfl
    | succ i =>
      simp only [List.set_cons_succ, List.map_cons]
      rw [ih i (by simpa using h)]

theorem getD_of_map_eq {α β : Type} (f : α → β) (d : α) (l l2 : List α)
    (h : l.map f = l2.map f) (i : Nat) : f (l.getD i d) = f (l2.getD i d) := by
  induction l generalizing l2 i with
  | nil =>
    cases l2 with
    | nil => rfl
    | cons b l2 => simp at h
  | cons a l ih =>
    cases l2 with
    | nil => simp at h
    | cons b l2 =>
      simp only [List.map_cons, List.cons.injEq] at h
      cases i with
      | zero => simpa using h.1
      | succ i => simpa using ih l2 h.2 i

theorem calc_dipole_dipole_ia_static (sv : Services K) (g : Globals K) (p1 p2 : Particle K)
    (dip1 : Vec3 K) (force_flag : Bool) :
    (calc_dipole_dipole_ia sv g p1 dip1 p2 force_flag).2.1.static = p1.static ∧
      (calc_dipole_dipole_ia sv g p1 dip1 p2 force_flag).2.2.static = p2.static := by
  unfold calc_dipole_dipole_ia
  cases force_flag <;> cases sv.ROTATION <;> exact ⟨rfl, rfl⟩

theorem calc_dipole_dipole_ia_fst_of_static (sv : Services K) (g : Globals K)
    (p1 p2 q1 q2 : Particle K) (dip1 : Vec3 K) (f1 f2 : Bool)
    (h1 : p1.static = q1.static) (h2 : p2.static = q2.static) :
    (calc_dipole_dipole_ia sv g p1 dip1 p2 f1).1 =
      (calc_dipole_dipole_ia sv g q1 dip1 q2 f2).1 := by
  simp only [Particle.static, Prod.mk.injEq] at h1 h2
  rw [calc_dipole_dipole_ia_fst, calc_dipole_dipole_ia_fst, h1.1, h2.1, h2.2.2]

theorem dawaanr_kernel_at_static (sv : Services K) (g : Globals K) (force_flag : Bool)
    (s : K × List (Particle K)) (i j : Nat) (dip1 : Vec3 K) :
    (dawaanr_kernel_at sv g force_flag s i dip1 j).2.map Particle.static =
      s.2.map Particle.static := by
  unfold dawaanr_kernel_at
  have hk := calc_dipole_dipole_ia_static sv g (s.2.getD i Particle.nil)
    (s.2.getD j Particle.nil) dip1 force_flag
  simp only
  rw [map_set_of_eq Particle.static Particle.nil, map_set_of_eq Particle.static Particle.nil]
  · exact hk.1
  · rw [hk.2]
    exact (getD_of_map_eq Particle.static Particle.nil _ _
      (map_set_of_eq Particle.static Particle.nil _ _ _ hk.1) j).symm

end AllPairsLemmas

section AllPairsMain

variable {K : Type} [LinearOrderedField K]

theorem dawaanr_step_static (sv : Services K) (g : Globals K) (force_flag : Bool)
    (parts : List (Particle K)) (s : K × List (Particle K)) (ij : Nat × Nat)
    (hs : s.2.map Particle.static = parts.map Particle.static) :
    (dawaanr_step sv g force_flag parts s ij).2.map Particle.static =
      parts.map Particle.static := by
  unfold dawaanr_step
  rw [dawaanr_kernel_at_static, hs]

theorem dipm_of_static (parts qs : List (Particle K))
    (hs : qs.map Particle.static = parts.map Particle.static) (i : Nat) :
    (qs.getD i Particle.nil).dipm = (parts.getD i Particle.nil).dipm := by
  have h := getD_of_map_eq Particle.static Particle.nil qs parts hs i
  simp only [Particle.static, Prod.mk.injEq] at h
  exact h.2.1

theorem dip_of_static (parts qs : List (Particle K))
    (hs : qs.map Particle.static = parts.map Particle.static) (i : Nat) :
    (qs.getD i Particle.nil).dip = (parts.getD i Particle.nil).dip := by
  have h := getD_of_map_eq Particle.static Particle.nil qs parts hs i
  simp only [Particle.static, Prod.mk.injEq] at h
  exact h.2.2

theorem dawaanr_inner_eq (sv : Services K) (g : Globals K) (force_flag : Bool)
    (parts : List (Particle K)) (i : Nat) (s : K × List (Particle K))
    (hs : s.2.map Particle.static = parts.map Particle.static) :
    dawaanr_inner sv g force_flag parts.length i (s.2.getD i Particle.nil).dip s =
      (((List.range' (i + 1) (parts.length - (i + 1))).filter fun j =>
        decide ((parts.getD j Particle.nil).dipm ≠ 0)).map fun j => (i, j)).foldl
        (dawaanr_step sv g force_flag parts) s := by
  unfold dawaanr_inner
  rw [dip_of_static parts s.2 hs i]
  exact foldl_guard_of_inv
    (fun s : K × List (Particle K) => s.2.map Particle.static = parts.map Particle.static)
    (fun s j => (s.2.getD j Particle.nil).dipm = 0)
    (fun j => decide ((parts.getD j Particle.nil).dipm ≠ 0)) (fun j => (i, j))
    (dawaanr_step sv g force_flag parts)
    (fun s j hs => by
      simp only [dipm_of_static parts s.2 hs j, ne_eq, decide_not, Bool.not_eq_false',
        decide_eq_true_eq])
    (fun s j hs => dawaanr_step_static sv g force_flag parts s _ hs) _ s hs

theorem dawaanr_outer_eq (sv : Services K) (g : Globals K) (force_flag : Bool)
    (parts : List (Particle K)) :
    (List.range parts.length).foldl
        (fun s i =>
          if (s.2.getD i Particle.nil).dipm = 0 then s
          else
            let dip1 := (s.2.getD i Particle.nil).dip
            dawaanr_inner sv g force_flag parts.length i dip1 s)
        (0, parts) =
      (dawaanr_pairs parts).foldl (dawaanr_step sv g force_flag parts) (0, parts) := by
  unfold dawaanr_pairs
  refine foldl_flatMap_of_inv
    (fun s : K × List (Particle K) => s.2.map Particle.static = parts.map Particle.static)
    _ (dawaanr_step sv g force_flag parts) _ ?_ ?_ _ _ rfl
  · intro s i hs
    simp only [dipm_of_static parts s.2 hs i]
    by_cases h0 : (parts.getD i Particle.nil).dipm = 0
    · simp only [h0, if_true, List.foldl_nil]
    · simp only [h0, if_false]
      exact dawaanr_inner_eq sv g force_flag parts i s hs
  · intro s ij hs
    exact dawaanr_step_static sv g force_flag parts s ij hs

theorem dawaanr_foldl_fst (sv : Services K) (g : Globals K) (force_flag : Bool)
    (parts : List (Particle K)) (l : List (Nat × Nat)) (s : K × List (Particle K))
    (hs : s.2.map Particle.static = parts.map Particle.static) :
    (l.foldl (dawaanr_step sv g force_flag parts) s).1 =
      s.1 + (l.map fun ij =>
        (calc_dipole_dipole_ia sv g (parts.getD ij.1 Particle.nil)
          (parts.getD ij.1 Particle.nil).dip (parts.getD ij.2 Particle.nil)
          force_flag).1).sum := by
  induction l generalizing s with
  | nil => simp
  | cons ij l ih =>
    rw [List.foldl_cons, ih _ (dawaanr_step_static sv g force_flag parts s ij hs),
      List.map_cons, List.sum_cons, ← add_assoc]
    congr 1
    unfold dawaanr_step dawaanr_kernel_at
    simp only
    congr 1
    exact calc_dipole_dipole_ia_fst_of_static sv g _ _ _ _ _ _ _
      (getD_of_map_eq Particle.static Particle.nil _ _ hs _)
      (getD_of_map_eq Particle.static Particle.nil _ _ hs _)

theorem mem_dawaanr_pairs (parts : List (Particle K)) (i j : Nat) :
    (i, j) ∈ dawaanr_pairs parts ↔
      i < j ∧ j < parts.length ∧ (parts.getD i Particle.nil).dipm ≠ 0 ∧
        (parts.getD j Particle.nil).dipm ≠ 0 := by
  unfold dawaanr_pairs
  simp only [List.mem_flatMap, List.mem_range]
  constructor
  · rintro ⟨a, ha, hmem⟩
    by_cases h0 : (parts.getD a Particle.nil).dipm = 0
    · rw [if_pos h0] at hmem
      exact absurd hmem (List.not_mem_nil _)
    · simp only [h0, if_false, List.mem_map, List.mem_filter, List.mem_range'_1,
        decide_eq_true_eq, Prod.mk.injEq] at hmem
      obtain ⟨b, ⟨⟨hb1, hb2⟩, hb3⟩, rfl, rfl⟩ := hmem
      exact ⟨by omega, by omega, h0, hb3⟩
  · rintro ⟨hij, hj, hi0, hj0⟩
    refine ⟨i, by omega, ?_⟩
    simp only [hi0, if_false, List.mem_map, List.mem_filter, List.mem_range'_1,
      decide_eq_true_eq, Prod.mk.injEq]
    refine ⟨j, ⟨⟨by omega, by omega⟩, hj0⟩, ?_⟩
    simp

theorem nodup_dawaanr_pairs (parts : List (Particle K)) : (dawaanr_pairs parts).Nodup := by
  unfold dawaanr_pairs
  refine nodup_flatMap_of_tag _ _ (fun ij => ij.1) (List.nodup_range _) ?_ ?_
  · intro i _
    by_cases h0 : (parts.getD i Particle.nil).dipm = 0
    · rw [if_pos h0]
      exact List.nodup_nil
    · simp only [h0, if_false]
      refine List.Nodup.map ?_ ((List.nodup_range' _ _).filter _)
      intro a b h
      simpa using h
  · intro i ij hij
    by_cases h0 : (parts.getD i Particle.nil).dipm = 0
    · rw [if_pos h0] at hij
      exact absurd hij (List.not_mem_nil _)
    · simp only [h0, if_false, List.mem_map] at hij
      obtain ⟨_, _, rfl⟩ := hij
      rfl

theorem dawaanr_run_eq (sv : Services K) (g : Globals K) (parts : List (Particle K))
    (force_flag energy_flag : Bool) (h1 : g.n_nodes = 1)
    (hflag : force_flag = true ∨ energy_flag = true) :
    dawaanr_calculations sv g parts force_flag energy_flag =
      some ((dawaanr_pairs parts).foldl (dawaanr_step sv g force_flag parts) (0, parts)) := by
  unfold dawaanr_calculations
  rw [dawaanr_outer_eq]
  rcases hflag with h | h <;> simp [h1, h]

theorem dawaanr_fst_value (sv : Services K) (g : Globals K) (parts : List (Particle K))
    (force_flag energy_flag : Bool) (h1 : g.n_nodes = 1)
    (hflag : force_flag = true ∨ energy_flag = true) :
    (dawaanr_calculations sv g parts force_flag energy_flag).map Prod.fst =
      some ((dawaanr_pairs parts).map fun ij =>
        (calc_dipole_dipole_ia sv g (parts.getD ij.1 Particle.nil)
          (parts.getD ij.1 Particle.nil).dip (parts.getD ij.2 Particle.nil)
          force_flag).1).sum := by
  rw [dawaanr_run_eq sv g parts force_flag energy_flag h1 hflag, Option.map_some',
    dawaanr_foldl_fst sv g force_flag parts _ _ rfl, zero_add]

/-- C7: on a single process with at least one flag set the all-pairs engine is the
sequence of kernel invocations on the index pairs `(i, j)`, `i < j`, of particles that both
have non-zero dipole magnitude, each pair once and in iteration order, and it returns the
sum of the kernel energies of those pairs. -/
theorem dawaanr_pairs_once (sv : Services K) (g : Globals K) (parts : List (Particle K))
    (force_flag energy_flag : Bool) (h1 : g.n_nodes = 1)
    (hflag : force_flag = true ∨ energy_flag = true) :
    dawaanr_calculations sv g parts force_flag energy_flag =
        some ((dawaanr_pairs parts).foldl (dawaanr_step sv g force_flag parts) (0, parts)) ∧
      (dawaanr_pairs parts).Nodup ∧
      (∀ i j : Nat, (i, j) ∈ dawaanr_pairs parts ↔
        i < j ∧ j < parts.length ∧ (parts.getD i Particle.nil).dipm ≠ 0 ∧
          (parts.getD j Particle.nil).dipm ≠ 0) ∧
      (dawaanr_calculations sv g parts force_flag energy_flag).map Prod.fst =
        some ((dawaanr_pairs parts).map fun ij =>
          (calc_dipole_dipole_ia sv g (parts.getD ij.1 Particle.nil)
            (parts.getD ij.1 Particle.nil).dip (parts.getD ij.2 Particle.nil)
            force_flag).1).sum := by
  exact ⟨dawaanr_run_eq sv g parts force_flag energy_flag h1 hflag, nodup_dawaanr_pairs parts,
    mem_dawaanr_pairs parts, dawaanr_fst_value sv g parts force_flag energy_flag h1 hflag⟩

end AllPairsMain

section AllPairsExample

theorem tripleQ_pairs : dawaanr_pairs tripleQ = [(0, 2)] := by
  simp [dawaanr_pairs, tripleQ, dipoleQ, List.range_succ, List.range'_succ]

/-- Witness of C7: of three particles the middle one has no dipole; the kernel runs on the
pair `(0, 2)` only. -/
theorem dawaanr_pairs_once_witness :
    dawaanr_pairs tripleQ = [(0, 2)] ∧
      (dawaanr_calculations (servicesQ true) (globalsQ ⟨true, true, true⟩ 0) tripleQ false
        true).map Prod.fst = some (-1 / 2) := by
  refine ⟨tripleQ_pairs, ?_⟩
  rw [(dawaanr_pairs_once (servicesQ true) (globalsQ ⟨true, true, true⟩ 0) tripleQ false true
    rfl (Or.inr rfl)).2.2.2, tripleQ_pairs]
  norm_num [tripleQ, dipoleQ, calc_dipole_dipole_ia_fst, servicesQ, globalsQ, get_mi_vector_Q,
    get_mi_coord_Q, Vec3.dot, sqrtQ, abs_lt, round_eq]

end AllPairsExample

section PairSumLemmas

variable {K : Type} [LinearOrderedField K]

theorem sum_flatMap_map {α β : Type} (l : List α) (T : α → List β) (f : β → K) :
    ((l.flatMap T).map f).sum = (l.map fun a => ((T a).map f).sum).sum := by
  induction l with
  | nil => rfl
  | cons a l ih => simp [List.flatMap_cons, ih]

theorem sum_range_getD {α : Type} (d : α) (f : α → K) (l : List α) :
    ((List.range l.length).map fun j => f (l.getD j d)).sum = (l.map f).sum := by
  induction l with
  | nil => rfl
  | cons a l ih =>
    rw [List.length_cons, List.range_succ_eq_map, List.map_cons, List.map_map, List.sum_cons,
      List.map_cons, List.sum_cons, ← ih]
    rfl

theorem ordered_pairs_sum_cons {α : Type} (d : α) (F : α → α → K) (a : α) (l : List α) :
    ((List.range (a :: l).length).map fun i =>
        ((List.range (a :: l).length).map fun j =>
          if i = j then 0 else F ((a :: l).getD i d) ((a :: l).getD j d)).sum).sum =
      (l.map fun b => F a b + F b a).sum +
        ((List.range l.length).map fun i =>
          ((List.range l.length).map fun j =>
            if i = j then 0 else F (l.getD i d) (l.getD j d)).sum).sum := by
  rw [List.length_cons, List.range_succ_eq_map]
  simp only [List.map_cons, List.sum_cons, List.map_map, Function.comp_def, if_true,
    zero_add, List.getD_cons_zero, List.getD_cons_succ, Nat.succ_eq_add_one,
    Nat.add_right_cancel_iff, List.sum_map_add]
  have h0 : ∀ j : Nat, (if 0 = j + 1 then (0 : K) else F a (l.getD j d)) = F a (l.getD j d) :=
    fun j => if_neg (by omega)
  have h1 : ∀ i : Nat, (if i + 1 = 0 then (0 : K) else F (l.getD i d) a) = F (l.getD i d) a :=
    fun i => if_neg (by omega)
  simp only [h0, h1]
  rw [sum_range_getD d (fun b => F a b) l, sum_range_getD d (fun b => F b a) l]
  ring

theorem ordered_pairs_sum_eq {α : Type} (d : α) (F : α → α → K) (l : List α) :
    ((List.range l.length).map fun i =>
        ((List.range l.length).map fun j =>
          if i = j then 0 else F (l.getD i d) (l.getD j d)).sum).sum =
      pairs_sum (fun a b => F a b + F b a) l := by
  induction l with
  | nil => rfl
  | cons a l ih => rw [ordered_pairs_sum_cons, ih, pairs_sum]

theorem pairs_sum_map {α β : Type} (w : α → β) (G : β → β → K) (l : List α) :
    pairs_sum G (l.map w) = pairs_sum (fun a b => G (w a) (w b)) l := by
  induction l with
  | nil => rfl
  | cons a l ih => simp [pairs_sum, ih, Function.comp_def]

theorem pairs_sum_mul {α : Type} (c : K) (G : α → α → K) (l : List α) :
    c * pairs_sum G l = pairs_sum (fun a b => c * G a b) l := by
  induction l with
  | nil => simp [pairs_sum]
  | cons a l ih => simp [pairs_sum, mul_add, ih, List.sum_map_mul_left]

theorem pairs_sum_congr {α : Type} (d : α) (G1 G2 : α → α → K) (l : List α)
    (h : ∀ i j : Nat, i < j → j < l.length → G1 (l.getD i d) (l.getD j d) =
      G2 (l.getD i d) (l.getD j d)) :
    pairs_sum G1 l = pairs_sum G2 l := by
  induction l with
  | nil => rfl
  | cons a l ih =>
    rw [pairs_sum, pairs_sum, ih (fun i j hij hj => by
      have := h (i + 1) (j + 1) (by omega) (by simpa using hj)
      simpa using this)]
    congr 1
    rw [← sum_range_getD d (G1 a) l, ← sum_range_getD d (G2 a) l]
    congr 1
    apply List.map_congr_left
    intro j hj
    have := h 0 (j + 1) (by omega) (by simpa using hj)
    simpa using this

end PairSumLemmas

section PairSumDawaanr

variable {K : Type} [LinearOrderedField K]

theorem sum_map_filter_eq {α : Type} (c : α → Bool) (f : α → K) (l : List α) :
    ((l.filter c).map f).sum = (l.map fun a => if c a = true then f a else 0).sum := by
  induction l with
  | nil => rfl
  | cons a l ih =>
    by_cases h : c a = true
    · simp [List.filter_cons, h, ih]
    · simp [List.filter_cons, h, ih]

/-- The kernel-energy sum of one row of the all-pairs loop. -/
theorem dawaanr_row_sum (G : Particle K → Particle K → K) (l : List (Particle K))
    (i : Nat) (p : Particle K) :
    ((((List.range' (i + 1 + 1) ((p :: l).length - (i + 1 + 1))).filter fun j =>
        decide (((p :: l).getD j Particle.nil).dipm ≠ 0)).map fun j => (i + 1, j)).map
        fun ij => G ((p :: l).getD ij.1 Particle.nil) ((p :: l).getD ij.2 Particle.nil)).sum =
      ((((List.range' (i + 1) (l.length - (i + 1))).filter fun j =>
        decide ((l.getD j Particle.nil).dipm ≠ 0)).map fun j => (i, j)).map
        fun ij => G (l.getD ij.1 Particle.nil) (l.getD ij.2 Particle.nil)).sum := by
  have hlen : (p :: l).length - (i + 1 + 1) = l.length - (i + 1) := by
    simp only [List.length_cons]
    omega
  have hr : List.range' (i + 1 + 1) (l.length - (i + 1)) =
      (List.range' (i + 1) (l.length - (i + 1))).map (1 + ·) := by
    rw [List.map_add_range', Nat.add_comm 1]
  rw [hlen, hr, List.filter_map, List.map_map, List.map_map, List.map_map]
  simp only [Function.comp_def, List.getD_cons_succ, Nat.add_comm 1]

theorem dawaanr_first_row_sum (G : Particle K → Particle K → K) (l : List (Particle K))
    (p : Particle K) :
    ((((List.range' (0 + 1) ((p :: l).length - (0 + 1))).filter fun j =>
        decide (((p :: l).getD j Particle.nil).dipm ≠ 0)).map fun j => (0, j)).map
        fun ij => G ((p :: l).getD ij.1 Particle.nil) ((p :: l).getD ij.2 Particle.nil)).sum =
      ((l.filter fun q => decide (q.dipm ≠ 0)).map (G p)).sum := by
  have hlen : (p :: l).length - (0 + 1) = l.length := by simp
  rw [hlen, List.range'_eq_map_range, List.filter_map, List.map_map, List.map_map]
  simp only [Function.comp_def, List.getD_cons_succ, Nat.add_comm (0 + 1), Nat.zero_add,
    List.getD_cons_zero]
  rw [sum_map_filter_eq, sum_map_filter_eq,
    ← sum_range_getD Particle.nil
      (fun a => if decide (a.dipm ≠ 0) = true then G p a else 0) l]

theorem dawaanr_pairs_sum_cons (G : Particle K → Particle K → K) (l : List (Particle K))
    (p : Particle K) :
    ((dawaanr_pairs (p :: l)).map fun ij =>
        G ((p :: l).getD ij.1 Particle.nil) ((p :: l).getD ij.2 Particle.nil)).sum =
      (if p.dipm = 0 then 0
        else ((l.filter fun q => decide (q.dipm ≠ 0)).map (G p)).sum) +
      ((dawaanr_pairs l).map fun ij =>
        G (l.getD ij.1 Particle.nil) (l.getD ij.2 Particle.nil)).sum := by
  unfold dawaanr_pairs
  rw [sum_flatMap_map, sum_flatMap_map, List.length_cons, List.range_succ_eq_map,
    List.map_cons, List.sum_cons, List.map_map]
  congr 1
  · simp only [List.getD_cons_zero]
    by_cases h0 : p.dipm = 0
    · simp only [h0, if_true, List.map_nil, List.sum_nil]
    · simp only [h0, if_false]
      exact dawaanr_first_row_sum G l p
  · congr 1
    apply List.map_congr_left
    intro i _
    simp only [Function.comp_def, Nat.succ_eq_add_one, List.getD_cons_succ]
    by_cases h0 : (l.getD i Particle.nil).dipm = 0
    · simp only [h0, if_true, List.map_nil, List.sum_nil]
    · simp only [h0, if_false]
      exact dawaanr_row_sum G l i p

theorem dawaanr_pairs_sum_eq (G : Particle K → Particle K → K) (l : List (Particle K)) :
    ((dawaanr_pairs l).map fun ij =>
        G (l.getD ij.1 Particle.nil) (l.getD ij.2 Particle.nil)).sum =
      pairs_sum G (l.filter fun q => decide (q.dipm ≠ 0)) := by
  induction l with
  | nil => rfl
  | cons p l ih =>
    rw [dawaanr_pairs_sum_cons, ih]
    by_cases h0 : p.dipm = 0
    · rw [if_pos h0, zero_add, List.filter_cons_of_neg (by simpa using h0)]
    · rw [if_neg h0, List.filter_cons_of_pos (by simpa using h0), pairs_sum]

end PairSumDawaanr

section ZeroReplica

variable {K : Type} [LinearOrderedField K]

theorem mdds_fst_raw (sv : Services K) (g : Globals K) (parts : List (Particle K))
    (force_flag energy_flag : Bool) (h1 : g.n_nodes = 1)
    (hflag : force_flag = true ∨ energy_flag = true) :
    (magnetic_dipolar_direct_sum_calculations sv g parts force_flag energy_flag).map Prod.fst =
      some (0.5 * g.dipole.prefactor *
        ((mdds_triples (mdds_gather sv g parts).length (mdds_NCUT g) (mdds_NCUT2 g)).map
          fun t => mdds_u_term sv (mdds_m (mdds_gather sv g parts) t.1)
            (mdds_m (mdds_gather sv g parts) t.2.1)
            (mdds_rn g (mdds_gather sv g parts) t)).sum) := by
  have key : ∀ ff : Bool, (mdds_accumulate sv g parts ff).u =
      ((mdds_triples (mdds_gather sv g parts).length (mdds_NCUT g) (mdds_NCUT2 g)).map
        fun t => mdds_u_term sv (mdds_m (mdds_gather sv g parts) t.1)
          (mdds_m (mdds_gather sv g parts) t.2.1)
          (mdds_rn g (mdds_gather sv g parts) t)).sum := by
    intro ff
    rw [mdds_accumulate_eq, mdds_foldl_u, zero_add]
  unfold magnetic_dipolar_direct_sum_calculations
  rcases hflag with h | h <;> simp [h1, h, key]

theorem mdds_offsets_list_zero (i j : Nat) :
    mdds_offsets_list ⟨0, 0, 0⟩ 0 i j = if i = j then [] else [(0, 0, 0)] := by
  have hr : intRange (-0) 0 = [0] := by decide
  unfold mdds_offsets_list mdds_guard
  simp only [hr]
  by_cases hij : i = j
  · simp [hij]
  · simp [hij]

theorem mdds_triples_zero_sum (n : Nat) (f : Nat × Nat × Int × Int × Int → K) :
    ((mdds_triples n ⟨0, 0, 0⟩ 0).map f).sum =
      ((List.range n).map fun i =>
        ((List.range n).map fun j => if i = j then 0 else f (i, j, 0, 0, 0)).sum).sum := by
  rw [mdds_triples_eq_list]
  unfold mdds_triples_list
  rw [sum_flatMap_map]
  congr 1
  apply List.map_congr_left
  intro i _
  rw [sum_flatMap_map]
  congr 1
  apply List.map_congr_left
  intro j _
  rw [mdds_offsets_list_zero]
  by_cases hij : i = j
  · simp [hij]
  · simp [hij]

theorem mdds_u_term_neg (sv : Services K) (a b m : Vec3 K) :
    mdds_u_term sv b a (-m) = mdds_u_term sv a b m := by
  unfold mdds_u_term
  simp only [Vec3.neg_x, Vec3.neg_y, Vec3.neg_z, neg_mul_neg]
  ring

theorem mdds_u_term_eq_kernel (sv : Services K) (g : Globals K) (p q : Particle K)
    (force_flag : Bool) :
    g.dipole.prefactor *
        mdds_u_term sv p.dip q.dip (sv.get_mi_vector p.pos q.pos g.box_geo) =
      (calc_dipole_dipole_ia sv g p p.dip q force_flag).1 := by
  rw [calc_dipole_dipole_ia_fst]
  unfold mdds_u_term
  simp only [Vec3.dot]
  ring

end ZeroReplica

section ZeroReplicaMain

variable {K : Type} [LinearOrderedField K]

/-- The energy term of the direct sum for two entries of the working set at offset zero. -/
theorem mdds_zero_pair_term (sv : Services K) (g : Globals K) (p q : Particle K)
    (h : sv.folded_position p.pos g.box_geo - sv.folded_position q.pos g.box_geo =
      sv.get_mi_vector p.pos q.pos g.box_geo) :
    0.5 * g.dipole.prefactor *
        (mdds_u_term sv p.dip q.dip
            ⟨(sv.folded_position p.pos g.box_geo).x - (sv.folded_position q.pos g.box_geo).x +
                ((0 : Int) : K) * g.box_geo.length.x,
              (sv.folded_position p.pos g.box_geo).y - (sv.folded_position q.pos g.box_geo).y +
                ((0 : Int) : K) * g.box_geo.length.y,
              (sv.folded_position p.pos g.box_geo).z - (sv.folded_position q.pos g.box_geo).z +
                ((0 : Int) : K) * g.box_geo.length.z⟩ +
          mdds_u_term sv q.dip p.dip
            ⟨(sv.folded_position q.pos g.box_geo).x - (sv.folded_position p.pos g.box_geo).x +
                ((0 : Int) : K) * g.box_geo.length.x,
              (sv.folded_position q.pos g.box_geo).y - (sv.folded_position p.pos g.box_geo).y +
                ((0 : Int) : K) * g.box_geo.length.y,
              (sv.folded_position q.pos g.box_geo).z - (sv.folded_position p.pos g.box_geo).z +
                ((0 : Int) : K) * g.box_geo.length.z⟩) =
      (calc_dipole_dipole_ia sv g p p.dip q false).1 := by
  have e1 : (⟨(sv.folded_position p.pos g.box_geo).x - (sv.folded_position q.pos g.box_geo).x +
        ((0 : Int) : K) * g.box_geo.length.x,
      (sv.folded_position p.pos g.box_geo).y - (sv.folded_position q.pos g.box_geo).y +
        ((0 : Int) : K) * g.box_geo.length.y,
      (sv.folded_position p.pos g.box_geo).z - (sv.folded_position q.pos g.box_geo).z +
        ((0 : Int) : K) * g.box_geo.length.z⟩ : Vec3 K) =
      sv.get_mi_vector p.pos q.pos g.box_geo := by
    rw [← h]
    ext <;> simp
  have e2 : (⟨(sv.folded_position q.pos g.box_geo).x - (sv.folded_position p.pos g.box_geo).x +
        ((0 : Int) : K) * g.box_geo.length.x,
      (sv.folded_position q.pos g.box_geo).y - (sv.folded_position p.pos g.box_geo).y +
        ((0 : Int) : K) * g.box_geo.length.y,
      (sv.folded_position q.pos g.box_geo).z - (sv.folded_position p.pos g.box_geo).z +
        ((0 : Int) : K) * g.box_geo.length.z⟩ : Vec3 K) =
      -sv.get_mi_vector p.pos q.pos g.box_geo := by
    rw [← h]
    ext <;> simp
  rw [e1, e2, mdds_u_term_neg, ← mdds_u_term_eq_kernel sv g p q false]
  norm_num
  ring

/-- C5, amended: on a single process, in a fully periodic box and with `Ncut = 0`, the
direct sum and the all-pairs engine return the same energy for flags `(0, 1)` whenever,
for every two dipole-bearing particles, the difference of their folded positions is their
minimum-image displacement. -/
theorem mdds_zero_replica_energy (sv : Services K) (g : Globals K)
    (parts : List (Particle K)) (h1 : g.n_nodes = 1)
    (hN : g.Ncut_off_magnetic_dipolar_direct_sum = 0)
    (hper : g.box_geo.periodic = ⟨true, true, true⟩)
    (hmi : ∀ i j : Nat, i < j → j < (parts.filter fun p => decide (p.dipm ≠ 0)).length →
      sv.folded_position (((parts.filter fun p => decide (p.dipm ≠ 0)).getD i
            Particle.nil).pos) g.box_geo -
          sv.folded_position (((parts.filter fun p => decide (p.dipm ≠ 0)).getD j
            Particle.nil).pos) g.box_geo =
        sv.get_mi_vector ((parts.filter fun p => decide (p.dipm ≠ 0)).getD i Particle.nil).pos
          ((parts.filter fun p => decide (p.dipm ≠ 0)).getD j Particle.nil).pos g.box_geo) :
    (magnetic_dipolar_direct_sum_calculations sv g parts false true).map Prod.fst =
      (dawaanr_calculations sv g parts false true).map Prod.fst := by
  have _hper := hper
  have hNC : mdds_NCUT g = ⟨0, 0, 0⟩ := by
    simp [mdds_NCUT, hN]
  have hNC2 : mdds_NCUT2 g = 0 := by
    simp [mdds_NCUT2, hN]
  rw [mdds_fst_raw sv g parts false true h1 (Or.inr rfl),
    dawaanr_fst_value sv g parts false true h1 (Or.inr rfl), hNC, hNC2,
    mdds_triples_zero_sum,
    dawaanr_pairs_sum_eq (fun p q => (calc_dipole_dipole_ia sv g p p.dip q false).1)]
  congr 1
  have hD := ordered_pairs_sum_eq ((0, 0) : Vec3 K × Vec3 K)
    (fun a b => mdds_u_term sv a.2 b.2
      ⟨a.1.x - b.1.x + ((0 : Int) : K) * g.box_geo.length.x,
        a.1.y - b.1.y + ((0 : Int) : K) * g.box_geo.length.y,
        a.1.z - b.1.z + ((0 : Int) : K) * g.box_geo.length.z⟩)
    (mdds_gather sv g parts)
  refine (congrArg (fun s => 0.5 * g.dipole.prefactor * s) hD).trans ?_
  rw [pairs_sum_mul]
  unfold mdds_gather
  rw [pairs_sum_map]
  apply pairs_sum_congr Particle.nil
  intro i j hij hj
  exact mdds_zero_pair_term sv g _ _ (hmi i j hij hj)

end ZeroReplicaMain

section ZeroReplicaExample

theorem pairQ_pairs : dawaanr_pairs pairQ = [(0, 1)] := by
  simp [dawaanr_pairs, pairQ, dipoleQ, List.range_succ, List.range'_succ]

/-- Counterexample to C5: two parallel unit dipoles at `x = 1` and `x = 9` in a fully
periodic box of edge 10, prefactor 2, `Ncut = 0`. The direct sum uses the folded separation
8 and returns `-1/128`; the all-pairs engine uses the minimum-image separation 2 and
returns `-1/2`. -/
theorem mdds_zero_replica_energy_counterexample :
    (magnetic_dipolar_direct_sum_calculations (servicesQ true)
        (globalsQ ⟨true, true, true⟩ 0) pairQ false true).map Prod.fst = some (-1 / 128) ∧
      (dawaanr_calculations (servicesQ true) (globalsQ ⟨true, true, true⟩ 0) pairQ false
        true).map Prod.fst = some (-1 / 2) ∧
      (magnetic_dipolar_direct_sum_calculations (servicesQ true)
        (globalsQ ⟨true, true, true⟩ 0) pairQ false true).map Prod.fst ≠
      (dawaanr_calculations (servicesQ true) (globalsQ ⟨true, true, true⟩ 0) pairQ false
        true).map Prod.fst := by
  have hA : (magnetic_dipolar_direct_sum_calculations (servicesQ true)
      (globalsQ ⟨true, true, true⟩ 0) pairQ false true).map Prod.fst = some (-1 / 128) := by
    rw [mdds_fst_raw _ _ _ _ _ rfl (Or.inr rfl), pairQ_gather]
    simp only [List.length_cons, List.length_nil, Nat.reduceAdd, pairQ_triples]
    norm_num [mdds_rn, mdds_x, mdds_m, mdds_u_term, servicesQ, sqrtQ, globalsQ]
  have hB : (dawaanr_calculations (servicesQ true) (globalsQ ⟨true, true, true⟩ 0) pairQ
      false true).map Prod.fst = some (-1 / 2) := by
    rw [dawaanr_fst_value _ _ _ _ _ rfl (Or.inr rfl), pairQ_pairs]
    norm_num [pairQ, dipoleQ, calc_dipole_dipole_ia_fst, servicesQ, globalsQ, get_mi_vector_Q,
      get_mi_coord_Q, Vec3.dot, sqrtQ, abs_lt, round_eq]
  refine ⟨hA, hB, ?_⟩
  rw [hA, hB]
  norm_num

/-- Witness of the amended C5: two parallel unit dipoles at `x = 1` and `x = 4`, whose
folded separation is their minimum-image displacement. -/
theorem mdds_zero_replica_energy_witness :
    (magnetic_dipolar_direct_sum_calculations (servicesQ true)
        (globalsQ ⟨true, true, true⟩ 0) nearQ false true).map Prod.fst =
      (dawaanr_calculations (servicesQ true) (globalsQ ⟨true, true, true⟩ 0) nearQ false
        true).map Prod.fst :=
  mdds_zero_replica_energy (servicesQ true) (globalsQ ⟨true, true, true⟩ 0) nearQ rfl rfl rfl
    (by
      intro i j hij hj
      have hf : (nearQ.filter fun p => decide (p.dipm ≠ 0)) = nearQ := by
        norm_num [nearQ, dipoleQ]
      rw [hf] at hj ⊢
      have hj2 : j < 2 := hj
      obtain rfl : j = 1 := by omega
      obtain rfl : i = 0 := by omega
      ext <;>
        norm_num [nearQ, dipoleQ, servicesQ, globalsQ, folded_position_Q, fold_coordinate_Q,
          get_mi_vector_Q, get_mi_coord_Q, abs_lt])

end ZeroReplicaExample

section ForceLemmas

variable {K : Type} [LinearOrderedField K]

theorem mdds_foldl_f (sv : Services K) (g : Globals K) (ws : List (Vec3 K × Vec3 K))
    (l : List (Nat × Nat × Int × Int × Int)) (s : MddsAcc K) (k : Nat) :
    (l.foldl (mdds_step sv g ws true) s).f k =
      s.f k + ((l.filter fun t => decide (t.1 = k)).map fun t =>
        mdds_f_term sv (mdds_m ws t.1) (mdds_m ws t.2.1) (mdds_rn g ws t)).sum := by
  induction l generalizing s with
  | nil => simp
  | cons t l ih =>
    rw [List.foldl_cons, ih, mdds_step_f]
    by_cases hk : t.1 = k
    · subst hk
      simp [List.filter_cons, add_assoc]
    · simp [List.filter_cons, hk, Function.update_noteq (Ne.symm hk)]

theorem mdds_foldl_t (sv : Services K) (g : Globals K) (ws : List (Vec3 K × Vec3 K))
    (hrot : sv.ROTATION = true)
    (l : List (Nat × Nat × Int × Int × Int)) (s : MddsAcc K) (k : Nat) :
    (l.foldl (mdds_step sv g ws true) s).t k =
      s.t k + ((l.filter fun t => decide (t.1 = k)).map fun t =>
        mdds_t_term sv (mdds_m ws t.1) (mdds_m ws t.2.1) (mdds_rn g ws t)).sum := by
  induction l generalizing s with
  | nil => simp
  | cons t l ih =>
    rw [List.foldl_cons, ih, mdds_step_t]
    by_cases hk : t.1 = k
    · subst hk
      simp [List.filter_cons, add_assoc, hrot]
    · simp [List.filter_cons, hk, Function.update_noteq (Ne.symm hk), hrot]

theorem mdds_scatter_cons_zero (sv : Services K) (g : Globals K) (f t : Nat → Vec3 K)
    (p : Particle K) (ps : List (Particle K)) (k : Nat) (h0 : p.dipm = 0) :
    mdds_scatter sv g f t (p :: ps) k = p :: mdds_scatter sv g f t ps k := by
  rw [mdds_scatter, if_neg (not_not.mpr h0)]

theorem mdds_scatter_cons_dipole (sv : Services K) (g : Globals K) (f t : Nat → Vec3 K)
    (p : Particle K) (ps : List (Particle K)) (k : Nat) (h0 : p.dipm ≠ 0) :
    mdds_scatter sv g f t (p :: ps) k =
      mdds_apply sv g f t p k :: mdds_scatter sv g f t ps (k + 1) := by
  rw [mdds_scatter, if_pos h0]
  rfl

theorem mdds_scatter_static (sv : Services K) (g : Globals K) (f t : Nat → Vec3 K)
    (ps : List (Particle K)) (k : Nat) :
    (mdds_scatter sv g f t ps k).map Particle.static = ps.map Particle.static := by
  induction ps generalizing k with
  | nil => rfl
  | cons p ps ih =>
    by_cases h0 : p.dipm = 0
    · rw [mdds_scatter_cons_zero sv g f t p ps k h0, List.map_cons, List.map_cons, ih]
    · rw [mdds_scatter_cons_dipole sv g f t p ps k h0, List.map_cons, List.map_cons, ih]
      rfl

theorem mdds_scatter_zero_dipole (sv : Services K) (g : Globals K) (f t : Nat → Vec3 K)
    (ps : List (Particle K)) (k idx : Nat) (h : (ps.getD idx Particle.nil).dipm = 0) :
    (mdds_scatter sv g f t ps k).getD idx Particle.nil = ps.getD idx Particle.nil := by
  induction ps generalizing k idx with
  | nil => rfl
  | cons p ps ih =>
    cases idx with
    | zero =>
      have h0 : p.dipm = 0 := by simpa using h
      rw [mdds_scatter_cons_zero sv g f t p ps k h0]
      rfl
    | succ idx =>
      have h2 : (ps.getD idx Particle.nil).dipm = 0 := by simpa using h
      by_cases h0 : p.dipm = 0
      · rw [mdds_scatter_cons_zero sv g f t p ps k h0, List.getD_cons_succ,
          List.getD_cons_succ]
        exact ih k idx h2
      · rw [mdds_scatter_cons_dipole sv g f t p ps k h0, List.getD_cons_succ,
          List.getD_cons_succ]
        exact ih (k + 1) idx h2

theorem mdds_scatter_dipoles (sv : Services K) (g : Globals K) (f t : Nat → Vec3 K)
    (ps : List (Particle K)) (k0 k : Nat)
    (hk : k < (ps.filter fun p => decide (p.dipm ≠ 0)).length) :
    ((mdds_scatter sv g f t ps k0).filter fun p => decide (p.dipm ≠ 0)).getD k Particle.nil =
      mdds_apply sv g f t ((ps.filter fun p => decide (p.dipm ≠ 0)).getD k Particle.nil)
        (k0 + k) := by
  induction ps generalizing k0 k with
  | nil => simp at hk
  | cons p ps ih =>
    by_cases h0 : p.dipm = 0
    · rw [List.filter_cons_of_neg (by simpa using h0)] at hk
      rw [mdds_scatter_cons_zero sv g f t p ps k0 h0,
        List.filter_cons_of_neg (by simpa using h0),
        List.filter_cons_of_neg (by simpa using h0)]
      exact ih k0 k hk
    · have hf2 : (mdds_apply sv g f t p k0).dipm ≠ 0 := h0
      rw [List.filter_cons_of_pos (by simpa using h0)] at hk
      rw [mdds_scatter_cons_dipole sv g f t p ps k0 h0,
        List.filter_cons_of_pos (by simpa using hf2),
        List.filter_cons_of_pos (by simpa using h0)]
      cases k with
      | zero => rfl
      | succ k =>
        rw [List.getD_cons_succ, List.getD_cons_succ, ih (k0 + 1) k (by simpa using hk)]
        congr 1
        omega

end ForceLemmas

section ForceMain

variable {K : Type} [LinearOrderedField K]

theorem mdds_f_term_eq_pair_force (sv : Services K) (mi mj rn : Vec3 K)
    (h : sv.sqrt (rn.dot rn) * sv.sqrt (rn.dot rn) = rn.dot rn) :
    mdds_f_term sv mi mj rn = pair_force mi mj rn (sv.sqrt (rn.dot rn)) := by
  unfold mdds_f_term pair_force
  simp only [Vec3.dot] at h ⊢
  generalize sv.sqrt (rn.x * rn.x + rn.y * rn.y + rn.z * rn.z) = d at h ⊢
  rw [← h]
  ext
  · show _ = _ + _ + _
    simp only [Vec3.smul]
    ring
  · show _ = _ + _ + _
    simp only [Vec3.smul]
    ring
  · show _ = _ + _ + _
    simp only [Vec3.smul]
    ring

theorem mdds_t_term_eq_pair_torque (sv : Services K) (mi mj rn : Vec3 K)
    (h : sv.sqrt (rn.dot rn) * sv.sqrt (rn.dot rn) = rn.dot rn) :
    mdds_t_term sv mi mj rn = pair_torque mi mj rn (sv.sqrt (rn.dot rn)) := by
  unfold mdds_t_term pair_torque
  simp only [Vec3.dot] at h ⊢
  generalize sv.sqrt (rn.x * rn.x + rn.y * rn.y + rn.z * rn.z) = d at h ⊢
  rw [← h]
  ext
  · show _ = _ + _
    simp only [Vec3.smul, Vec3.cross]
    ring
  · show _ = _ + _
    simp only [Vec3.smul, Vec3.cross]
    ring
  · show _ = _ + _
    simp only [Vec3.smul, Vec3.cross]
    ring

theorem mdds_accumulate_f (sv : Services K) (g : Globals K) (parts : List (Particle K))
    (k : Nat) :
    (mdds_accumulate sv g parts true).f k =
      (((mdds_triples (mdds_gather sv g parts).length (mdds_NCUT g) (mdds_NCUT2 g)).filter
        fun t => decide (t.1 = k)).map fun t =>
          mdds_f_term sv (mdds_m (mdds_gather sv g parts) t.1)
            (mdds_m (mdds_gather sv g parts) t.2.1)
            (mdds_rn g (mdds_gather sv g parts) t)).sum := by
  rw [mdds_accumulate_eq, mdds_foldl_f]
  exact zero_add _

theorem mdds_accumulate_t (sv : Services K) (g : Globals K) (parts : List (Particle K))
    (hrot : sv.ROTATION = true) (k : Nat) :
    (mdds_accumulate sv g parts true).t k =
      (((mdds_triples (mdds_gather sv g parts).length (mdds_NCUT g) (mdds_NCUT2 g)).filter
        fun t => decide (t.1 = k)).map fun t =>
          mdds_t_term sv (mdds_m (mdds_gather sv g parts) t.1)
            (mdds_m (mdds_gather sv g parts) t.2.1)
            (mdds_rn g (mdds_gather sv g parts) t)).sum := by
  rw [mdds_accumulate_eq, mdds_foldl_t sv g _ hrot]
  exact zero_add _

theorem mdds_run_force (sv : Services K) (g : Globals K) (parts : List (Particle K))
    (energy_flag : Bool) (h1 : g.n_nodes = 1) :
    magnetic_dipolar_direct_sum_calculations sv g parts true energy_flag =
      some (0.5 * g.dipole.prefactor * (mdds_accumulate sv g parts true).u,
        mdds_scatter sv g (mdds_accumulate sv g parts true).f
          (mdds_accumulate sv g parts true).t parts 0) := by
  unfold magnetic_dipolar_direct_sum_calculations
  simp [h1]

theorem mdds_apply_f (sv : Services K) (g : Globals K) (f t : Nat → Vec3 K) (p : Particle K)
    (k : Nat) : (mdds_apply sv g f t p k).f = p.f + Vec3.smul g.dipole.prefactor (f k) :=
  rfl

theorem mdds_apply_torque (sv : Services K) (g : Globals K) (f t : Nat → Vec3 K)
    (p : Particle K) (k : Nat) :
    (mdds_apply sv g f t p k).torque =
      if sv.ROTATION = true then p.torque + Vec3.smul g.dipole.prefactor (t k)
      else p.torque := by
  unfold mdds_apply
  cases sv.ROTATION <;> rfl

/-- C8, amended: after the direct sum with `force_flag` set, the force of the `k`-th
dipole-bearing particle is its previous force plus `prefactor` times the sum, over the
contributing triples with `i = k`, of the force term of the spec; in a build with `ROTATION`
its torque is likewise its previous torque plus `prefactor` times the sum of the torque
terms, and in a build without `ROTATION` its torque is unchanged; a particle of zero dipole
magnitude is left as it was, and no position, dipole magnitude or moment changes. -/
theorem mdds_force_torque_scatter (sv : Services K) (g : Globals K)
    (parts : List (Particle K)) (energy_flag : Bool) (h1 : g.n_nodes = 1)
    (hsqrt : ∀ t ∈ mdds_triples (mdds_gather sv g parts).length (mdds_NCUT g) (mdds_NCUT2 g),
      sv.sqrt ((mdds_rn g (mdds_gather sv g parts) t).dot
          (mdds_rn g (mdds_gather sv g parts) t)) *
        sv.sqrt ((mdds_rn g (mdds_gather sv g parts) t).dot
          (mdds_rn g (mdds_gather sv g parts) t)) =
      (mdds_rn g (mdds_gather sv g parts) t).dot (mdds_rn g (mdds_gather sv g parts) t)) :
    ∃ (u : K) (parts1 : List (Particle K)),
      magnetic_dipolar_direct_sum_calculations sv g parts true energy_flag =
          some (u, parts1) ∧
        parts1.map Particle.static = parts.map Particle.static ∧
        (∀ idx : Nat, (parts.getD idx Particle.nil).dipm = 0 →
          parts1.getD idx Particle.nil = parts.getD idx Particle.nil) ∧
        ∀ k : Nat, k < (parts.filter fun p => decide (p.dipm ≠ 0)).length →
          ((parts1.filter fun p => decide (p.dipm ≠ 0)).getD k Particle.nil).f =
              ((parts.filter fun p => decide (p.dipm ≠ 0)).getD k Particle.nil).f +
                Vec3.smul g.dipole.prefactor
                  (((mdds_triples (mdds_gather sv g parts).length (mdds_NCUT g)
                    (mdds_NCUT2 g)).filter fun t => decide (t.1 = k)).map fun t =>
                      pair_force (mdds_m (mdds_gather sv g parts) t.1)
                        (mdds_m (mdds_gather sv g parts) t.2.1)
                        (mdds_rn g (mdds_gather sv g parts) t)
                        (sv.sqrt ((mdds_rn g (mdds_gather sv g parts) t).dot
                          (mdds_rn g (mdds_gather sv g parts) t)))).sum ∧
            ((parts1.filter fun p => decide (p.dipm ≠ 0)).getD k Particle.nil).torque =
              if sv.ROTATION = true then
                ((parts.filter fun p => decide (p.dipm ≠ 0)).getD k Particle.nil).torque +
                  Vec3.smul g.dipole.prefactor
                    (((mdds_triples (mdds_gather sv g parts).length (mdds_NCUT g)
                      (mdds_NCUT2 g)).filter fun t => decide (t.1 = k)).map fun t =>
                        pair_torque (mdds_m (mdds_gather sv g parts) t.1)
                          (mdds_m (mdds_gather sv g parts) t.2.1)
                          (mdds_rn g (mdds_gather sv g parts) t)
                          (sv.sqrt ((mdds_rn g (mdds_gather sv g parts) t).dot
                            (mdds_rn g (mdds_gather sv g parts) t)))).sum
              else ((parts.filter fun p => decide (p.dipm ≠ 0)).getD k Particle.nil).torque := by
  refine ⟨_, _, mdds_run_force sv g parts energy_flag h1, mdds_scatter_static _ _ _ _ _ _,
    fun idx h => mdds_scatter_zero_dipole _ _ _ _ _ _ _ h, fun k hk => ?_⟩
  rw [mdds_scatter_dipoles sv g _ _ parts 0 k hk, Nat.zero_add, mdds_apply_f,
    mdds_apply_torque, mdds_accumulate_f]
  constructor
  · congr 3
    apply List.map_congr_left
    intro t ht
    exact mdds_f_term_eq_pair_force sv _ _ _ (hsqrt t (List.mem_filter.mp ht).1)
  · by_cases hrot : sv.ROTATION = true
    · rw [if_pos hrot, if_pos hrot, mdds_accumulate_t sv g parts hrot]
      congr 3
      apply List.map_congr_left
      intro t ht
      exact mdds_t_term_eq_pair_torque sv _ _ _ (hsqrt t (List.mem_filter.mp ht).1)
    · rw [if_neg hrot, if_neg hrot]

end ForceMain

section ForceExample

theorem pairQ_filter : (pairQ.filter fun p => decide (p.dipm ≠ 0)) = pairQ := by
  norm_num [pairQ, dipoleQ]

theorem pairQ_sqrt :
    ∀ t ∈ mdds_triples
        (mdds_gather (servicesQ true) (globalsQ ⟨true, true, true⟩ 0) pairQ).length
        (mdds_NCUT (globalsQ ⟨true, true, true⟩ 0))
        (mdds_NCUT2 (globalsQ ⟨true, true, true⟩ 0)),
      (servicesQ true).sqrt
          ((mdds_rn (globalsQ ⟨true, true, true⟩ 0)
            (mdds_gather (servicesQ true) (globalsQ ⟨true, true, true⟩ 0) pairQ) t).dot
          (mdds_rn (globalsQ ⟨true, true, true⟩ 0)
            (mdds_gather (servicesQ true) (globalsQ ⟨true, true, true⟩ 0) pairQ) t)) *
        (servicesQ true).sqrt
          ((mdds_rn (globalsQ ⟨true, true, true⟩ 0)
            (mdds_gather (servicesQ true) (globalsQ ⟨true, true, true⟩ 0) pairQ) t).dot
          (mdds_rn (globalsQ ⟨true, true, true⟩ 0)
            (mdds_gather (servicesQ true) (globalsQ ⟨true, true, true⟩ 0) pairQ) t)) =
      (mdds_rn (globalsQ ⟨true, true, true⟩ 0)
          (mdds_gather (servicesQ true) (globalsQ ⟨true, true, true⟩ 0) pairQ) t).dot
        (mdds_rn (globalsQ ⟨true, true, true⟩ 0)
          (mdds_gather (servicesQ true) (globalsQ ⟨true, true, true⟩ 0) pairQ) t) := by
  rw [pairQ_gather]
  simp only [List.length_cons, List.length_nil, Nat.reduceAdd, pairQ_triples,
    List.mem_cons, List.mem_nil_iff, or_false, forall_eq_or_imp, forall_eq]
  norm_num [mdds_rn, mdds_x, Vec3.dot, servicesQ, sqrtQ, globalsQ]

/-- Witness of the amended C8: two parallel unit dipoles at `x = 1` and `x = 9`, no
replicas; the first one, at rest before the call, is pulled along `x` with force
`3/1024`. -/
theorem mdds_force_torque_scatter_witness :
    ∃ (u : ℚ) (parts1 : List (Particle ℚ)),
      magnetic_dipolar_direct_sum_calculations (servicesQ true)
          (globalsQ ⟨true, true, true⟩ 0) pairQ true false = some (u, parts1) ∧
        ((parts1.filter fun p => decide (p.dipm ≠ 0)).getD 0 Particle.nil).f =
          ⟨3 / 1024, 0, 0⟩ := by
  obtain ⟨u, parts1, hrun, _, _, hk⟩ :=
    mdds_force_torque_scatter (servicesQ true) (globalsQ ⟨true, true, true⟩ 0) pairQ false rfl
      pairQ_sqrt
  refine ⟨u, parts1, hrun, ?_⟩
  rw [(hk 0 (by rw [pairQ_filter]; decide)).1, pairQ_filter, pairQ_gather]
  simp only [List.length_cons, List.length_nil, Nat.reduceAdd, pairQ_triples]
  ext <;>
    norm_num [pairQ, dipoleQ, List.filter, mdds_rn, mdds_x, mdds_m, Vec3.dot, servicesQ, sqrtQ,
      globalsQ, pair_force]

end ForceExample

section TotalForce

variable {K : Type} [LinearOrderedField K]

theorem Vec3.smul_add_vec (c : K) (a b : Vec3 K) :
    Vec3.smul c (a + b) = Vec3.smul c a + Vec3.smul c b := by
  ext <;> simp [mul_add]

theorem Vec3.smul_zero_vec (c : K) : Vec3.smul c (0 : Vec3 K) = 0 := by
  ext <;> simp

theorem Vec3.eq_zero_of_eq_neg (a : Vec3 K) (h : a = -a) : a = 0 := by
  have hx := congrArg Vec3.x h
  have hy := congrArg Vec3.y h
  have hz := congrArg Vec3.z h
  simp only [Vec3.neg_x, Vec3.neg_y, Vec3.neg_z] at hx hy hz
  ext
  · show a.x = 0
    linarith
  · show a.y = 0
    linarith
  · show a.z = 0
    linarith

theorem sum_map_neg_vec {τ : Type} (F : τ → Vec3 K) (l : List τ) :
    (l.map fun t => -F t).sum = -(l.map F).sum := by
  induction l with
  | nil => simp
  | cons t l ih =>
    simp only [List.map_cons, List.sum_cons, ih]
    abel

theorem sum_eq_zero_of_involution {τ : Type} (L : List τ) (σ : τ → τ) (F : τ → Vec3 K)
    (hnd : L.Nodup) (hmem : ∀ t, t ∈ L → σ t ∈ L) (hinv : ∀ t, σ (σ t) = t)
    (hF : ∀ t ∈ L, F (σ t) = -F t) : (L.map F).sum = 0 := by
  have hinj : Function.Injective σ := fun a b h => by
    rw [← hinv a, ← hinv b, h]
  have hperm : (L.map σ).Perm L := by
    rw [List.perm_ext_iff_of_nodup (hnd.map hinj) hnd]
    intro t
    constructor
    · intro ht
      obtain ⟨s, hs, rfl⟩ := List.mem_map.mp ht
      exact hmem s hs
    · intro ht
      exact List.mem_map.mpr ⟨σ t, hmem t ht, hinv t⟩
  have h1 : ((L.map σ).map F).sum = (L.map F).sum := (hperm.map F).sum_eq
  have h2 : ((L.map σ).map F).sum = -(L.map F).sum := by
    rw [List.map_map, ← sum_map_neg_vec]
    congr 1
    apply List.map_congr_left
    intro t ht
    exact hF t ht
  exact Vec3.eq_zero_of_eq_neg _ (h1.symm.trans h2)

theorem sum_range_ite {V : Type} [AddCommMonoid V] (a n : Nat) (v : V) :
    ((List.range n).map fun k => if a = k then v else 0).sum = if a < n then v else 0 := by
  induction n with
  | zero => simp
  | succ n ih =>
    rw [List.range_succ, List.map_append, List.sum_append, ih]
    by_cases h1 : a < n
    · have h2 : a ≠ n := by omega
      have h3 : a < n + 1 := by omega
      simp [h1, h2, h3]
    · by_cases h2 : a = n
      · have h3 : a < n + 1 := by omega
        simp [h1, h2]
      · have h3 : ¬ a < n + 1 := by omega
        simp [h1, h2, h3]

theorem sum_fiberwise {τ : Type} (L : List τ) (key : τ → Nat) (n : Nat) (F : τ → Vec3 K)
    (h : ∀ t ∈ L, key t < n) :
    ((List.range n).map fun k =>
        ((L.filter fun t => decide (key t = k)).map F).sum).sum = (L.map F).sum := by
  induction L with
  | nil => simp
  | cons t L ih =>
    have hL : ∀ s ∈ L, key s < n := fun s hs => h s (List.mem_cons_of_mem _ hs)
    have ht : key t < n := h t (List.mem_cons_self _ _)
    have hsplit : ∀ k : Nat,
        (((t :: L).filter fun s => decide (key s = k)).map F).sum =
          (if key t = k then F t else 0) +
            ((L.filter fun s => decide (key s = k)).map F).sum := by
      intro k
      by_cases hk : key t = k
      · simp [List.filter_cons, hk]
      · simp [List.filter_cons, hk]
    simp only [hsplit]
    rw [List.sum_map_add, ih hL, sum_range_ite, if_pos ht, List.map_cons, List.sum_cons]

theorem mdds_scatter_increment_sum (sv : Services K) (g : Globals K) (f t : Nat → Vec3 K)
    (ps : List (Particle K)) (k0 : Nat) :
    (List.zipWith (fun (p1 p : Particle K) => p1.f - p.f)
        (mdds_scatter sv g f t ps k0) ps).sum =
      Vec3.smul g.dipole.prefactor
        ((List.range' k0 (ps.filter fun p => decide (p.dipm ≠ 0)).length).map f).sum := by
  induction ps generalizing k0 with
  | nil =>
    simp only [mdds_scatter, List.zipWith_nil_left, List.sum_nil, List.filter_nil,
      List.length_nil, List.range'_zero, List.map_nil]
    exact (Vec3.smul_zero_vec _).symm
  | cons p ps ih =>
    by_cases h0 : p.dipm = 0
    · rw [mdds_scatter_cons_zero sv g f t p ps k0 h0, List.zipWith_cons_cons, List.sum_cons,
        ih, List.filter_cons_of_neg (by simpa using h0), sub_self, zero_add]
    · rw [mdds_scatter_cons_dipole sv g f t p ps k0 h0, List.zipWith_cons_cons, List.sum_cons,
        ih, List.filter_cons_of_pos (by simpa using h0), List.length_cons, List.range'_succ,
        List.map_cons, List.sum_cons, Vec3.smul_add_vec, mdds_apply_f, add_sub_cancel_left]

end TotalForce

section TotalForceMain

variable {K : Type} [LinearOrderedField K]

theorem mdds_rn_swap (g : Globals K) (ws : List (Vec3 K × Vec3 K))
    (t : Nat × Nat × Int × Int × Int) : mdds_rn g ws (mdds_swap t) = -mdds_rn g ws t := by
  unfold mdds_rn mdds_swap
  ext
  · show _ = -_
    push_cast
    ring
  · show _ = -_
    push_cast
    ring
  · show _ = -_
    push_cast
    ring

theorem mdds_f_term_neg (sv : Services K) (a b r : Vec3 K) :
    mdds_f_term sv b a (-r) = -mdds_f_term sv a b r := by
  unfold mdds_f_term
  simp only [Vec3.neg_x, Vec3.neg_y, Vec3.neg_z, neg_mul_neg]
  ext
  · show _ = -_
    ring
  · show _ = -_
    ring
  · show _ = -_
    ring

theorem mdds_swap_swap (t : Nat × Nat × Int × Int × Int) : mdds_swap (mdds_swap t) = t := by
  obtain ⟨i, j, nx, ny, nz⟩ := t
  simp [mdds_swap]

theorem mdds_swap_mem (n : Nat) (NCUT : Vec3 Int) (NCUT2 : Int)
    (t : Nat × Nat × Int × Int × Int) (ht : t ∈ mdds_triples n NCUT NCUT2) :
    mdds_swap t ∈ mdds_triples n NCUT NCUT2 := by
  obtain ⟨i, j, nx, ny, nz⟩ := t
  show (j, i, -nx, -ny, -nz) ∈ mdds_triples n NCUT NCUT2
  rw [mem_mdds_triples] at ht ⊢
  obtain ⟨hi, hj, hx, hy, hz, hne, hs⟩ := ht
  refine ⟨hj, hi, by omega, by omega, by omega, ?_, ?_⟩
  · rintro ⟨h1, h2, h3, h4⟩
    exact hne ⟨h1.symm, by simpa using h2, by simpa using h3, by simpa using h4⟩
  · simpa only [neg_mul_neg] using hs

theorem mdds_force_sum_zero (sv : Services K) (g : Globals K) (ws : List (Vec3 K × Vec3 K))
    (n : Nat) :
    ((mdds_triples n (mdds_NCUT g) (mdds_NCUT2 g)).map fun t =>
      mdds_f_term sv (mdds_m ws t.1) (mdds_m ws t.2.1) (mdds_rn g ws t)).sum = 0 := by
  refine sum_eq_zero_of_involution _ mdds_swap _ (nodup_mdds_triples _ _ _)
    (mdds_swap_mem _ _ _) mdds_swap_swap ?_
  intro t _
  rw [mdds_rn_swap]
  exact mdds_f_term_neg sv _ _ _

/-- C6: on a single process, for every replica cutoff and periodicity with all image
separations non-zero, the force increments the direct sum applies with `force_flag` set
add up, over all particles, to the zero vector. -/
theorem mdds_total_force_zero (sv : Services K) (g : Globals K) (parts : List (Particle K))
    (energy_flag : Bool) (h1 : g.n_nodes = 1)
    (hnz : ∀ t ∈ mdds_triples (mdds_gather sv g parts).length (mdds_NCUT g) (mdds_NCUT2 g),
      mdds_rn g (mdds_gather sv g parts) t ≠ 0) :
    ∃ (u : K) (parts1 : List (Particle K)),
      magnetic_dipolar_direct_sum_calculations sv g parts true energy_flag =
          some (u, parts1) ∧
        (List.zipWith (fun (p1 p : Particle K) => p1.f - p.f) parts1 parts).sum = 0 := by
  have _hnz := hnz
  refine ⟨_, _, mdds_run_force sv g parts energy_flag h1, ?_⟩
  have hlen : (parts.filter fun p => decide (p.dipm ≠ 0)).length =
      (mdds_gather sv g parts).length := by
    unfold mdds_gather
    rw [List.length_map]
  rw [mdds_scatter_increment_sum, hlen, ← List.range_eq_range']
  rw [funext (mdds_accumulate_f sv g parts)]
  have hs := sum_fiberwise
    (mdds_triples (mdds_gather sv g parts).length (mdds_NCUT g) (mdds_NCUT2 g))
    (fun t => t.1) (mdds_gather sv g parts).length
    (fun t => mdds_f_term sv (mdds_m (mdds_gather sv g parts) t.1)
      (mdds_m (mdds_gather sv g parts) t.2.1) (mdds_rn g (mdds_gather sv g parts) t))
    (fun t ht => by
      obtain ⟨i, j, nx, ny, nz⟩ := t
      exact ((mem_mdds_triples _ _ _ _ _ _ _ _).mp ht).1)
  rw [hs, mdds_force_sum_zero]
  exact Vec3.smul_zero_vec _

end TotalForceMain

section TotalForceExample

theorem Vec3.mk_eq_zero_iff {R : Type} [Zero R] (a b c : R) :
    (⟨a, b, c⟩ : Vec3 R) = 0 ↔ a = 0 ∧ b = 0 ∧ c = 0 := by
  constructor
  · intro h
    exact ⟨congrArg Vec3.x h, congrArg Vec3.y h, congrArg Vec3.z h⟩
  · rintro ⟨rfl, rfl, rfl⟩
    rfl

theorem pairQ_gather_x (rot : Bool) (Ncut : Int) :
    mdds_gather (servicesQ rot) (globalsQ ⟨true, false, false⟩ Ncut) pairQ =
      [(⟨1, 0, 0⟩, ⟨1, 0, 0⟩), (⟨9, 0, 0⟩, ⟨1, 0, 0⟩)] := by
  norm_num [mdds_gather, pairQ, dipoleQ, servicesQ, globalsQ, folded_position_Q,
    fold_coordinate_Q]

theorem pairQ_triples_x :
    mdds_triples 2 (mdds_NCUT (globalsQ ⟨true, false, false⟩ 1))
        (mdds_NCUT2 (globalsQ ⟨true, false, false⟩ 1)) =
      [(0, 0, -1, 0, 0), (0, 0, 1, 0, 0), (0, 1, -1, 0, 0), (0, 1, 0, 0, 0), (0, 1, 1, 0, 0),
        (1, 0, -1, 0, 0), (1, 0, 0, 0, 0), (1, 0, 1, 0, 0), (1, 1, -1, 0, 0),
        (1, 1, 1, 0, 0)] := by
  rfl

/-- Witness of C6: two dipoles at `x = 1` and `x = 9` in a box periodic along `x` only,
with one replica on each side; the ten image separations are non-zero. -/
theorem mdds_total_force_zero_witness :
    ∃ (u : ℚ) (parts1 : List (Particle ℚ)),
      magnetic_dipolar_direct_sum_calculations (servicesQ true)
          (globalsQ ⟨true, false, false⟩ 1) pairQ true true = some (u, parts1) ∧
        (List.zipWith (fun (p1 p : Particle ℚ) => p1.f - p.f) parts1 pairQ).sum = 0 :=
  mdds_total_force_zero (servicesQ true) (globalsQ ⟨true, false, false⟩ 1) pairQ true rfl
    (by
      rw [pairQ_gather_x]
      simp only [List.length_cons, List.length_nil, Nat.reduceAdd, pairQ_triples_x,
        List.mem_cons, List.mem_nil_iff, or_false, forall_eq_or_imp, forall_eq]
      norm_num [mdds_rn, mdds_x, globalsQ, Vec3.mk_eq_zero_iff])

end TotalForceExample

section SelfImages

variable {K : Type} [LinearOrderedField K]

theorem singleQ_gather (rot : Bool) (Ncut : Int) :
    (mdds_gather (servicesQ rot) (globalsQ ⟨true, true, true⟩ Ncut) singleQ).length = 1 := by
  norm_num [mdds_gather, singleQ, dipoleQ]

/-- Counterexample to C9: one dipole in a fully periodic box with `Ncut = 1`. The offset
`(1, 1, 1)` is enumerated for the particle and is not `(0, 0, 0)`, yet it is not among the
contributing triples. -/
theorem mdds_self_images_counterexample :
    ¬ ∀ nx ny nz : Int,
        |nx| ≤ (globalsQ ⟨true, true, true⟩ 1).Ncut_off_magnetic_dipolar_direct_sum →
        |ny| ≤ (globalsQ ⟨true, true, true⟩ 1).Ncut_off_magnetic_dipolar_direct_sum →
        |nz| ≤ (globalsQ ⟨true, true, true⟩ 1).Ncut_off_magnetic_dipolar_direct_sum →
        (nx, ny, nz) ≠ (0, 0, 0) →
        (0, 0, nx, ny, nz) ∈
          mdds_triples
            (mdds_gather (servicesQ true) (globalsQ ⟨true, true, true⟩ 1) singleQ).length
            (mdds_NCUT (globalsQ ⟨true, true, true⟩ 1))
            (mdds_NCUT2 (globalsQ ⟨true, true, true⟩ 1)) := by
  intro h
  have hmem := h 1 1 1 (by decide) (by decide) (by decide) (by decide)
  rw [singleQ_gather, mem_mdds_triples] at hmem
  exact absurd hmem.2.2.2.2.2.2 (by decide)

/-- C9, amended: with exactly one dipole-bearing particle in a fully periodic box and
`Ncut ≥ 1`, an offset contributes a term to the energy exactly when it is within the
cutoff on each axis, its squared components sum to at most `Ncut^2`, and it is not
`(0, 0, 0)`; the energy returned is `0.5 * prefactor` times the sum of the terms of these
offsets. -/
theorem mdds_self_images (sv : Services K) (g : Globals K) (parts : List (Particle K))
    (force_flag energy_flag : Bool) (h1 : g.n_nodes = 1)
    (hflag : force_flag = true ∨ energy_flag = true)
    (hN : 1 ≤ g.Ncut_off_magnetic_dipolar_direct_sum)
    (hper : g.box_geo.periodic = ⟨true, true, true⟩)
    (hone : (parts.filter fun p => decide (p.dipm ≠ 0)).length = 1) :
    (∀ i j : Nat, ∀ nx ny nz : Int,
      (i, j, nx, ny, nz) ∈
          mdds_triples (mdds_gather sv g parts).length (mdds_NCUT g) (mdds_NCUT2 g) ↔
        i = 0 ∧ j = 0 ∧ |nx| ≤ g.Ncut_off_magnetic_dipolar_direct_sum ∧
          |ny| ≤ g.Ncut_off_magnetic_dipolar_direct_sum ∧
          |nz| ≤ g.Ncut_off_magnetic_dipolar_direct_sum ∧
          nx ^ 2 + ny ^ 2 + nz ^ 2 ≤ g.Ncut_off_magnetic_dipolar_direct_sum ^ 2 ∧
          (nx, ny, nz) ≠ (0, 0, 0)) ∧
      (magnetic_dipolar_direct_sum_calculations sv g parts force_flag energy_flag).map
          Prod.fst =
        some (0.5 * g.dipole.prefactor *
          ((mdds_triples (mdds_gather sv g parts).length (mdds_NCUT g) (mdds_NCUT2 g)).map
            fun t => mdds_u_term sv (mdds_m (mdds_gather sv g parts) t.1)
              (mdds_m (mdds_gather sv g parts) t.2.1)
              (mdds_rn g (mdds_gather sv g parts) t)).sum) := by
  have _hN := hN
  have hlen : (mdds_gather sv g parts).length = 1 := by
    unfold mdds_gather
    rw [List.length_map, hone]
  refine ⟨?_, mdds_fst_raw sv g parts force_flag energy_flag h1 hflag⟩
  intro i j nx ny nz
  rw [mem_mdds_triples, hlen]
  simp only [mdds_NCUT, mdds_NCUT2, hper, abs_le, sq, ne_eq, Prod.mk.injEq, Bool.true_eq_false,
    if_false]
  constructor
  · rintro ⟨hi, hj, hx, hy, hz, hne, hs⟩
    have hi0 : i = 0 := by omega
    have hj0 : j = 0 := by omega
    exact ⟨hi0, hj0, hx, hy, hz, hs, fun h => hne ⟨hi0.trans hj0.symm, h⟩⟩
  · rintro ⟨hi, hj, hx, hy, hz, hs, hne⟩
    exact ⟨by omega, by omega, hx, hy, hz, fun h => hne h.2, hs⟩

/-- Witness of the amended C9: one dipole in a fully periodic box with `Ncut = 1`; the
offset `(0, 0, 1)` contributes. -/
theorem mdds_self_images_witness :
    (0, 0, 0, 0, 1) ∈
      mdds_triples (mdds_gather (servicesQ true) (globalsQ ⟨true, true, true⟩ 1) singleQ).length
        (mdds_NCUT (globalsQ ⟨true, true, true⟩ 1))
        (mdds_NCUT2 (globalsQ ⟨true, true, true⟩ 1)) :=
  ((mdds_self_images (servicesQ true) (globalsQ ⟨true, true, true⟩ 1) singleQ false true rfl
    (Or.inr rfl) (by decide) rfl (by norm_num [singleQ, dipoleQ])).1 0 0 0 0 1).mpr
    (by decide)

end SelfImages

section ConfigurationTheorems

variable {K : Type} [LinearOrderedField K]

/-- C10: `set_Dprefactor p` returns `ES_ERROR` exactly when `p < 0`; in that case the
dipole configuration is unchanged and no broadcast is made; when `p >= 0` it returns
`ES_OK`, the stored prefactor is `p` and the method is unchanged. -/
theorem set_Dprefactor_spec (s : Node K) (p : K) :
    ((set_Dprefactor s p).1 = ES_ERROR ↔ p < 0) ∧
      (p < 0 → (set_Dprefactor s p).2.globals.dipole = s.globals.dipole ∧
        (set_Dprefactor s p).2.broadcasts = s.broadcasts) ∧
      (0 ≤ p → (set_Dprefactor s p).1 = ES_OK ∧
        (set_Dprefactor s p).2.globals.dipole.prefactor = p ∧
        (set_Dprefactor s p).2.globals.dipole.method = s.globals.dipole.method) := by
  by_cases hp : p < 0
  · have e : set_Dprefactor s p =
        (ES_ERROR,
          { s with
            runtime_errors := s.runtime_errors ++ ["Dipolar prefactor has to be >=0"] }) :=
      if_pos hp
    rw [e]
    exact ⟨⟨fun _ => hp, fun _ => rfl⟩, fun _ => ⟨rfl, rfl⟩,
      fun h => absurd hp (not_lt.mpr h)⟩
  · have e : set_Dprefactor s p =
        (ES_OK,
          mpi_bcast_coulomb_params
            { s with
              globals :=
                { s.globals with dipole := { s.globals.dipole with prefactor := p } } }) :=
      if_neg hp
    rw [e]
    have hne : ¬ (ES_OK = ES_ERROR) := by decide
    exact ⟨⟨fun h => absurd h hne, fun h => absurd h hp⟩, fun h => absurd h hp,
      fun _ => ⟨rfl, rfl, rfl⟩⟩

/-- Witness of C10: prefactor `-1` is rejected and leaves prefactor 2 in place; prefactor
`3` is accepted and stored. -/
theorem set_Dprefactor_spec_witness :
    ((set_Dprefactor (⟨globalsQ ⟨true, true, true⟩ 0, 0, []⟩ : Node ℚ) (-1)).2.globals.dipole =
        ⟨2, DipolarInteraction.DIPOLAR_DS⟩ ∧
      (set_Dprefactor (⟨globalsQ ⟨true, true, true⟩ 0, 0, []⟩ : Node ℚ) (-1)).2.broadcasts = 0) ∧
      ((set_Dprefactor (⟨globalsQ ⟨true, true, true⟩ 0, 0, []⟩ : Node ℚ) 3).1 = ES_OK ∧
        (set_Dprefactor (⟨globalsQ ⟨true, true, true⟩ 0, 0, []⟩ : Node ℚ)
          3).2.globals.dipole.prefactor = 3 ∧
        (set_Dprefactor (⟨globalsQ ⟨true, true, true⟩ 0, 0, []⟩ : Node ℚ)
          3).2.globals.dipole.method = DipolarInteraction.DIPOLAR_DS) :=
  ⟨(set_Dprefactor_spec (⟨globalsQ ⟨true, true, true⟩ 0, 0, []⟩ : Node ℚ) (-1)).2.1
      (by norm_num),
    (set_Dprefactor_spec (⟨globalsQ ⟨true, true, true⟩ 0, 0, []⟩ : Node ℚ) 3).2.2
      (by norm_num)⟩

end ConfigurationTheorems

section FatalPath

variable {K : Type} [LinearOrderedField K]

theorem dawaanr_calculations_of_many (sv : Services K) (g : Globals K)
    (parts : List (Particle K)) (force_flag energy_flag : Bool) (h : g.n_nodes ≠ 1) :
    dawaanr_calculations sv g parts force_flag energy_flag = none := by
  unfold dawaanr_calculations
  rw [if_pos h]

theorem mdds_calculations_of_many (sv : Services K) (g : Globals K)
    (parts : List (Particle K)) (force_flag energy_flag : Bool) (h : g.n_nodes ≠ 1) :
    magnetic_dipolar_direct_sum_calculations sv g parts force_flag energy_flag = none := by
  unfold magnetic_dipolar_direct_sum_calculations
  rw [if_pos h]

theorem dawaanr_calculations_of_one (sv : Services K) (g : Globals K)
    (parts : List (Particle K)) (force_flag energy_flag : Bool) (h : g.n_nodes = 1) :
    ∃ (u : K) (ps : List (Particle K)),
      dawaanr_calculations sv g parts force_flag energy_flag = some (u, ps) := by
  unfold dawaanr_calculations
  rw [if_neg (not_not.mpr h)]
  by_cases hf : (!force_flag && !energy_flag) = true
  · rw [if_pos hf]
    exact ⟨_, _, rfl⟩
  · rw [if_neg hf]
    exact ⟨_, _, rfl⟩

theorem mdds_calculations_of_one (sv : Services K) (g : Globals K)
    (parts : List (Particle K)) (force_flag energy_flag : Bool) (h : g.n_nodes = 1) :
    ∃ (u : K) (ps : List (Particle K)),
      magnetic_dipolar_direct_sum_calculations sv g parts force_flag energy_flag =
        some (u, ps) := by
  unfold magnetic_dipolar_direct_sum_calculations
  rw [if_neg (not_not.mpr h)]
  by_cases hf : (!force_flag && !energy_flag) = true
  · rw [if_pos hf]
    exact ⟨_, _, rfl⟩
  · rw [if_neg hf]
    exact ⟨_, _, rfl⟩

theorem dawaanr_calculations_no_flags (sv : Services K) (g : Globals K)
    (parts : List (Particle K)) (h : g.n_nodes = 1) :
    dawaanr_calculations sv g parts false false = some (0, parts) := by
  unfold dawaanr_calculations
  rw [if_neg (not_not.mpr h)]
  rfl

theorem mdds_calculations_no_flags (sv : Services K) (g : Globals K)
    (parts : List (Particle K)) (h : g.n_nodes = 1) :
    magnetic_dipolar_direct_sum_calculations sv g parts false false = some (0, parts) := by
  unfold magnetic_dipolar_direct_sum_calculations
  rw [if_neg (not_not.mpr h)]
  rfl

/-- C11: when the process count is not 1 both engines end in `errexit()` for every
combination of the two flags, with the particles as they were at the call's entry; when it
is 1 both engines return. -/
theorem engines_fatal_iff (sv : Services K) (g : Globals K) (parts : List (Particle K))
    (force_flag energy_flag : Bool) :
    (g.n_nodes ≠ 1 →
      dawaanr_calculations sv g parts force_flag energy_flag = none ∧
        dawaanr_calculations_outcome sv g parts force_flag energy_flag =
          Outcome.fatal parts ∧
        magnetic_dipolar_direct_sum_calculations sv g parts force_flag energy_flag = none ∧
        magnetic_dipolar_direct_sum_calculations_outcome sv g parts force_flag energy_flag =
          Outcome.fatal parts) ∧
      (g.n_nodes = 1 →
        (∃ (u : K) (ps : List (Particle K)),
          dawaanr_calculations sv g parts force_flag energy_flag = some (u, ps) ∧
            dawaanr_calculations_outcome sv g parts force_flag energy_flag =
              Outcome.returned u ps) ∧
          ∃ (u : K) (ps : List (Particle K)),
            magnetic_dipolar_direct_sum_calculations sv g parts force_flag energy_flag =
                some (u, ps) ∧
              magnetic_dipolar_direct_sum_calculations_outcome sv g parts force_flag
                energy_flag = Outcome.returned u ps) := by
  constructor
  · intro h
    refine ⟨dawaanr_calculations_of_many sv g parts _ _ h, ?_,
      mdds_calculations_of_many sv g parts _ _ h, ?_⟩
    · unfold dawaanr_calculations_outcome
      rw [if_pos h]
    · unfold magnetic_dipolar_direct_sum_calculations_outcome
      rw [if_pos h]
  · intro h
    constructor
    · obtain ⟨u, ps, hr⟩ := dawaanr_calculations_of_one sv g parts force_flag energy_flag h
      refine ⟨u, ps, hr, ?_⟩
      unfold dawaanr_calculations_outcome
      rw [if_neg (not_not.mpr h), hr]
    · obtain ⟨u, ps, hr⟩ := mdds_calculations_of_one sv g parts force_flag energy_flag h
      refine ⟨u, ps, hr, ?_⟩
      unfold magnetic_dipolar_direct_sum_calculations_outcome
      rw [if_neg (not_not.mpr h), hr]

/-- Witness of C11: two dipoles on two processes, forces requested. -/
theorem engines_fatal_iff_witness :
    dawaanr_calculations (servicesQ true) globalsQ_two pairQ true false = none ∧
      dawaanr_calculations_outcome (servicesQ true) globalsQ_two pairQ true false =
        Outcome.fatal pairQ ∧
      magnetic_dipolar_direct_sum_calculations (servicesQ true) globalsQ_two pairQ true
        false = none ∧
      magnetic_dipolar_direct_sum_calculations_outcome (servicesQ true) globalsQ_two pairQ
        true false = Outcome.fatal pairQ :=
  (engines_fatal_iff (servicesQ true) globalsQ_two pairQ true false).1 (by decide)

/-- Counterexample to C12: on two processes the call with both flags zero ends in
`errexit()` in both engines instead of returning 0. -/
theorem engines_no_flags_counterexample :
    dawaanr_calculations (servicesQ true) globalsQ_two pairQ false false = none ∧
      magnetic_dipolar_direct_sum_calculations (servicesQ true) globalsQ_two pairQ false
        false = none ∧
      dawaanr_calculations (servicesQ true) globalsQ_two pairQ false false ≠
        some (0, pairQ) ∧
      magnetic_dipolar_direct_sum_calculations (servicesQ true) globalsQ_two pairQ false
        false ≠ some (0, pairQ) := by
  have hA := dawaanr_calculations_of_many (servicesQ true) globalsQ_two pairQ false false
    (by decide)
  have hB := mdds_calculations_of_many (servicesQ true) globalsQ_two pairQ false false
    (by decide)
  refine ⟨hA, hB, ?_, ?_⟩
  · rw [hA]
    exact fun h => Option.noConfusion h
  · rw [hB]
    exact fun h => Option.noConfusion h

/-- C12, amended: on a single process a call of either engine with both flags zero
returns 0 and leaves every particle, hence every force and torque, as it was; the engines
only read the process-wide variables. -/
theorem engines_no_flags (sv : Services K) (g : Globals K) (parts : List (Particle K))
    (h1 : g.n_nodes = 1) :
    dawaanr_calculations sv g parts false false = some (0, parts) ∧
      magnetic_dipolar_direct_sum_calculations sv g parts false false = some (0, parts) :=
  ⟨dawaanr_calculations_no_flags sv g parts h1, mdds_calculations_no_flags sv g parts h1⟩

/-- Witness of the amended C12: two dipoles on one process. -/
theorem engines_no_flags_witness :
    dawaanr_calculations (servicesQ true) (globalsQ ⟨true, true, true⟩ 0) pairQ false false =
        some (0, pairQ) ∧
      magnetic_dipolar_direct_sum_calculations (servicesQ true)
        (globalsQ ⟨true, true, true⟩ 0) pairQ false false = some (0, pairQ) :=
  engines_no_flags (servicesQ true) (globalsQ ⟨true, true, true⟩ 0) pairQ rfl

end FatalPath

section MethodSelectionTheorems

variable {K : Type}

theorem mdds_set_params_of_many (s : Node K) (n_cut : Int) (h : s.globals.n_nodes > 1) :
    mdds_set_params s n_cut = (ES_ERROR, s) := by
  unfold mdds_set_params
  rw [if_pos h]

theorem mdds_set_params_fst_of_one (s : Node K) (n_cut : Int) (h : ¬ s.globals.n_nodes > 1) :
    (mdds_set_params s n_cut).1 = ES_OK := by
  unfold mdds_set_params
  rw [if_neg h]

theorem mdds_set_params_cutoff_of_one (s : Node K) (n_cut : Int)
    (h : ¬ s.globals.n_nodes > 1) :
    (mdds_set_params s n_cut).2.globals.Ncut_off_magnetic_dipolar_direct_sum = n_cut := by
  unfold mdds_set_params
  rw [if_neg h]
  simp only [mpi_bcast_coulomb_params, set_method_local]
  split <;> rfl

/-- Counterexample to C13: on a single process `mdds_set_params(-1)` returns `ES_OK` and
stores the replica cutoff `-1`. -/
theorem mdds_set_params_counterexample :
    (mdds_set_params (nodeQ DipolarInteraction.DIPOLAR_DS 0) (-1)).1 = ES_OK ∧
      (mdds_set_params (nodeQ DipolarInteraction.DIPOLAR_DS 0) (-1)).1 ≠ ES_ERROR ∧
      (mdds_set_params (nodeQ DipolarInteraction.DIPOLAR_DS 0)
        (-1)).2.globals.Ncut_off_magnetic_dipolar_direct_sum = -1 := by
  have h : ¬ (nodeQ DipolarInteraction.DIPOLAR_DS 0).globals.n_nodes > 1 := by decide
  refine ⟨mdds_set_params_fst_of_one _ _ h, ?_, mdds_set_params_cutoff_of_one _ _ h⟩
  rw [mdds_set_params_fst_of_one _ _ h]
  decide

/-- C13, amended: `mdds_set_params(n_cut)` does not look at the sign of `n_cut`. It returns
`ES_ERROR` exactly when `n_nodes > 1`, and then leaves the state, in particular the stored
replica cutoff and the active method, unchanged; otherwise it returns `ES_OK` and the
stored replica cutoff is `n_cut`, for every `n_cut`. -/
theorem mdds_set_params_no_validation (s : Node K) (n_cut : Int) :
    ((mdds_set_params s n_cut).1 = ES_ERROR ↔ s.globals.n_nodes > 1) ∧
      (s.globals.n_nodes > 1 → (mdds_set_params s n_cut).2 = s) ∧
      (¬ s.globals.n_nodes > 1 →
        (mdds_set_params s n_cut).1 = ES_OK ∧
          (mdds_set_params s n_cut).2.globals.Ncut_off_magnetic_dipolar_direct_sum =
            n_cut) := by
  have hne : ¬ (ES_OK = ES_ERROR) := by decide
  refine ⟨⟨?_, ?_⟩, ?_, ?_⟩
  · intro h
    by_contra hn
    rw [mdds_set_params_fst_of_one s n_cut hn] at h
    exact hne h
  · intro h
    rw [mdds_set_params_of_many s n_cut h]
  · intro h
    rw [mdds_set_params_of_many s n_cut h]
  · intro h
    exact ⟨mdds_set_params_fst_of_one s n_cut h, mdds_set_params_cutoff_of_one s n_cut h⟩

/-- Witness of the amended C13: on a single process the cutoff `3` is stored. -/
theorem mdds_set_params_no_validation_witness :
    (mdds_set_params (nodeQ DipolarInteraction.DIPOLAR_NONE 0) 3).1 = ES_OK ∧
      (mdds_set_params (nodeQ DipolarInteraction.DIPOLAR_NONE 0)
        3).2.globals.Ncut_off_magnetic_dipolar_direct_sum = 3 :=
  (mdds_set_params_no_validation (nodeQ DipolarInteraction.DIPOLAR_NONE 0) 3).2.2 (by decide)

/-- Counterexample to C14: for the direct sum `energy_n` reports 2, not 1. -/
theorem energy_n_counterexample :
    energy_n buildQ DipolarInteraction.DIPOLAR_DS 0 = 2 ∧
      energy_n buildQ DipolarInteraction.DIPOLAR_DS 0 ≠ 1 := by
  decide

/-- C14, amended: `energy_n` reports 1 for `NONE`, 2 for `ALL_WITH_ALL_AND_NO_REPLICA`,
`DS`, `P3M`, `DS_GPU`, `SCAFACOS` and, when compiled in, `BH_GPU`, and 3 for `MDLC_P3M` and
`MDLC_DS`: for every method other than `NONE` one more than the count of the spec's
table. -/
theorem energy_n_table (b : Build) (n : Int) :
    energy_n b DipolarInteraction.DIPOLAR_NONE n = 1 ∧
      energy_n b DipolarInteraction.DIPOLAR_ALL_WITH_ALL_AND_NO_REPLICA n = 2 ∧
      energy_n b DipolarInteraction.DIPOLAR_DS n = 2 ∧
      energy_n b DipolarInteraction.DIPOLAR_P3M n = 2 ∧
      energy_n b DipolarInteraction.DIPOLAR_MDLC_P3M n = 3 ∧
      energy_n b DipolarInteraction.DIPOLAR_MDLC_DS n = 3 ∧
      energy_n b DipolarInteraction.DIPOLAR_DS_GPU n = 2 ∧
      energy_n b DipolarInteraction.DIPOLAR_BH_GPU n =
        (if b.DIPOLAR_BARNES_HUT = true then 2 else n) ∧
      energy_n b DipolarInteraction.DIPOLAR_SCAFACOS n = 2 :=
  ⟨rfl, rfl, rfl, rfl, rfl, rfl, rfl, rfl, rfl⟩

end MethodSelectionTheorems

section EnergyOnly

variable {K : Type} [LinearOrderedField K] {S : Type}

theorem set_getD_self {α : Type} (d : α) (l : List α) (i : Nat) :
    l.set i (l.getD i d) = l := by
  induction l generalizing i with
  | nil => rfl
  | cons a l ih =>
    cases i with
    | zero => rfl
    | succ i =>
      rw [List.set_cons_succ, List.getD_cons_succ, ih]

theorem calc_dipole_dipole_ia_no_force (sv : Services K) (g : Globals K) (p1 p2 : Particle K)
    (dip1 : Vec3 K) :
    (calc_dipole_dipole_ia sv g p1 dip1 p2 false).2 = (p1, p2) := by
  unfold calc_dipole_dipole_ia
  rfl

theorem dawaanr_step_no_force (sv : Services K) (g : Globals K) (parts : List (Particle K))
    (s : K × List (Particle K)) (ij : Nat × Nat) :
    (dawaanr_step sv g false parts s ij).2 = s.2 := by
  unfold dawaanr_step dawaanr_kernel_at
  simp only [calc_dipole_dipole_ia_no_force]
  rw [set_getD_self, set_getD_self]

theorem dawaanr_foldl_no_force (sv : Services K) (g : Globals K) (parts : List (Particle K))
    (l : List (Nat × Nat)) (s : K × List (Particle K)) :
    (l.foldl (dawaanr_step sv g false parts) s).2 = s.2 := by
  induction l generalizing s with
  | nil => rfl
  | cons ij l ih => rw [List.foldl_cons, ih, dawaanr_step_no_force]

theorem dawaanr_energy_only (sv : Services K) (g : Globals K) (parts : List (Particle K))
    (h1 : g.n_nodes = 1) :
    ∃ E : K, dawaanr_calculations sv g parts false true = some (E, parts) := by
  rw [dawaanr_run_eq sv g parts false true h1 (Or.inr rfl)]
  refine ⟨((dawaanr_pairs parts).foldl (dawaanr_step sv g false parts) (0, parts)).1, ?_⟩
  congr 1
  exact Prod.ext rfl (dawaanr_foldl_no_force sv g parts _ _)

theorem mdds_energy_only (sv : Services K) (g : Globals K) (parts : List (Particle K))
    (h1 : g.n_nodes = 1) :
    ∃ E : K,
      magnetic_dipolar_direct_sum_calculations sv g parts false true = some (E, parts) := by
  unfold magnetic_dipolar_direct_sum_calculations
  rw [if_neg (not_not.mpr h1)]
  exact ⟨_, rfl⟩

theorem calc_energy_long_range_ds (b : Build) (sv : Services K) (ext : External K S)
    (w : Core K S) (energy : Observable_stat K)
    (hm : w.node.globals.dipole.method = DipolarInteraction.DIPOLAR_DS) :
    calc_energy_long_range b sv ext w energy =
      (magnetic_dipolar_direct_sum_calculations sv w.node.globals w.parts false true).map
        fun r => (energy.set_dipolar 1 r.1, { w with parts := r.2 }) := by
  unfold calc_energy_long_range
  rw [hm]

theorem calc_energy_long_range_dawaanr (b : Build) (sv : Services K) (ext : External K S)
    (w : Core K S) (energy : Observable_stat K)
    (hm : w.node.globals.dipole.method =
      DipolarInteraction.DIPOLAR_ALL_WITH_ALL_AND_NO_REPLICA) :
    calc_energy_long_range b sv ext w energy =
      (dawaanr_calculations sv w.node.globals w.parts false true).map
        fun r => (energy.set_dipolar 1 r.1, { w with parts := r.2 }) := by
  unfold calc_energy_long_range
  rw [hm]

theorem set_dipolar_idem {R : Type} (energy : Observable_stat R) (i : Nat) (v : R) :
    (energy.set_dipolar i v).set_dipolar i v = energy.set_dipolar i v := by
  unfold Observable_stat.set_dipolar
  simp

theorem calc_energy_long_range_of_many (b : Build) (sv : Services K) (ext : External K S)
    (w : Core K S) (energy : Observable_stat K)
    (hm : w.node.globals.dipole.method =
        DipolarInteraction.DIPOLAR_ALL_WITH_ALL_AND_NO_REPLICA ∨
      w.node.globals.dipole.method = DipolarInteraction.DIPOLAR_DS)
    (h : w.node.globals.n_nodes ≠ 1) : calc_energy_long_range b sv ext w energy = none := by
  rcases hm with hm | hm
  · rw [calc_energy_long_range_dawaanr b sv ext w energy hm,
      dawaanr_calculations_of_many sv _ _ _ _ h]
    rfl
  · rw [calc_energy_long_range_ds b sv ext w energy hm,
      mdds_calculations_of_many sv _ _ _ _ h]
    rfl

/-- The value of the energy switch for the two engines of the source tree on a single
process: the engine's energy goes to slot 1 and the state stays as it is. -/
theorem calc_energy_long_range_engines (b : Build) (sv : Services K) (ext : External K S)
    (w : Core K S)
    (hm : w.node.globals.dipole.method =
        DipolarInteraction.DIPOLAR_ALL_WITH_ALL_AND_NO_REPLICA ∨
      w.node.globals.dipole.method = DipolarInteraction.DIPOLAR_DS)
    (h1 : w.node.globals.n_nodes = 1) :
    ∃ E : K,
      (w.node.globals.dipole.method =
            DipolarInteraction.DIPOLAR_ALL_WITH_ALL_AND_NO_REPLICA →
          dawaanr_calculations sv w.node.globals w.parts false true = some (E, w.parts)) ∧
        (w.node.globals.dipole.method = DipolarInteraction.DIPOLAR_DS →
          magnetic_dipolar_direct_sum_calculations sv w.node.globals w.parts false true =
            some (E, w.parts)) ∧
        ∀ energy : Observable_stat K,
          calc_energy_long_range b sv ext w energy = some (energy.set_dipolar 1 E, w) := by
  rcases hm with hm | hm
  · obtain ⟨E, hE⟩ := dawaanr_energy_only sv w.node.globals w.parts h1
    refine ⟨E, fun _ => hE, fun h2 => ?_, fun energy => ?_⟩
    · rw [hm] at h2
      exact DipolarInteraction.noConfusion h2
    · rw [calc_energy_long_range_dawaanr b sv ext w energy hm, hE]
      rfl
  · obtain ⟨E, hE⟩ := mdds_energy_only sv w.node.globals w.parts h1
    refine ⟨E, fun h2 => ?_, fun _ => hE, fun energy => ?_⟩
    · rw [hm] at h2
      exact DipolarInteraction.noConfusion h2
    · rw [calc_energy_long_range_ds b sv ext w energy hm, hE]
      rfl

/-- C15: for the methods `ALL_WITH_ALL_AND_NO_REPLICA` and `DS`, whenever
`calc_energy_long_range` returns it leaves the whole state (particles, dipole
configuration, integrator, solvers) as it was, and a second call on that state writes the
same array; on a single process the call does return. -/
theorem calc_energy_long_range_pure (b : Build) (sv : Services K) (ext : External K S)
    (w : Core K S) (energy : Observable_stat K)
    (hm : w.node.globals.dipole.method =
        DipolarInteraction.DIPOLAR_ALL_WITH_ALL_AND_NO_REPLICA ∨
      w.node.globals.dipole.method = DipolarInteraction.DIPOLAR_DS) :
    (∀ (e1 : Observable_stat K) (w1 : Core K S),
      calc_energy_long_range b sv ext w energy = some (e1, w1) →
        w1 = w ∧ calc_energy_long_range b sv ext w1 e1 = some (e1, w1)) ∧
      (w.node.globals.n_nodes = 1 →
        ∃ e1 : Observable_stat K,
          calc_energy_long_range b sv ext w energy = some (e1, w)) := by
  constructor
  · intro e1 w1 hr
    by_cases h1 : w.node.globals.n_nodes = 1
    · obtain ⟨E, _, _, hc⟩ := calc_energy_long_range_engines b sv ext w hm h1
      rw [hc] at hr
      have he : energy.set_dipolar 1 E = e1 := congrArg Prod.fst (Option.some.inj hr)
      have hw : w = w1 := congrArg Prod.snd (Option.some.inj hr)
      subst hw
      subst he
      refine ⟨rfl, ?_⟩
      rw [hc, set_dipolar_idem]
    · rw [calc_energy_long_range_of_many b sv ext w energy hm h1] at hr
      exact Option.noConfusion hr
  · intro h1
    obtain ⟨E, _, _, hc⟩ := calc_energy_long_range_engines b sv ext w hm h1
    exact ⟨_, hc energy⟩

/-- Witness of C15: the direct sum on the two dipoles of `pairQ`; the call returns, and
the state after it is the state before it. -/
theorem calc_energy_long_range_pure_witness :
    ∃ e1 : Observable_stat ℚ,
      calc_energy_long_range buildQ (servicesQ true) externalQ
        (coreQ DipolarInteraction.DIPOLAR_DS) statQ =
          some (e1, coreQ DipolarInteraction.DIPOLAR_DS) :=
  (calc_energy_long_range_pure buildQ (servicesQ true) externalQ
    (coreQ DipolarInteraction.DIPOLAR_DS) statQ (Or.inr rfl)).2 rfl

end EnergyOnly

section EnergyWrite

variable {K : Type} [LinearOrderedField K] {S : Type}

theorem set_dipolar_same {R : Type} (energy : Observable_stat R) (i : Nat) (v : R) :
    (energy.set_dipolar i v).dipolar i = v := by
  unfold Observable_stat.set_dipolar
  simp

theorem set_dipolar_other {R : Type} (energy : Observable_stat R) (i j : Nat) (v : R)
    (h : j ≠ i) : (energy.set_dipolar i v).dipolar j = energy.dipolar j := by
  unfold Observable_stat.set_dipolar
  simp [Function.update_noteq h]

theorem set_dipolar_coulomb {R : Type} (energy : Observable_stat R) (i : Nat) (v : R) :
    (energy.set_dipolar i v).coulomb = energy.coulomb :=
  rfl

theorem pairQ_mdds_energy_value :
    magnetic_dipolar_direct_sum_calculations (servicesQ true)
        (coreQ DipolarInteraction.DIPOLAR_DS).node.globals
        (coreQ DipolarInteraction.DIPOLAR_DS).parts false true =
      some (-1 / 128, pairQ) := by
  obtain ⟨E, hE⟩ := mdds_energy_only (servicesQ true)
    (coreQ DipolarInteraction.DIPOLAR_DS).node.globals
    (coreQ DipolarInteraction.DIPOLAR_DS).parts rfl
  have hv := mdds_fst_raw (servicesQ true) (globalsQ ⟨true, true, true⟩ 0) pairQ false true rfl
    (Or.inr rfl)
  have hE2 : magnetic_dipolar_direct_sum_calculations (servicesQ true)
      (globalsQ ⟨true, true, true⟩ 0) pairQ false true = some (E, pairQ) := hE
  rw [hE2, Option.map_some', pairQ_gather] at hv
  simp only [List.length_cons, List.length_nil, Nat.reduceAdd, pairQ_triples] at hv
  have hval : E = -1 / 128 := by
    have := Option.some.inj hv
    rw [this]
    norm_num [mdds_rn, mdds_x, mdds_m, mdds_u_term, servicesQ, sqrtQ, globalsQ]
  rw [← hval]
  exact hE

/-- Counterexample to C16: the direct sum on the two dipoles of `pairQ`, whose energy is
`-1/128`, with 5 in the dipolar slot before the call. After the call the slot holds
`-1/128`, not `5 - 1/128`. -/
theorem calc_energy_long_range_counterexample :
    statQ.dipolar 1 = 5 ∧
      magnetic_dipolar_direct_sum_calculations (servicesQ true)
          (coreQ DipolarInteraction.DIPOLAR_DS).node.globals
          (coreQ DipolarInteraction.DIPOLAR_DS).parts false true =
        some (-1 / 128, pairQ) ∧
      (calc_energy_long_range buildQ (servicesQ true) externalQ
          (coreQ DipolarInteraction.DIPOLAR_DS) statQ).map (fun r => r.1.dipolar 1) =
        some (-1 / 128) ∧
      (calc_energy_long_range buildQ (servicesQ true) externalQ
          (coreQ DipolarInteraction.DIPOLAR_DS) statQ).map (fun r => r.1.dipolar 1) ≠
        some (5 + -1 / 128) := by
  have hc : (calc_energy_long_range buildQ (servicesQ true) externalQ
      (coreQ DipolarInteraction.DIPOLAR_DS) statQ).map (fun r => r.1.dipolar 1) =
      some (-1 / 128) := by
    rw [calc_energy_long_range_ds buildQ (servicesQ true) externalQ _ statQ rfl,
      pairQ_mdds_energy_value]
    simp only [Option.map_some', set_dipolar_same]
  refine ⟨rfl, pairQ_mdds_energy_value, hc, ?_⟩
  rw [hc]
  norm_num

/-- C16, amended: for the methods `DS` and `ALL_WITH_ALL_AND_NO_REPLICA` on a single
process `calc_energy_long_range` assigns the energy returned by the engine to the dipolar
slot 1, whatever the slot held before, and leaves every other slot of the array as it
was. -/
theorem calc_energy_long_range_assigns (b : Build) (sv : Services K) (ext : External K S)
    (w : Core K S) (energy : Observable_stat K)
    (hm : w.node.globals.dipole.method =
        DipolarInteraction.DIPOLAR_ALL_WITH_ALL_AND_NO_REPLICA ∨
      w.node.globals.dipole.method = DipolarInteraction.DIPOLAR_DS)
    (h1 : w.node.globals.n_nodes = 1) :
    ∃ (E : K) (e1 : Observable_stat K),
      (w.node.globals.dipole.method =
            DipolarInteraction.DIPOLAR_ALL_WITH_ALL_AND_NO_REPLICA →
          dawaanr_calculations sv w.node.globals w.parts false true = some (E, w.parts)) ∧
        (w.node.globals.dipole.method = DipolarInteraction.DIPOLAR_DS →
          magnetic_dipolar_direct_sum_calculations sv w.node.globals w.parts false true =
            some (E, w.parts)) ∧
        calc_energy_long_range b sv ext w energy = some (e1, w) ∧
        e1.dipolar 1 = E ∧ (∀ i : Nat, i ≠ 1 → e1.dipolar i = energy.dipolar i) ∧
        e1.coulomb = energy.coulomb := by
  obtain ⟨E, hd, hs, hc⟩ := calc_energy_long_range_engines b sv ext w hm h1
  exact ⟨E, energy.set_dipolar 1 E, hd, hs, hc energy, set_dipolar_same energy 1 E,
    fun i hi => set_dipolar_other energy 1 i E hi, set_dipolar_coulomb energy 1 E⟩

/-- Witness of the amended C16: the direct sum on the two dipoles of `pairQ` with 5 in every
slot before the call; slot 1 holds the engine's energy afterwards and slot 0 still 5. -/
theorem calc_energy_long_range_assigns_witness :
    ∃ (E : ℚ) (e1 : Observable_stat ℚ),
      calc_energy_long_range buildQ (servicesQ true) externalQ
          (coreQ DipolarInteraction.DIPOLAR_DS) statQ =
        some (e1, coreQ DipolarInteraction.DIPOLAR_DS) ∧
        e1.dipolar 1 = E ∧ e1.dipolar 0 = 5 := by
  obtain ⟨E, e1, _, _, hc, hE, ho, _⟩ :=
    calc_energy_long_range_assigns buildQ (servicesQ true) externalQ
      (coreQ DipolarInteraction.DIPOLAR_DS) statQ (Or.inr rfl) rfl
  exact ⟨E, e1, hc, hE, ho 0 (by decide)⟩

end EnergyWrite

section Pressure

variable {K : Type} [LinearOrderedField K] {S : Type}

theorem calc_pressure_long_range_p3m (b : Build) (ext : External K S) (w : Core K S)
    (virials p_tensor : Observable_stat K) (hb : b.DP3M = true)
    (hm : w.node.globals.dipole.method = DipolarInteraction.DIPOLAR_P3M) :
    (calc_pressure_long_range b ext w virials p_tensor).2.1 =
      ((p_tensor.set_coulomb 9
        ((ext.dp3m_calc_kspace_forces false true
          (ext.dp3m_dipole_assign (w.parts, w.solver))).1 / 3)).set_coulomb 13
        ((ext.dp3m_calc_kspace_forces false true
          (ext.dp3m_dipole_assign (w.parts, w.solver))).1 / 3)).set_coulomb 17
        ((ext.dp3m_calc_kspace_forces false true
          (ext.dp3m_dipole_assign (w.parts, w.solver))).1 / 3) := by
  unfold calc_pressure_long_range
  rw [hm]
  simp only [hb, if_true, set_dipolar_same]
  rfl

theorem set_coulomb_same {R : Type} (p : Observable_stat R) (i : Nat) (v : R) :
    (p.set_coulomb i v).coulomb i = v := by
  unfold Observable_stat.set_coulomb
  simp

theorem set_coulomb_other {R : Type} (p : Observable_stat R) (i j : Nat) (v : R)
    (h : j ≠ i) : (p.set_coulomb i v).coulomb j = p.coulomb j := by
  unfold Observable_stat.set_coulomb
  simp [Function.update_noteq h]

/-- Counterexample to C17: mesh Ewald active, the mesh solver returns 3, and every entry
of the pressure tensor holds 5 before the call. After the call entry 9 holds `3/3 = 1`,
not `5 + 1`. -/
theorem calc_pressure_long_range_counterexample :
    statQ.coulomb 9 = 5 ∧
      (externalQ.dp3m_calc_kspace_forces false true
        (externalQ.dp3m_dipole_assign
          ((coreQ DipolarInteraction.DIPOLAR_P3M).parts,
            (coreQ DipolarInteraction.DIPOLAR_P3M).solver))).1 = 3 ∧
      (calc_pressure_long_range buildQ externalQ (coreQ DipolarInteraction.DIPOLAR_P3M) statQ
        statQ).2.1.coulomb 9 = 1 ∧
      (calc_pressure_long_range buildQ externalQ (coreQ DipolarInteraction.DIPOLAR_P3M) statQ
        statQ).2.1.coulomb 9 ≠ 5 + 3 / 3 := by
  have h : (calc_pressure_long_range buildQ externalQ (coreQ DipolarInteraction.DIPOLAR_P3M)
      statQ statQ).2.1.coulomb 9 = 1 := by
    rw [calc_pressure_long_range_p3m buildQ externalQ _ statQ statQ rfl rfl,
      set_coulomb_other _ 17 9 _ (by decide), set_coulomb_other _ 13 9 _ (by decide),
      set_coulomb_same]
    norm_num [externalQ]
  refine ⟨rfl, rfl, h, ?_⟩
  rw [h]
  norm_num

/-- C17, amended: with the mesh solver compiled in and `DIPOLAR_P3M` active,
`calc_pressure_long_range` assigns one third of the scalar returned by the mesh solver to
the entries 9, 13 and 17 of `p_tensor.coulomb`, whatever they held before, and leaves
every other entry of the tensor as it was. -/
theorem calc_pressure_long_range_assigns (b : Build) (ext : External K S) (w : Core K S)
    (virials p_tensor : Observable_stat K) (hb : b.DP3M = true)
    (hm : w.node.globals.dipole.method = DipolarInteraction.DIPOLAR_P3M) :
    (calc_pressure_long_range b ext w virials p_tensor).2.1.coulomb 9 =
        (ext.dp3m_calc_kspace_forces false true
          (ext.dp3m_dipole_assign (w.parts, w.solver))).1 / 3 ∧
      (calc_pressure_long_range b ext w virials p_tensor).2.1.coulomb 13 =
        (ext.dp3m_calc_kspace_forces false true
          (ext.dp3m_dipole_assign (w.parts, w.solver))).1 / 3 ∧
      (calc_pressure_long_range b ext w virials p_tensor).2.1.coulomb 17 =
        (ext.dp3m_calc_kspace_forces false true
          (ext.dp3m_dipole_assign (w.parts, w.solver))).1 / 3 ∧
      (∀ i : Nat, i ≠ 9 → i ≠ 13 → i ≠ 17 →
        (calc_pressure_long_range b ext w virials p_tensor).2.1.coulomb i =
          p_tensor.coulomb i) ∧
      (calc_pressure_long_range b ext w virials p_tensor).2.1.dipolar = p_tensor.dipolar := by
  rw [calc_pressure_long_range_p3m b ext w virials p_tensor hb hm]
  refine ⟨?_, ?_, ?_, ?_, rfl⟩
  · rw [set_coulomb_other _ 17 9 _ (by decide), set_coulomb_other _ 13 9 _ (by decide),
      set_coulomb_same]
  · rw [set_coulomb_other _ 17 13 _ (by decide), set_coulomb_same]
  · rw [set_coulomb_same]
  · intro i h9 h13 h17
    rw [set_coulomb_other _ 17 i _ h17, set_coulomb_other _ 13 i _ h13,
      set_coulomb_other _ 9 i _ h9]

/-- Witness of the amended C17: the mesh solver returns 3; entry 13 holds 1 after the
call. -/
theorem calc_pressure_long_range_assigns_witness :
    (calc_pressure_long_range buildQ externalQ (coreQ DipolarInteraction.DIPOLAR_P3M) statQ
      statQ).2.1.coulomb 13 = 1 := by
  rw [(calc_pressure_long_range_assigns buildQ externalQ
    (coreQ DipolarInteraction.DIPOLAR_P3M) statQ statQ rfl rfl).2.1]
  norm_num [externalQ]

end Pressure

section Virial

variable {K : Type} [LinearOrderedField K]

theorem npt_add_virial_foldl (b : Build) (s : Integrator K) (cs : List (Vec3 K × Vec3 K))
    (h : s.integ_switch = b.INTEG_METHOD_NPT_ISO) :
    cs.foldl (fun s c => npt_add_virial_contribution b s c.1 c.2) s =
      { s with
        nptiso :=
          { s.nptiso with
            p_vir :=
              ⟨s.nptiso.p_vir.x + (cs.map fun c => c.1.x * c.2.x).sum,
                s.nptiso.p_vir.y + (cs.map fun c => c.1.y * c.2.y).sum,
                s.nptiso.p_vir.z + (cs.map fun c => c.1.z * c.2.z).sum⟩ } } := by
  induction cs generalizing s with
  | nil => simp
  | cons c cs ih =>
    have hstep : npt_add_virial_contribution b s c.1 c.2 =
        { s with
          nptiso :=
            { s.nptiso with
              p_vir :=
                ⟨s.nptiso.p_vir.x + c.1.x * c.2.x, s.nptiso.p_vir.y + c.1.y * c.2.y,
                  s.nptiso.p_vir.z + c.1.z * c.2.z⟩ } } := by
      unfold npt_add_virial_contribution
      rw [if_pos h]
    have h1 : (npt_add_virial_contribution b s c.1 c.2).integ_switch =
        b.INTEG_METHOD_NPT_ISO := by
      rw [hstep]
      exact h
    rw [List.foldl_cons]
    refine (ih (npt_add_virial_contribution b s c.1 c.2) h1).trans ?_
    rw [hstep]
    simp [add_assoc]

/-- C19: under the isotropic constant-pressure integrator, after the reset and any finite
sequence of contributions `(f_k, d_k)` each component of `nptiso.p_vir` is the sum over `k`
of `f_k[a] * d_k[a]`, and nothing else of the integrator state has changed. -/
theorem npt_virial_sum (b : Build) (s : Integrator K) (cs : List (Vec3 K × Vec3 K))
    (h : s.integ_switch = b.INTEG_METHOD_NPT_ISO) :
    cs.foldl (fun s c => npt_add_virial_contribution b s c.1 c.2)
        (npt_reset_instantaneous_virials b s) =
      { s with
        nptiso :=
          { s.nptiso with
            p_vir :=
              ⟨(cs.map fun c => c.1.x * c.2.x).sum, (cs.map fun c => c.1.y * c.2.y).sum,
                (cs.map fun c => c.1.z * c.2.z).sum⟩ } } := by
  have hreset : npt_reset_instantaneous_virials b s =
      { s with nptiso := { s.nptiso with p_vir := ⟨0, 0, 0⟩ } } := by
    unfold npt_reset_instantaneous_virials
    rw [if_pos h]
  have h1 : (npt_reset_instantaneous_virials b s).integ_switch = b.INTEG_METHOD_NPT_ISO := by
    rw [hreset]
    exact h
  refine (npt_add_virial_foldl b (npt_reset_instantaneous_virials b s) cs h1).trans ?_
  rw [hreset]
  simp

/-- Witness of C19: a virial `(7, 8, 9)` before the reset, then two contributions. -/
theorem npt_virial_sum_witness :
    ([((⟨1, 2, 3⟩ : Vec3 ℚ), (⟨1, 1, 1⟩ : Vec3 ℚ)),
        ((⟨2, 0, 1⟩ : Vec3 ℚ), (⟨3, 5, 2⟩ : Vec3 ℚ))].foldl
        (fun s c => npt_add_virial_contribution buildQ s c.1 c.2)
        (npt_reset_instantaneous_virials buildQ integratorQ)).nptiso.p_vir = ⟨7, 2, 5⟩ := by
  rw [npt_virial_sum buildQ integratorQ _ rfl]
  norm_num

end Virial

section Actors

variable {K : Type} [LinearOrderedField K] {S : Type}

theorem ne_append_singleton {α : Type} (l : List α) (a : α) : l ≠ l ++ [a] := by
  intro h
  have hlen := congrArg List.length h
  simp at hlen

theorem dp3m_long_range_force_node (b : Build) (ext : External K S) (w : Core K S) :
    (dp3m_long_range_force b ext w).node = w.node := by
  unfold dp3m_long_range_force
  simp only []
  split <;> rfl

theorem mdds_long_range_force_node (sv : Services K) (w w1 : Core K S)
    (hr : mdds_long_range_force sv w = some w1) : w1.node = w.node := by
  unfold mdds_long_range_force at hr
  obtain ⟨r, _, hw⟩ := Option.map_eq_some'.mp hr
  rw [← hw]

theorem calc_long_range_force_unhandled (b : Build) (sv : Services K) (ext : External K S)
    (w : Core K S) (m : DipolarInteraction) (hm : w.node.globals.dipole.method = m)
    (hh : dipolar_method_handled b m = false) :
    calc_long_range_force b sv ext w = some (unknown_dipolar_method w) := by
  unfold calc_long_range_force
  rw [hm]
  cases m <;> simp only [dipolar_method_handled] at hh <;>
    first
    | exact Bool.noConfusion hh
    | simp only [hh, Bool.false_eq_true, if_false]

theorem calc_long_range_force_handled (b : Build) (sv : Services K) (ext : External K S)
    (w w1 : Core K S) (m : DipolarInteraction) (hm : w.node.globals.dipole.method = m)
    (hh : dipolar_method_handled b m = true)
    (hr : calc_long_range_force b sv ext w = some w1) : w1.node = w.node := by
  unfold calc_long_range_force at hr
  rw [hm] at hr
  cases m <;> simp only [dipolar_method_handled] at hh <;>
    simp only [hh, if_true] at hr
  · rw [← Option.some.inj hr]
  · rw [← Option.some.inj hr, dp3m_long_range_force_node]
  · rw [← Option.some.inj hr, dp3m_long_range_force_node]
    rfl
  · obtain ⟨r, _, hw⟩ := Option.map_eq_some'.mp hr
    rw [← hw]
  · exact mdds_long_range_force_node sv w w1 hr
  · rw [mdds_long_range_force_node sv _ w1 hr]
    rfl
  · rw [← Option.some.inj hr]
  · rw [← Option.some.inj hr]
  · by_cases hd : ext.scafacos_dipolar w.solver = true
    · rw [if_pos hd] at hr
      rw [← Option.some.inj hr]
      rfl
    · rw [if_neg hd] at hr
      exact Option.noConfusion hr

theorem calc_energy_long_range_unhandled (b : Build) (sv : Services K) (ext : External K S)
    (w : Core K S) (energy : Observable_stat K) (m : DipolarInteraction)
    (hm : w.node.globals.dipole.method = m) (hh : dipolar_method_handled b m = false) :
    calc_energy_long_range b sv ext w energy = some (energy, unknown_dipolar_method w) := by
  unfold calc_energy_long_range
  rw [hm]
  cases m <;> simp only [dipolar_method_handled] at hh <;>
    first
    | exact Bool.noConfusion hh
    | simp only [hh, Bool.false_eq_true, if_false]

theorem calc_energy_long_range_handled (b : Build) (sv : Services K) (ext : External K S)
    (w w1 : Core K S) (energy e1 : Observable_stat K) (m : DipolarInteraction)
    (hm : w.node.globals.dipole.method = m) (hh : dipolar_method_handled b m = true)
    (hr : calc_energy_long_range b sv ext w energy = some (e1, w1)) : w1.node = w.node := by
  unfold calc_energy_long_range at hr
  rw [hm] at hr
  cases m <;> simp only [dipolar_method_handled] at hh <;>
    simp only [hh, if_true] at hr
  · obtain ⟨_, rfl⟩ := Prod.mk.inj (Option.some.inj hr)
    rfl
  · obtain ⟨_, rfl⟩ := Prod.mk.inj (Option.some.inj hr)
    rfl
  · obtain ⟨_, rfl⟩ := Prod.mk.inj (Option.some.inj hr)
    rfl
  · obtain ⟨r, _, hw⟩ := Option.map_eq_some'.mp hr
    obtain ⟨_, rfl⟩ := Prod.mk.inj hw
    rfl
  · obtain ⟨r, _, hw⟩ := Option.map_eq_some'.mp hr
    obtain ⟨_, rfl⟩ := Prod.mk.inj hw
    rfl
  · obtain ⟨r, _, hw⟩ := Option.map_eq_some'.mp hr
    obtain ⟨_, rfl⟩ := Prod.mk.inj hw
    rfl
  · obtain ⟨_, rfl⟩ := Prod.mk.inj (Option.some.inj hr)
    rfl
  · obtain ⟨_, rfl⟩ := Prod.mk.inj (Option.some.inj hr)
    rfl
  · by_cases hd : ext.scafacos_dipolar w.solver = true
    · rw [if_pos hd] at hr
      obtain ⟨_, rfl⟩ := Prod.mk.inj (Option.some.inj hr)
      rfl
    · rw [if_neg hd] at hr
      exact Option.noConfusion hr

/-- C18: for `DIPOLAR_DS_GPU` and `DIPOLAR_NONE` the force switch returns with the whole
state, every particle's force and torque included, as it was, and the energy switch returns
with the array and the state as they were, so neither raises an error; the force switch
and the energy switch raise `unknown dipolar method` exactly for the methods they have no
case for. -/
theorem actor_methods_noop (b : Build) (sv : Services K) (ext : External K S) (w : Core K S)
    (energy : Observable_stat K) :
    (w.node.globals.dipole.method = DipolarInteraction.DIPOLAR_DS_GPU ∨
        w.node.globals.dipole.method = DipolarInteraction.DIPOLAR_NONE →
      calc_long_range_force b sv ext w = some w ∧
        calc_energy_long_range b sv ext w energy = some (energy, w)) ∧
      ((∃ w1 : Core K S, calc_long_range_force b sv ext w = some w1 ∧
          w1.node.runtime_errors = w.node.runtime_errors ++ ["unknown dipolar method"]) ↔
        dipolar_method_handled b w.node.globals.dipole.method = false) ∧
      ((∃ (e1 : Observable_stat K) (w1 : Core K S),
          calc_energy_long_range b sv ext w energy = some (e1, w1) ∧
            w1.node.runtime_errors = w.node.runtime_errors ++ ["unknown dipolar method"]) ↔
        dipolar_method_handled b w.node.globals.dipole.method = false) := by
  refine ⟨?_, ⟨?_, ?_⟩, ⟨?_, ?_⟩⟩
  · intro hm
    unfold calc_long_range_force calc_energy_long_range
    rcases hm with hm | hm <;> rw [hm] <;> exact ⟨rfl, rfl⟩
  · rintro ⟨w1, hr, he⟩
    by_contra hh
    have hnode := calc_long_range_force_handled b sv ext w w1 _ rfl
      (by simpa using hh) hr
    rw [hnode] at he
    exact ne_append_singleton _ _ he
  · intro hh
    exact ⟨_, calc_long_range_force_unhandled b sv ext w _ rfl hh, rfl⟩
  · rintro ⟨e1, w1, hr, he⟩
    by_contra hh
    have hnode := calc_energy_long_range_handled b sv ext w w1 energy e1 _ rfl
      (by simpa using hh) hr
    rw [hnode] at he
    exact ne_append_singleton _ _ he
  · intro hh
    exact ⟨_, _, calc_energy_long_range_unhandled b sv ext w energy _ rfl hh, rfl⟩

/-- Witness of C18: the GPU direct sum active on the two dipoles of `pairQ`. -/
theorem actor_methods_noop_witness :
    calc_long_range_force buildQ (servicesQ true) externalQ
        (coreQ DipolarInteraction.DIPOLAR_DS_GPU) =
        some (coreQ DipolarInteraction.DIPOLAR_DS_GPU) ∧
      calc_energy_long_range buildQ (servicesQ true) externalQ
        (coreQ DipolarInteraction.DIPOLAR_DS_GPU) statQ =
        some (statQ, coreQ DipolarInteraction.DIPOLAR_DS_GPU) :=
  (actor_methods_noop buildQ (servicesQ true) externalQ
    (coreQ DipolarInteraction.DIPOLAR_DS_GPU) statQ).1 (Or.inl rfl)

end Actors

section SanityCheck

variable {K : Type}

/-- Counterexample to C20: in a build without the mesh solver (`DP3M` off) the check raises
its runtime error for the method `DIPOLAR_P3M`, which the claim lists as accepted. -/
theorem integrate_sanity_check_counterexample :
    (integrate_sanity_check ⟨false, true, true, true, true, 0⟩
        (nodeQ DipolarInteraction.DIPOLAR_P3M 0)).runtime_errors =
        ["NpT does not work with your dipolar method, please use P3M."] ∧
      (nodeQ DipolarInteraction.DIPOLAR_P3M 0).runtime_errors = [] ∧
      ¬ ((integrate_sanity_check ⟨false, true, true, true, true, 0⟩
            (nodeQ DipolarInteraction.DIPOLAR_P3M 0)).runtime_errors ≠
          (nodeQ DipolarInteraction.DIPOLAR_P3M 0).runtime_errors ↔
        (nodeQ DipolarInteraction.DIPOLAR_P3M 0).globals.dipole.method ≠
            DipolarInteraction.DIPOLAR_NONE ∧
          (nodeQ DipolarInteraction.DIPOLAR_P3M 0).globals.dipole.method ≠
            DipolarInteraction.DIPOLAR_P3M) := by
  refine ⟨rfl, rfl, ?_⟩
  intro h
  exact (h.mp (by decide)).2 rfl

/-- C20, amended: `integrate_sanity_check` never changes the process-wide variables; in a
build with the mesh solver (`DP3M`) it raises its runtime error exactly when the active
method is neither `DIPOLAR_NONE` nor `DIPOLAR_P3M`, and leaves the error log as it was
otherwise; in a build without the mesh solver it raises the error exactly when the method is
not `DIPOLAR_NONE`. -/
theorem integrate_sanity_check_spec (b : Build) (s : Node K) :
    (integrate_sanity_check b s).globals = s.globals ∧
      (b.DP3M = true →
        (((integrate_sanity_check b s).runtime_errors =
            s.runtime_errors ++
              ["NpT does not work with your dipolar method, please use P3M."] ↔
          s.globals.dipole.method ≠ DipolarInteraction.DIPOLAR_NONE ∧
            s.globals.dipole.method ≠ DipolarInteraction.DIPOLAR_P3M) ∧
          (s.globals.dipole.method = DipolarInteraction.DIPOLAR_NONE ∨
              s.globals.dipole.method = DipolarInteraction.DIPOLAR_P3M →
            integrate_sanity_check b s = s))) ∧
      (b.DP3M = false →
        ((integrate_sanity_check b s).runtime_errors =
            s.runtime_errors ++
              ["NpT does not work with your dipolar method, please use P3M."] ↔
          s.globals.dipole.method ≠ DipolarInteraction.DIPOLAR_NONE)) := by
  have hne := ne_append_singleton s.runtime_errors
    "NpT does not work with your dipolar method, please use P3M."
  unfold integrate_sanity_check
  refine ⟨?_, ?_, ?_⟩
  · cases s.globals.dipole.method <;> first | rfl | (simp only []; split <;> rfl)
  · intro hb
    cases hm : s.globals.dipole.method <;> simp [hb, hne]
  · intro hb
    cases hm : s.globals.dipole.method <;> simp [hb, hne]

/-- Witness of the amended C20: the direct sum is active under a build with the mesh solver; the check
raises its error. -/
theorem integrate_sanity_check_spec_witness :
    (integrate_sanity_check buildQ (nodeQ DipolarInteraction.DIPOLAR_DS 0)).runtime_errors =
      ["NpT does not work with your dipolar method, please use P3M."] :=
  (((integrate_sanity_check_spec buildQ (nodeQ DipolarInteraction.DIPOLAR_DS 0)).2.1 rfl).1).mpr
    ⟨by decide, by decide⟩

end SanityCheck

section KernelTorque

variable {K : Type} [LinearOrderedField K]

/-- The torque the kernel leaves on particle 1 when `force_flag` is set. -/
theorem calc_dipole_dipole_ia_t1 (sv : Services K) (g : Globals K) (p1 p2 : Particle K)
    (dip1 : Vec3 K) :
    (calc_dipole_dipole_ia sv g p1 dip1 p2 true).2.1.torque =
      if sv.ROTATION = true then
        p1.torque + Vec3.smul g.dipole.prefactor
          (kernel_tt1 dip1 p2.dip (sv.get_mi_vector p1.pos p2.pos g.box_geo)
            ((sv.get_mi_vector p1.pos p2.pos g.box_geo).dot
              (sv.get_mi_vector p1.pos p2.pos g.box_geo))
            (sv.sqrt ((sv.get_mi_vector p1.pos p2.pos g.box_geo).dot
              (sv.get_mi_vector p1.pos p2.pos g.box_geo))))
      else p1.torque := by
  unfold calc_dipole_dipole_ia
  cases sv.ROTATION <;> rfl

/-- The torque the kernel leaves on particle 2 when `force_flag` is set. -/
theorem calc_dipole_dipole_ia_t2 (sv : Services K) (g : Globals K) (p1 p2 : Particle K)
    (dip1 : Vec3 K) :
    (calc_dipole_dipole_ia sv g p1 dip1 p2 true).2.2.torque =
      if sv.ROTATION = true then
        p2.torque + Vec3.smul g.dipole.prefactor
          (kernel_tt2 dip1 p2.dip (sv.get_mi_vector p1.pos p2.pos g.box_geo)
            ((sv.get_mi_vector p1.pos p2.pos g.box_geo).dot
              (sv.get_mi_vector p1.pos p2.pos g.box_geo))
            (sv.sqrt ((sv.get_mi_vector p1.pos p2.pos g.box_geo).dot
              (sv.get_mi_vector p1.pos p2.pos g.box_geo))))
      else p2.torque := by
  unfold calc_dipole_dipole_ia
  cases sv.ROTATION <;> rfl

theorem kernel_tt1_eq_pair_torque (m1 m2 r : Vec3 K) (d : K) :
    kernel_tt1 m1 m2 r (d * d) d = pair_torque m1 m2 r d := by
  unfold kernel_tt1 pair_torque
  ext
  · show _ = _ + _
    simp only [Vec3.smul, Vec3.cross, Vec3.dot]
    ring
  · show _ = _ + _
    simp only [Vec3.smul, Vec3.cross, Vec3.dot]
    ring
  · show _ = _ + _
    simp only [Vec3.smul, Vec3.cross, Vec3.dot]
    ring

theorem kernel_tt2_eq_pair_torque (m1 m2 r : Vec3 K) (d : K) :
    kernel_tt2 m1 m2 r (d * d) d = pair_torque m2 m1 r d := by
  unfold kernel_tt2 pair_torque
  ext
  · show _ = _ + _
    simp only [Vec3.smul, Vec3.cross, Vec3.dot]
    ring
  · show _ = _ + _
    simp only [Vec3.smul, Vec3.cross, Vec3.dot]
    ring
  · show _ = _ + _
    simp only [Vec3.smul, Vec3.cross, Vec3.dot]
    ring

theorem pair_torque_eq_cross_field (m1 m2 r : Vec3 K) (d : K) :
    pair_torque m1 m2 r d = m1.cross (dipole_field m2 r d) := by
  unfold pair_torque dipole_field
  ext
  · show _ + _ = _
    simp only [Vec3.smul, Vec3.cross, Vec3.dot, Vec3.sub_x, Vec3.sub_y, Vec3.sub_z]
    ring
  · show _ + _ = _
    simp only [Vec3.smul, Vec3.cross, Vec3.dot, Vec3.sub_x, Vec3.sub_y, Vec3.sub_z]
    ring
  · show _ + _ = _
    simp only [Vec3.smul, Vec3.cross, Vec3.dot, Vec3.sub_x, Vec3.sub_y, Vec3.sub_z]
    ring

/-- The balance of the three increments of one kernel call, for any `r2` and `r`. -/
theorem kernel_angular_balance (c : K) (m1 m2 r : Vec3 K) (r2 d : K) :
    Vec3.smul c (kernel_tt1 m1 m2 r r2 d) + Vec3.smul c (kernel_tt2 m1 m2 r r2 d) +
      r.cross (Vec3.smul c (kernel_ff m1 m2 r r2 d)) = 0 := by
  unfold kernel_tt1 kernel_tt2 kernel_ff
  ext
  · show _ + _ + _ = (0 : K)
    simp only [Vec3.smul, Vec3.cross, Vec3.dot]
    ring
  · show _ + _ + _ = (0 : K)
    simp only [Vec3.smul, Vec3.cross, Vec3.dot]
    ring
  · show _ + _ + _ = (0 : K)
    simp only [Vec3.smul, Vec3.cross, Vec3.dot]
    ring

end KernelTorque

section WorkedEnergies

variable {K : Type} [LinearOrderedField K]

/-- C21: at minimum-image displacement `r = (0,0,1)` (with `sqrt 1 = 1`) and `m1 = (1,0,0)`,
the kernel returns `0` for `m2 = (0,1,0)` and prefactor `1`, and returns exactly the
prefactor for `m2 = (1,0,0)`, for every prefactor and both values of `force_flag`. -/
theorem calc_dipole_dipole_ia_worked (sv : Services K) (g : Globals K) (p1 p2 : Particle K)
    (dip1 : Vec3 K) (force_flag : Bool)
    (hr : sv.get_mi_vector p1.pos p2.pos g.box_geo = ⟨0, 0, 1⟩)
    (hs : sv.sqrt 1 = 1) (h1 : dip1 = ⟨1, 0, 0⟩) :
    (p2.dip = ⟨0, 1, 0⟩ → g.dipole.prefactor = 1 →
        (calc_dipole_dipole_ia sv g p1 dip1 p2 force_flag).1 = 0) ∧
      (p2.dip = ⟨1, 0, 0⟩ →
        (calc_dipole_dipole_ia sv g p1 dip1 p2 force_flag).1 = g.dipole.prefactor) := by
  rw [calc_dipole_dipole_ia_fst, hr, h1]
  constructor
  · intro h2 hp
    rw [h2, hp]
    norm_num [Vec3.dot]
  · intro h2
    rw [h2]
    norm_num [Vec3.dot, hs]

/-- Witness of C21: the two worked configurations in the box of edge 10, the first with
prefactor 1, the second with prefactor 2. -/
theorem calc_dipole_dipole_ia_worked_witness :
    (calc_dipole_dipole_ia (servicesQ true)
        ⟨⟨1, DipolarInteraction.DIPOLAR_DS⟩, 1, 0, ⟨⟨10, 10, 10⟩, ⟨true, true, true⟩⟩⟩
        (dipoleQ ⟨0, 0, 1⟩ ⟨1, 0, 0⟩) ⟨1, 0, 0⟩ (dipoleQ ⟨0, 0, 0⟩ ⟨0, 1, 0⟩) true).1 = 0 ∧
      (calc_dipole_dipole_ia (servicesQ true) (globalsQ ⟨true, true, true⟩ 0)
        (dipoleQ ⟨0, 0, 1⟩ ⟨1, 0, 0⟩) ⟨1, 0, 0⟩ (dipoleQ ⟨0, 0, 0⟩ ⟨1, 0, 0⟩) true).1 = 2 :=
  ⟨(calc_dipole_dipole_ia_worked (servicesQ true)
      ⟨⟨1, DipolarInteraction.DIPOLAR_DS⟩, 1, 0, ⟨⟨10, 10, 10⟩, ⟨true, true, true⟩⟩⟩
      (dipoleQ ⟨0, 0, 1⟩ ⟨1, 0, 0⟩) (dipoleQ ⟨0, 0, 0⟩ ⟨0, 1, 0⟩) ⟨1, 0, 0⟩ true
      (by norm_num [servicesQ, dipoleQ, get_mi_vector_Q, get_mi_coord_Q])
      (by norm_num [servicesQ, sqrtQ]) rfl).1 rfl rfl,
    (calc_dipole_dipole_ia_worked (servicesQ true) (globalsQ ⟨true, true, true⟩ 0)
      (dipoleQ ⟨0, 0, 1⟩ ⟨1, 0, 0⟩) (dipoleQ ⟨0, 0, 0⟩ ⟨1, 0, 0⟩) ⟨1, 0, 0⟩ true
      (by norm_num [servicesQ, globalsQ, dipoleQ, get_mi_vector_Q, get_mi_coord_Q])
      (by norm_num [servicesQ, sqrtQ]) rfl).2 rfl⟩

end WorkedEnergies

section KernelTorqueMain

variable {K : Type} [LinearOrderedField K]

/-- C22: with `ROTATION` compiled in and `force_flag` set, for every `m1` (the argument
`dip1`), `m2` (the moment of `p2`) and minimum-image displacement `r` with `d = |r| > 0`, the
kernel adds `prefactor * (-(m1 x m2)/d^3 + (3*(m2.r)/d^5) * (m1 x r))` to the torque of
particle 1 and the same expression with `m1` and `m2` swapped to the torque of particle 2;
each of the two is the moment of the particle crossed with the dipole field of the other
particle. -/
theorem calc_dipole_dipole_ia_torque (sv : Services K) (g : Globals K) (p1 p2 : Particle K)
    (dip1 : Vec3 K) (d : K) (hrot : sv.ROTATION = true)
    (hd : d = sv.sqrt ((sv.get_mi_vector p1.pos p2.pos g.box_geo).dot
      (sv.get_mi_vector p1.pos p2.pos g.box_geo)))
    (hsq : d * d = (sv.get_mi_vector p1.pos p2.pos g.box_geo).dot
      (sv.get_mi_vector p1.pos p2.pos g.box_geo))
    (hpos : 0 < d) :
    (calc_dipole_dipole_ia sv g p1 dip1 p2 true).2.1.torque =
        p1.torque + Vec3.smul g.dipole.prefactor
          (pair_torque dip1 p2.dip (sv.get_mi_vector p1.pos p2.pos g.box_geo) d) ∧
      (calc_dipole_dipole_ia sv g p1 dip1 p2 true).2.2.torque =
        p2.torque + Vec3.smul g.dipole.prefactor
          (pair_torque p2.dip dip1 (sv.get_mi_vector p1.pos p2.pos g.box_geo) d) ∧
      pair_torque dip1 p2.dip (sv.get_mi_vector p1.pos p2.pos g.box_geo) d =
        dip1.cross (dipole_field p2.dip (sv.get_mi_vector p1.pos p2.pos g.box_geo) d) ∧
      pair_torque p2.dip dip1 (sv.get_mi_vector p1.pos p2.pos g.box_geo) d =
        p2.dip.cross (dipole_field dip1 (sv.get_mi_vector p1.pos p2.pos g.box_geo) d) := by
  have _hne : d ≠ 0 := ne_of_gt hpos
  rw [calc_dipole_dipole_ia_t1, calc_dipole_dipole_ia_t2, if_pos hrot, if_pos hrot, ← hd,
    ← hsq, kernel_tt1_eq_pair_torque, kernel_tt2_eq_pair_torque]
  exact ⟨rfl, rfl, pair_torque_eq_cross_field _ _ _ _, pair_torque_eq_cross_field _ _ _ _⟩

/-- Witness of C22: a unit dipole along `x` at `(0,0,1)` and a unit dipole along `z` at the
origin, prefactor 2. -/
theorem calc_dipole_dipole_ia_torque_witness :
    (calc_dipole_dipole_ia (servicesQ true) (globalsQ ⟨true, true, true⟩ 0)
        (dipoleQ ⟨0, 0, 1⟩ ⟨1, 0, 0⟩) ⟨1, 0, 0⟩ (dipoleQ ⟨0, 0, 0⟩ ⟨0, 0, 1⟩)
        true).2.1.torque = ⟨0, -4, 0⟩ ∧
      (calc_dipole_dipole_ia (servicesQ true) (globalsQ ⟨true, true, true⟩ 0)
        (dipoleQ ⟨0, 0, 1⟩ ⟨1, 0, 0⟩) ⟨1, 0, 0⟩ (dipoleQ ⟨0, 0, 0⟩ ⟨0, 0, 1⟩)
        true).2.2.torque = ⟨0, -2, 0⟩ := by
  have h := calc_dipole_dipole_ia_torque (servicesQ true) (globalsQ ⟨true, true, true⟩ 0)
    (dipoleQ ⟨0, 0, 1⟩ ⟨1, 0, 0⟩) (dipoleQ ⟨0, 0, 0⟩ ⟨0, 0, 1⟩) ⟨1, 0, 0⟩ 1 rfl
    (by norm_num [servicesQ, globalsQ, dipoleQ, get_mi_vector_Q, get_mi_coord_Q, Vec3.dot,
      sqrtQ])
    (by norm_num [servicesQ, globalsQ, dipoleQ, get_mi_vector_Q, get_mi_coord_Q, Vec3.dot])
    (by norm_num)
  rw [h.1, h.2.1]
  constructor <;> ext <;>
    norm_num [servicesQ, globalsQ, dipoleQ, get_mi_vector_Q, get_mi_coord_Q, Vec3.dot,
      Vec3.cross, pair_torque]

end KernelTorqueMain

section ListSums

theorem getD_set_eq {α : Type} (d : α) (l : List α) (i idx : Nat) (a : α) :
    (l.set i a).getD idx d = if idx = i ∧ i < l.length then a else l.getD idx d := by
  induction l generalizing i idx with
  | nil => simp
  | cons b l ih =>
    cases i with
    | zero =>
      cases idx with
      | zero => simp
      | succ idx => simp
    | succ i =>
      cases idx with
      | zero => simp
      | succ idx =>
        rw [List.set_cons_succ, List.getD_cons_succ, List.getD_cons_succ, ih]
        simp

theorem list_ext_getD {α : Type} (d : α) (l1 l2 : List α) (hlen : l1.length = l2.length)
    (h : ∀ i : Nat, i < l1.length → l1.getD i d = l2.getD i d) : l1 = l2 := by
  induction l1 generalizing l2 with
  | nil =>
    cases l2 with
    | nil => rfl
    | cons b l2 => simp at hlen
  | cons a l1 ih =>
    cases l2 with
    | nil => simp at hlen
    | cons b l2 =>
      have h0 := h 0 (Nat.succ_pos _)
      simp only [List.getD_cons_zero] at h0
      rw [h0, ih l2 (by simpa using hlen)]
      intro i hi
      have hs := h (i + 1) (Nat.succ_lt_succ hi)
      simpa using hs

theorem sum_map_filter_vec {α V : Type} [AddCommMonoid V] (c : α → Bool) (f : α → V)
    (l : List α) :
    ((l.filter c).map f).sum = (l.map fun a => if c a = true then f a else 0).sum := by
  induction l with
  | nil => rfl
  | cons a l ih =>
    by_cases h : c a = true
    · simp [List.filter_cons, h, ih]
    · simp [List.filter_cons, h, ih]

theorem sum_flatMap_vec {α β V : Type} [AddCommMonoid V] (l : List α) (T : α → List β)
    (f : β → V) :
    ((l.flatMap T).map f).sum = (l.map fun a => ((T a).map f).sum).sum := by
  induction l with
  | nil => rfl
  | cons a l ih => simp [List.flatMap_cons, ih]

theorem sum_range_eq_finset {V : Type} [AddCommMonoid V] (n : Nat) (f : Nat → V) :
    ((List.range n).map f).sum = Finset.sum (Finset.range n) f := by
  induction n with
  | zero => rfl
  | succ n ih =>
    rw [List.range_succ, List.map_append, List.sum_append, ih, Finset.sum_range_succ]
    simp

theorem sum_range_getD_vec {α V : Type} [AddCommMonoid V] (d : α) (f : α → V) (l : List α) :
    ((List.range l.length).map fun j => f (l.getD j d)).sum = (l.map f).sum := by
  induction l with
  | nil => rfl
  | cons a l ih =>
    rw [List.length_cons, List.range_succ_eq_map, List.map_cons, List.map_map, List.sum_cons,
      List.map_cons, List.sum_cons, ← ih]
    rfl

/-- The sum over the entries of a list but one, as the full sum less that entry. -/
theorem sum_range_skip {α V : Type} [AddCommGroup V] (d : α) (f : α → V) (l : List α)
    (k : Nat) (hk : k < l.length) :
    ((List.range l.length).map fun j => if k = j then 0 else f (l.getD j d)).sum =
      (l.map f).sum - f (l.getD k d) := by
  have e : (fun j => if k = j then 0 else f (l.getD j d)) =
      fun j => f (l.getD j d) - if k = j then f (l.getD k d) else 0 := by
    funext j
    by_cases h : k = j
    · subst h
      simp
    · simp [h]
  rw [e, sum_range_eq_finset, Finset.sum_sub_distrib, ← sum_range_eq_finset,
    sum_range_getD_vec, Finset.sum_ite_eq, if_pos (Finset.mem_range.mpr hk)]

end ListSums

section ZeroReplicaFibers

variable {K : Type} [LinearOrderedField K]

theorem mdds_triples_zero_sum_vec {V : Type} [AddCommMonoid V] (n : Nat)
    (f : Nat × Nat × Int × Int × Int → V) :
    ((mdds_triples n ⟨0, 0, 0⟩ 0).map f).sum =
      ((List.range n).map fun i =>
        ((List.range n).map fun j => if i = j then 0 else f (i, j, 0, 0, 0)).sum).sum := by
  rw [mdds_triples_eq_list]
  unfold mdds_triples_list
  rw [sum_flatMap_vec]
  congr 1
  apply List.map_congr_left
  intro i _
  rw [sum_flatMap_vec]
  congr 1
  apply List.map_congr_left
  intro j _
  rw [mdds_offsets_list_zero]
  by_cases hij : i = j
  · simp [hij]
  · simp [hij]

theorem mdds_NCUT_zero {R : Type} (g : Globals R) (hN : g.Ncut_off_magnetic_dipolar_direct_sum = 0) :
    mdds_NCUT g = ⟨0, 0, 0⟩ ∧ mdds_NCUT2 g = 0 := by
  constructor
  · simp [mdds_NCUT, hN]
  · simp [mdds_NCUT2, hN]

theorem mdds_gather_getD (sv : Services K) (g : Globals K) (parts : List (Particle K))
    (k : Nat) (hk : k < (parts.filter fun p => decide (p.dipm ≠ 0)).length) :
    (mdds_gather sv g parts).getD k (0, 0) =
      (sv.folded_position ((parts.filter fun p => decide (p.dipm ≠ 0)).getD k
          Particle.nil).pos g.box_geo,
        ((parts.filter fun p => decide (p.dipm ≠ 0)).getD k Particle.nil).dip) := by
  unfold mdds_gather
  generalize (parts.filter fun p => decide (p.dipm ≠ 0)) = l at hk ⊢
  induction l generalizing k with
  | nil => simp at hk
  | cons a l ih =>
    cases k with
    | zero => rfl
    | succ k =>
      simp only [List.map_cons, List.getD_cons_succ]
      exact ih k (by simpa using hk)

/-- With no replicas, the terms the direct sum adds to slot `k` of an accumulator array are
those of the `k`-th dipole-bearing particle against every dipole-bearing particle, less
its term against itself. -/
theorem mdds_zero_fiber_sum {V : Type} [AddCommGroup V] (sv : Services K) (g : Globals K)
    (parts : List (Particle K)) (term : Vec3 K → Vec3 K → Vec3 K → V) (k : Nat)
    (hk : k < (parts.filter fun p => decide (p.dipm ≠ 0)).length) :
    (((mdds_triples (mdds_gather sv g parts).length ⟨0, 0, 0⟩ 0).filter
        fun t => decide (t.1 = k)).map fun t =>
          term (mdds_m (mdds_gather sv g parts) t.1) (mdds_m (mdds_gather sv g parts) t.2.1)
            (mdds_rn g (mdds_gather sv g parts) t)).sum =
      ((parts.filter fun p => decide (p.dipm ≠ 0)).map fun q =>
          term ((parts.filter fun p => decide (p.dipm ≠ 0)).getD k Particle.nil).dip q.dip
            (mdds_zero_sep sv g ((parts.filter fun p => decide (p.dipm ≠ 0)).getD k
              Particle.nil) q)).sum -
        term ((parts.filter fun p => decide (p.dipm ≠ 0)).getD k Particle.nil).dip
          ((parts.filter fun p => decide (p.dipm ≠ 0)).getD k Particle.nil).dip
          (mdds_zero_sep sv g ((parts.filter fun p => decide (p.dipm ≠ 0)).getD k
            Particle.nil)
            ((parts.filter fun p => decide (p.dipm ≠ 0)).getD k Particle.nil)) := by
  have hlen : (mdds_gather sv g parts).length =
      (parts.filter fun p => decide (p.dipm ≠ 0)).length := by
    unfold mdds_gather
    exact List.length_map _ _
  have hk2 : k < (mdds_gather sv g parts).length := hlen ▸ hk
  rw [sum_map_filter_vec, mdds_triples_zero_sum_vec]
  -- the rows other than row `k` vanish
  have hrow : ∀ i : Nat,
      ((List.range (mdds_gather sv g parts).length).map fun j =>
        if i = j then (0 : V)
        else if decide ((i, j, (0 : Int), (0 : Int), (0 : Int)).1 = k) = true then
          term (mdds_m (mdds_gather sv g parts) (i, j, (0 : Int), (0 : Int), (0 : Int)).1)
            (mdds_m (mdds_gather sv g parts) (i, j, (0 : Int), (0 : Int), (0 : Int)).2.1)
            (mdds_rn g (mdds_gather sv g parts) (i, j, 0, 0, 0))
        else 0).sum =
      if k = i then
        ((List.range (mdds_gather sv g parts).length).map fun j =>
          if k = j then (0 : V)
          else (fun b : Vec3 K × Vec3 K =>
            term ((mdds_gather sv g parts).getD k (0, 0)).2 b.2
              ⟨((mdds_gather sv g parts).getD k (0, 0)).1.x - b.1.x +
                  ((0 : Int) : K) * g.box_geo.length.x,
                ((mdds_gather sv g parts).getD k (0, 0)).1.y - b.1.y +
                  ((0 : Int) : K) * g.box_geo.length.y,
                ((mdds_gather sv g parts).getD k (0, 0)).1.z - b.1.z +
                  ((0 : Int) : K) * g.box_geo.length.z⟩)
            ((mdds_gather sv g parts).getD j (0, 0))).sum
      else 0 := by
    intro i
    by_cases hik : k = i
    · subst hik
      rw [if_pos rfl]
      congr 1
      apply List.map_congr_left
      intro j _
      by_cases hj : k = j
      · rw [if_pos hj, if_pos hj]
      · rw [if_neg hj, if_neg hj, if_pos (by simp)]
        rfl
    · rw [if_neg hik]
      have hz : ∀ j ∈ List.range (mdds_gather sv g parts).length,
          (if i = j then (0 : V)
            else if decide ((i, j, (0 : Int), (0 : Int), (0 : Int)).1 = k) = true then
              term (mdds_m (mdds_gather sv g parts)
                  (i, j, (0 : Int), (0 : Int), (0 : Int)).1)
                (mdds_m (mdds_gather sv g parts)
                  (i, j, (0 : Int), (0 : Int), (0 : Int)).2.1)
                (mdds_rn g (mdds_gather sv g parts) (i, j, 0, 0, 0))
            else 0) = 0 := by
        intro j _
        have hne : ¬ i = k := fun h => hik h.symm
        simp [hne]
      rw [List.map_congr_left hz]
      simp
  rw [List.map_congr_left (fun i _ => hrow i), sum_range_ite, if_pos hk2]
  refine (sum_range_skip ((0, 0) : Vec3 K × Vec3 K)
    (fun b : Vec3 K × Vec3 K =>
      term ((mdds_gather sv g parts).getD k (0, 0)).2 b.2
        ⟨((mdds_gather sv g parts).getD k (0, 0)).1.x - b.1.x +
            ((0 : Int) : K) * g.box_geo.length.x,
          ((mdds_gather sv g parts).getD k (0, 0)).1.y - b.1.y +
            ((0 : Int) : K) * g.box_geo.length.y,
          ((mdds_gather sv g parts).getD k (0, 0)).1.z - b.1.z +
            ((0 : Int) : K) * g.box_geo.length.z⟩)
    (mdds_gather sv g parts) k hk2).trans ?_
  simp only [mdds_gather_getD sv g parts k hk]
  unfold mdds_gather
  rw [List.map_map]
  rfl

end ZeroReplicaFibers

section AllPairsChannels

variable {K : Type} [LinearOrderedField K]

/-- The force and torque one kernel call leaves on two particles `P1`, `P2` whose position,
dipole magnitude and moment are those of `p1`, `p2`. -/
theorem calc_dipole_dipole_ia_of_static (sv : Services K) (g : Globals K)
    (P1 P2 p1 p2 : Particle K) (h1 : P1.static = p1.static) (h2 : P2.static = p2.static) :
    (calc_dipole_dipole_ia sv g P1 p1.dip P2 true).2.1.f = P1.f + kernel_force sv g p1 p2 ∧
      (calc_dipole_dipole_ia sv g P1 p1.dip P2 true).2.2.f =
        P2.f + -kernel_force sv g p1 p2 ∧
      (calc_dipole_dipole_ia sv g P1 p1.dip P2 true).2.1.torque =
        P1.torque + kernel_torque1 sv g p1 p2 ∧
      (calc_dipole_dipole_ia sv g P1 p1.dip P2 true).2.2.torque =
        P2.torque + kernel_torque2 sv g p1 p2 := by
  simp only [Particle.static, Prod.mk.injEq] at h1 h2
  rw [calc_dipole_dipole_ia_f1, calc_dipole_dipole_ia_f2, calc_dipole_dipole_ia_t1,
    calc_dipole_dipole_ia_t2, h1.1, h2.1, h2.2.2]
  unfold kernel_force kernel_torque1 kernel_torque2
  refine ⟨rfl, sub_eq_add_neg _ _, ?_, ?_⟩
  · by_cases hrot : sv.ROTATION = true
    · rw [if_pos hrot, if_pos hrot]
    · rw [if_neg hrot, if_neg hrot, add_zero]
  · by_cases hrot : sv.ROTATION = true
    · rw [if_pos hrot, if_pos hrot]
    · rw [if_neg hrot, if_neg hrot, add_zero]

/-- The force and torque of the particle at position `idx` after one kernel invocation of
the all-pairs loop on the pair `(i, j)`. -/
theorem dawaanr_step_getD (sv : Services K) (g : Globals K) (parts : List (Particle K))
    (s : K × List (Particle K)) (i j idx : Nat)
    (hs : s.2.map Particle.static = parts.map Particle.static)
    (hij : i ≠ j) (hi : i < parts.length) (hj : j < parts.length) :
    ((dawaanr_step sv g true parts s (i, j)).2.getD idx Particle.nil).f =
        (s.2.getD idx Particle.nil).f +
          ((if idx = i then
              kernel_force sv g (parts.getD i Particle.nil) (parts.getD j Particle.nil)
            else 0) +
            (if idx = j then
              -kernel_force sv g (parts.getD i Particle.nil) (parts.getD j Particle.nil)
            else 0)) ∧
      ((dawaanr_step sv g true parts s (i, j)).2.getD idx Particle.nil).torque =
        (s.2.getD idx Particle.nil).torque +
          ((if idx = i then
              kernel_torque1 sv g (parts.getD i Particle.nil) (parts.getD j Particle.nil)
            else 0) +
            (if idx = j then
              kernel_torque2 sv g (parts.getD i Particle.nil) (parts.getD j Particle.nil)
            else 0)) := by
  have hlen : s.2.length = parts.length := by
    have := congrArg List.length hs
    simpa using this
  have hk := calc_dipole_dipole_ia_of_static sv g (s.2.getD i Particle.nil)
    (s.2.getD j Particle.nil) (parts.getD i Particle.nil) (parts.getD j Particle.nil)
    (getD_of_map_eq Particle.static Particle.nil _ _ hs i)
    (getD_of_map_eq Particle.static Particle.nil _ _ hs j)
  unfold dawaanr_step dawaanr_kernel_at
  simp only
  rw [getD_set_eq, getD_set_eq, List.length_set, hlen]
  by_cases h2 : idx = j
  · subst h2
    have h1 : ¬ idx = i := fun h => hij h.symm
    rw [if_pos ⟨rfl, hj⟩, if_neg h1, if_neg h1, if_pos rfl, if_pos rfl, zero_add, zero_add]
    exact ⟨hk.2.1, hk.2.2.2⟩
  · rw [if_neg (fun h => h2 h.1), if_neg h2, if_neg h2, add_zero, add_zero]
    by_cases h1 : idx = i
    · subst h1
      rw [if_pos ⟨rfl, hi⟩, if_pos rfl, if_pos rfl]
      exact ⟨hk.1, hk.2.2.1⟩
    · rw [if_neg (fun h => h1 h.1), if_neg h1, if_neg h1, add_zero, add_zero]
      exact ⟨rfl, rfl⟩

/-- A fold whose steps add to an observed value adds the sum of the increments. -/
theorem foldl_observed_sum {σ β V : Type} [AddCommMonoid V] (Inv : σ → Prop)
    (step : σ → β → σ) (val : σ → V) (inc : β → V) (l : List β)
    (hstep : ∀ s b, b ∈ l → Inv s → Inv (step s b) ∧ val (step s b) = val s + inc b)
    (s : σ) (hs : Inv s) : val (l.foldl step s) = val s + (l.map inc).sum := by
  induction l generalizing s with
  | nil => simp
  | cons b l ih =>
    have h1 := hstep s b (List.mem_cons_self _ _) hs
    rw [List.foldl_cons, ih (fun s b hb => hstep s b (List.mem_cons_of_mem _ hb)) _ h1.1, h1.2,
      List.map_cons, List.sum_cons, add_assoc]

/-- The force and torque of the particle at position `idx` after the all-pairs loop with
`force_flag` set: the sums of the increments of the kernel invocations it takes part in. -/
theorem dawaanr_foldl_getD (sv : Services K) (g : Globals K) (parts : List (Particle K))
    (idx : Nat) :
    (((dawaanr_pairs parts).foldl (dawaanr_step sv g true parts) (0, parts)).2.getD idx
          Particle.nil).f =
        (parts.getD idx Particle.nil).f +
          ((dawaanr_pairs parts).map fun ij =>
            (if idx = ij.1 then
                kernel_force sv g (parts.getD ij.1 Particle.nil) (parts.getD ij.2 Particle.nil)
              else 0) +
              (if idx = ij.2 then
                -kernel_force sv g (parts.getD ij.1 Particle.nil)
                  (parts.getD ij.2 Particle.nil)
              else 0)).sum ∧
      (((dawaanr_pairs parts).foldl (dawaanr_step sv g true parts) (0, parts)).2.getD idx
          Particle.nil).torque =
        (parts.getD idx Particle.nil).torque +
          ((dawaanr_pairs parts).map fun ij =>
            (if idx = ij.1 then
                kernel_torque1 sv g (parts.getD ij.1 Particle.nil)
                  (parts.getD ij.2 Particle.nil)
              else 0) +
              (if idx = ij.2 then
                kernel_torque2 sv g (parts.getD ij.1 Particle.nil)
                  (parts.getD ij.2 Particle.nil)
              else 0)).sum := by
  constructor
  · refine foldl_observed_sum
      (fun s : K × List (Particle K) => s.2.map Particle.static = parts.map Particle.static)
      (dawaanr_step sv g true parts) (fun s => (s.2.getD idx Particle.nil).f) _ _ ?_ (0, parts)
      rfl
    intro s ij hmem hs
    obtain ⟨i, j⟩ := ij
    have hm := (mem_dawaanr_pairs parts i j).mp hmem
    exact ⟨dawaanr_step_static sv g true parts s (i, j) hs,
      (dawaanr_step_getD sv g parts s i j idx hs (Nat.ne_of_lt hm.1)
        (Nat.lt_trans hm.1 hm.2.1) hm.2.1).1⟩
  · refine foldl_observed_sum
      (fun s : K × List (Particle K) => s.2.map Particle.static = parts.map Particle.static)
      (dawaanr_step sv g true parts) (fun s => (s.2.getD idx Particle.nil).torque) _ _ ?_
      (0, parts) rfl
    intro s ij hmem hs
    obtain ⟨i, j⟩ := ij
    have hm := (mem_dawaanr_pairs parts i j).mp hmem
    exact ⟨dawaanr_step_static sv g true parts s (i, j) hs,
      (dawaanr_step_getD sv g parts s i j idx hs (Nat.ne_of_lt hm.1)
        (Nat.lt_trans hm.1 hm.2.1) hm.2.1).2⟩

end AllPairsChannels

section AllPairsSums

variable {K : Type} [LinearOrderedField K]

theorem dawaanr_pairs_sum_finset {V : Type} [AddCommMonoid V] (parts : List (Particle K))
    (H : Nat × Nat → V) :
    ((dawaanr_pairs parts).map H).sum =
      Finset.sum (Finset.range parts.length) fun i =>
        Finset.sum (Finset.range parts.length) fun j =>
          if i < j ∧ (parts.getD i Particle.nil).dipm ≠ 0 ∧
              (parts.getD j Particle.nil).dipm ≠ 0 then H (i, j)
          else 0 := by
  have hset : (dawaanr_pairs parts).toFinset =
      (Finset.range parts.length ×ˢ Finset.range parts.length).filter fun ij =>
        ij.1 < ij.2 ∧ (parts.getD ij.1 Particle.nil).dipm ≠ 0 ∧
          (parts.getD ij.2 Particle.nil).dipm ≠ 0 := by
    ext ⟨i, j⟩
    simp only [List.mem_toFinset, mem_dawaanr_pairs, Finset.mem_filter, Finset.mem_product,
      Finset.mem_range]
    constructor
    · rintro ⟨h1, h2, h3, h4⟩
      exact ⟨⟨Nat.lt_trans h1 h2, h2⟩, h1, h3, h4⟩
    · rintro ⟨⟨_, h2⟩, h1, h3, h4⟩
      exact ⟨h1, h2, h3, h4⟩
  rw [← List.sum_toFinset H (nodup_dawaanr_pairs parts), hset, Finset.sum_filter,
    Finset.sum_product]

theorem finset_sum_range_getD {α V : Type} [AddCommMonoid V] (d : α) (f : α → V)
    (l : List α) :
    (Finset.sum (Finset.range l.length) fun j => f (l.getD j d)) = (l.map f).sum := by
  rw [← sum_range_eq_finset, sum_range_getD_vec]

/-- The increments the all-pairs loop applies to the particle at position `idx`, summed:
nothing for a particle without dipole, otherwise its term against every dipole-bearing
particle, less its term against itself. -/
theorem dawaanr_pairs_channel_sum {V : Type} [AddCommGroup V] (parts : List (Particle K))
    (idx : Nat) (hidx : idx < parts.length) (A B Ft : Particle K → Particle K → V)
    (hA : ∀ i j : Nat, i < j → j < parts.length → (parts.getD i Particle.nil).dipm ≠ 0 →
      (parts.getD j Particle.nil).dipm ≠ 0 →
      A (parts.getD i Particle.nil) (parts.getD j Particle.nil) =
        Ft (parts.getD i Particle.nil) (parts.getD j Particle.nil))
    (hB : ∀ i j : Nat, i < j → j < parts.length → (parts.getD i Particle.nil).dipm ≠ 0 →
      (parts.getD j Particle.nil).dipm ≠ 0 →
      B (parts.getD i Particle.nil) (parts.getD j Particle.nil) =
        Ft (parts.getD j Particle.nil) (parts.getD i Particle.nil)) :
    ((dawaanr_pairs parts).map fun ij =>
        (if idx = ij.1 then A (parts.getD ij.1 Particle.nil) (parts.getD ij.2 Particle.nil)
          else 0) +
          (if idx = ij.2 then B (parts.getD ij.1 Particle.nil) (parts.getD ij.2 Particle.nil)
            else 0)).sum =
      if (parts.getD idx Particle.nil).dipm = 0 then 0
      else
        ((parts.filter fun p => decide (p.dipm ≠ 0)).map
            (Ft (parts.getD idx Particle.nil))).sum -
          Ft (parts.getD idx Particle.nil) (parts.getD idx Particle.nil) := by
  rw [dawaanr_pairs_sum_finset]
  -- each summand, rewritten with `Ft` and split by the role of `idx`
  have hpt : ∀ i ∈ Finset.range parts.length, ∀ j ∈ Finset.range parts.length,
      (if i < j ∧ (parts.getD i Particle.nil).dipm ≠ 0 ∧
            (parts.getD j Particle.nil).dipm ≠ 0 then
          (if idx = (i, j).1 then
              A (parts.getD (i, j).1 Particle.nil) (parts.getD (i, j).2 Particle.nil)
            else 0) +
            (if idx = (i, j).2 then
              B (parts.getD (i, j).1 Particle.nil) (parts.getD (i, j).2 Particle.nil)
            else 0)
        else 0) =
      (if idx = i then
          (if idx < j ∧ (parts.getD idx Particle.nil).dipm ≠ 0 ∧
              (parts.getD j Particle.nil).dipm ≠ 0 then
            Ft (parts.getD idx Particle.nil) (parts.getD j Particle.nil)
          else 0)
        else 0) +
        (if idx = j then
          (if i < idx ∧ (parts.getD i Particle.nil).dipm ≠ 0 ∧
              (parts.getD idx Particle.nil).dipm ≠ 0 then
            Ft (parts.getD idx Particle.nil) (parts.getD i Particle.nil)
          else 0)
        else 0) := by
    intro i _ j hj
    have hj2 : j < parts.length := Finset.mem_range.mp hj
    by_cases hc : i < j ∧ (parts.getD i Particle.nil).dipm ≠ 0 ∧
        (parts.getD j Particle.nil).dipm ≠ 0
    · rw [if_pos hc]
      by_cases h1 : idx = i
      · subst h1
        have h2 : ¬ idx = j := Nat.ne_of_lt hc.1
        rw [if_pos rfl, if_neg h2, if_pos rfl, if_neg h2, if_pos hc,
          hA idx j hc.1 hj2 hc.2.1 hc.2.2]
      · rw [if_neg h1, if_neg h1]
        by_cases h2 : idx = j
        · subst h2
          rw [if_pos rfl, if_pos rfl, if_pos hc, hB i idx hc.1 hj2 hc.2.1 hc.2.2]
        · rw [if_neg h2, if_neg h2]
    · rw [if_neg hc]
      by_cases h1 : idx = i
      · subst h1
        rw [if_pos rfl, if_neg hc]
        by_cases h2 : idx = j
        · subst h2
          rw [if_pos rfl, if_neg (fun h => Nat.lt_irrefl _ h.1), add_zero]
        · rw [if_neg h2, add_zero]
      · rw [if_neg h1]
        by_cases h2 : idx = j
        · subst h2
          rw [if_pos rfl, if_neg hc, add_zero]
        · rw [if_neg h2, add_zero]
  rw [Finset.sum_congr rfl (fun i hi => Finset.sum_congr rfl (fun j hj => hpt i hi j hj))]
  simp only [Finset.sum_add_distrib]
  have hmem : idx ∈ Finset.range parts.length := Finset.mem_range.mpr hidx
  have e1 : (Finset.sum (Finset.range parts.length) fun i =>
      Finset.sum (Finset.range parts.length) fun j =>
        if idx = i then
          (if idx < j ∧ (parts.getD idx Particle.nil).dipm ≠ 0 ∧
              (parts.getD j Particle.nil).dipm ≠ 0 then
            Ft (parts.getD idx Particle.nil) (parts.getD j Particle.nil)
          else 0)
        else (0 : V)) =
      Finset.sum (Finset.range parts.length) fun j =>
        if idx < j ∧ (parts.getD idx Particle.nil).dipm ≠ 0 ∧
            (parts.getD j Particle.nil).dipm ≠ 0 then
          Ft (parts.getD idx Particle.nil) (parts.getD j Particle.nil)
        else 0 := by
    rw [Finset.sum_comm]
    apply Finset.sum_congr rfl
    intro j _
    rw [Finset.sum_ite_eq, if_pos hmem]
  have e2 : (Finset.sum (Finset.range parts.length) fun i =>
      Finset.sum (Finset.range parts.length) fun j =>
        if idx = j then
          (if i < idx ∧ (parts.getD i Particle.nil).dipm ≠ 0 ∧
              (parts.getD idx Particle.nil).dipm ≠ 0 then
            Ft (parts.getD idx Particle.nil) (parts.getD i Particle.nil)
          else 0)
        else (0 : V)) =
      Finset.sum (Finset.range parts.length) fun i =>
        if i < idx ∧ (parts.getD i Particle.nil).dipm ≠ 0 ∧
            (parts.getD idx Particle.nil).dipm ≠ 0 then
          Ft (parts.getD idx Particle.nil) (parts.getD i Particle.nil)
        else 0 := by
    apply Finset.sum_congr rfl
    intro i _
    rw [Finset.sum_ite_eq, if_pos hmem]
  rw [e1, e2, ← Finset.sum_add_distrib]
  by_cases hd : (parts.getD idx Particle.nil).dipm = 0
  · rw [if_pos hd]
    apply Finset.sum_eq_zero
    intro j _
    rw [if_neg (fun h => h.2.1 hd), if_neg (fun h => h.2.2 hd), add_zero]
  · rw [if_neg hd]
    have hdd : decide ((parts.getD idx Particle.nil).dipm ≠ 0) = true := decide_eq_true hd
    have hsplit : ∀ j ∈ Finset.range parts.length,
        ((if idx < j ∧ (parts.getD idx Particle.nil).dipm ≠ 0 ∧
              (parts.getD j Particle.nil).dipm ≠ 0 then
            Ft (parts.getD idx Particle.nil) (parts.getD j Particle.nil)
          else 0) +
          (if j < idx ∧ (parts.getD j Particle.nil).dipm ≠ 0 ∧
              (parts.getD idx Particle.nil).dipm ≠ 0 then
            Ft (parts.getD idx Particle.nil) (parts.getD j Particle.nil)
          else 0)) =
        (if decide ((parts.getD j Particle.nil).dipm ≠ 0) = true then
            Ft (parts.getD idx Particle.nil) (parts.getD j Particle.nil)
          else 0) -
          (if idx = j then Ft (parts.getD idx Particle.nil) (parts.getD idx Particle.nil)
            else 0) := by
      intro j _
      by_cases hj : idx = j
      · subst hj
        rw [if_neg (fun h => Nat.lt_irrefl _ h.1), if_pos rfl, if_pos hdd, sub_self, add_zero]
      · rw [if_neg hj, sub_zero]
        by_cases hq : (parts.getD j Particle.nil).dipm = 0
        · rw [if_neg (fun h => h.2.2 hq), if_neg (fun h => h.2.1 hq), add_zero,
            if_neg (by simpa using hq)]
        · have hqq : decide ((parts.getD j Particle.nil).dipm ≠ 0) = true := decide_eq_true hq
          rcases Nat.lt_or_gt_of_ne hj with hlt | hgt
          · rw [if_pos ⟨hlt, hd, hq⟩, if_neg (fun h => Nat.lt_asymm hlt h.1), add_zero,
              if_pos hqq]
          · rw [if_neg (fun h => Nat.lt_asymm hgt h.1), if_pos ⟨hgt, hq, hd⟩, zero_add,
              if_pos hqq]
    rw [Finset.sum_congr rfl hsplit, Finset.sum_sub_distrib, Finset.sum_ite_eq, if_pos hmem]
    congr 1
    exact (finset_sum_range_getD Particle.nil
      (fun q : Particle K =>
        if decide (q.dipm ≠ 0) = true then Ft (parts.getD idx Particle.nil) q else 0)
      parts).trans (sum_map_filter_vec _ _ _).symm

end AllPairsSums

section KernelVersusInlined

variable {K : Type} [LinearOrderedField K]

/-- The force vector of the kernel is the force term of the direct sum at the same moments
and separation. -/
theorem kernel_ff_eq_mdds_f_term (sv : Services K) (m1 m2 dr : Vec3 K) :
    kernel_ff m1 m2 dr (dr.dot dr) (sv.sqrt (dr.dot dr)) = mdds_f_term sv m1 m2 dr := by
  unfold kernel_ff mdds_f_term
  simp only [Vec3.dot]
  generalize sv.sqrt (dr.x * dr.x + dr.y * dr.y + dr.z * dr.z) = d
  ext
  · show _ + _ + _ = _ + _ + _
    ring
  · show _ + _ + _ = _ + _ + _
    ring
  · show _ + _ + _ = _ + _ + _
    ring

/-- The torque vector of the kernel for particle 1 is the torque term of the direct sum at
the same moments and separation. -/
theorem kernel_tt1_eq_mdds_t_term (sv : Services K) (m1 m2 dr : Vec3 K) :
    kernel_tt1 m1 m2 dr (dr.dot dr) (sv.sqrt (dr.dot dr)) = mdds_t_term sv m1 m2 dr :=
  rfl

/-- The torque vector of the kernel for particle 2 is the torque term of the direct sum
for the reversed pair at the opposite separation. -/
theorem kernel_tt2_eq_mdds_t_term (sv : Services K) (m1 m2 dr : Vec3 K) :
    kernel_tt2 m1 m2 dr (dr.dot dr) (sv.sqrt (dr.dot dr)) = mdds_t_term sv m2 m1 (-dr) := by
  unfold kernel_tt2 mdds_t_term
  simp only [Vec3.dot, Vec3.neg_x, Vec3.neg_y, Vec3.neg_z, neg_mul_neg]
  generalize sv.sqrt (dr.x * dr.x + dr.y * dr.y + dr.z * dr.z) = d
  ext
  · show _ + _ = _ + _
    ring
  · show _ + _ = _ + _
    ring
  · show _ + _ = _ + _
    ring

theorem mdds_zero_sep_eq (sv : Services K) (g : Globals K) (p q : Particle K)
    (h : sv.folded_position p.pos g.box_geo - sv.folded_position q.pos g.box_geo =
      sv.get_mi_vector p.pos q.pos g.box_geo) :
    mdds_zero_sep sv g p q = sv.get_mi_vector p.pos q.pos g.box_geo ∧
      mdds_zero_sep sv g q p = -sv.get_mi_vector p.pos q.pos g.box_geo := by
  rw [← h]
  unfold mdds_zero_sep
  constructor <;> ext <;> simp

theorem Vec3.smul_neg_vec (c : K) (a : Vec3 K) : Vec3.smul c (-a) = -Vec3.smul c a := by
  ext <;> simp

theorem Vec3.smul_sub_vec (c : K) (a b : Vec3 K) :
    Vec3.smul c (a - b) = Vec3.smul c a - Vec3.smul c b := by
  ext <;> simp [mul_sub]

theorem Vec3.smul_list_sum {τ : Type} (c : K) (F : τ → Vec3 K) (l : List τ) :
    Vec3.smul c (l.map F).sum = (l.map fun t => Vec3.smul c (F t)).sum := by
  induction l with
  | nil => exact Vec3.smul_zero_vec c
  | cons a l ih => rw [List.map_cons, List.sum_cons, Vec3.smul_add_vec, ih, List.map_cons,
      List.sum_cons]

/-- The increments of one kernel call on `(p, q)` in terms of the force and torque terms of
the direct sum at offset zero, when the difference of the folded positions of `p` and `q` is
their minimum-image displacement. -/
theorem kernel_increments_eq (sv : Services K) (g : Globals K) (p q : Particle K)
    (h : sv.folded_position p.pos g.box_geo - sv.folded_position q.pos g.box_geo =
      sv.get_mi_vector p.pos q.pos g.box_geo) :
    kernel_force sv g p q =
        Vec3.smul g.dipole.prefactor (mdds_f_term sv p.dip q.dip (mdds_zero_sep sv g p q)) ∧
      -kernel_force sv g p q =
        Vec3.smul g.dipole.prefactor (mdds_f_term sv q.dip p.dip (mdds_zero_sep sv g q p)) ∧
      kernel_torque1 sv g p q =
        (if sv.ROTATION = true then
          Vec3.smul g.dipole.prefactor (mdds_t_term sv p.dip q.dip (mdds_zero_sep sv g p q))
        else 0) ∧
      kernel_torque2 sv g p q =
        (if sv.ROTATION = true then
          Vec3.smul g.dipole.prefactor (mdds_t_term sv q.dip p.dip (mdds_zero_sep sv g q p))
        else 0) := by
  obtain ⟨e1, e2⟩ := mdds_zero_sep_eq sv g p q h
  unfold kernel_force kernel_torque1 kernel_torque2
  rw [e1, e2, kernel_ff_eq_mdds_f_term, kernel_tt1_eq_mdds_t_term, kernel_tt2_eq_mdds_t_term,
    mdds_f_term_neg, Vec3.smul_neg_vec]
  exact ⟨rfl, rfl, rfl, rfl⟩

end KernelVersusInlined

section RefinementPieces

variable {K : Type} [LinearOrderedField K]

theorem pairs_sum_congr_pairwise {α : Type} (R : α → α → Prop) (G1 G2 : α → α → K)
    (l : List α) (hR : l.Pairwise R) (h : ∀ a b, R a b → G1 a b = G2 a b) :
    pairs_sum G1 l = pairs_sum G2 l := by
  induction l with
  | nil => rfl
  | cons a l ih =>
    rw [List.pairwise_cons] at hR
    unfold pairs_sum
    rw [ih hR.2, List.map_congr_left (fun b hb => h a b (hR.1 b hb))]

/-- With no replicas the two engines return the same energy when, for every two
dipole-bearing particles, the difference of the folded positions is the minimum-image
displacement. -/
theorem mdds_dawaanr_energy (sv : Services K) (g : Globals K) (parts : List (Particle K))
    (force_flag energy_flag : Bool) (h1 : g.n_nodes = 1)
    (hflag : force_flag = true ∨ energy_flag = true)
    (hN : g.Ncut_off_magnetic_dipolar_direct_sum = 0)
    (hmi : (parts.filter fun p => decide (p.dipm ≠ 0)).Pairwise fun p q =>
      sv.folded_position p.pos g.box_geo - sv.folded_position q.pos g.box_geo =
        sv.get_mi_vector p.pos q.pos g.box_geo) :
    (magnetic_dipolar_direct_sum_calculations sv g parts force_flag energy_flag).map Prod.fst =
      (dawaanr_calculations sv g parts force_flag energy_flag).map Prod.fst := by
  rw [mdds_fst_raw sv g parts force_flag energy_flag h1 hflag,
    dawaanr_fst_value sv g parts force_flag energy_flag h1 hflag, (mdds_NCUT_zero g hN).1,
    (mdds_NCUT_zero g hN).2, mdds_triples_zero_sum,
    dawaanr_pairs_sum_eq (fun p q => (calc_dipole_dipole_ia sv g p p.dip q force_flag).1)]
  congr 1
  have hD := ordered_pairs_sum_eq ((0, 0) : Vec3 K × Vec3 K)
    (fun a b => mdds_u_term sv a.2 b.2
      ⟨a.1.x - b.1.x + ((0 : Int) : K) * g.box_geo.length.x,
        a.1.y - b.1.y + ((0 : Int) : K) * g.box_geo.length.y,
        a.1.z - b.1.z + ((0 : Int) : K) * g.box_geo.length.z⟩)
    (mdds_gather sv g parts)
  refine (congrArg (fun s => 0.5 * g.dipole.prefactor * s) hD).trans ?_
  rw [pairs_sum_mul]
  unfold mdds_gather
  rw [pairs_sum_map]
  refine pairs_sum_congr_pairwise _ _ _ _ hmi ?_
  intro p q h
  rw [calc_dipole_dipole_ia_fst_of_static sv g p q p q p.dip force_flag false rfl rfl]
  exact mdds_zero_pair_term sv g p q h

theorem mdds_apply_congr (sv : Services K) (g : Globals K) (f t f2 t2 : Nat → Vec3 K)
    (p : Particle K) (k k2 : Nat) (hf : f k = f2 k2)
    (ht : sv.ROTATION = true → t k = t2 k2) :
    mdds_apply sv g f t p k = mdds_apply sv g f2 t2 p k2 := by
  unfold mdds_apply
  rw [hf]
  by_cases hrot : sv.ROTATION = true
  · rw [ht hrot]
  · rw [if_neg hrot, if_neg hrot]

/-- The scatter loop as a map over the particles, when the accumulator slots are given by
functions of the particle they belong to. -/
theorem mdds_scatter_eq_map (sv : Services K) (g : Globals K) (f t : Nat → Vec3 K)
    (Gf Gt : Particle K → Vec3 K) (ps : List (Particle K)) (k0 : Nat)
    (hf : ∀ k : Nat, k < (ps.filter fun p => decide (p.dipm ≠ 0)).length →
      f (k0 + k) = Gf ((ps.filter fun p => decide (p.dipm ≠ 0)).getD k Particle.nil))
    (ht : sv.ROTATION = true →
      ∀ k : Nat, k < (ps.filter fun p => decide (p.dipm ≠ 0)).length →
        t (k0 + k) = Gt ((ps.filter fun p => decide (p.dipm ≠ 0)).getD k Particle.nil)) :
    mdds_scatter sv g f t ps k0 =
      ps.map fun p =>
        if p.dipm = 0 then p else mdds_apply sv g (fun _ => Gf p) (fun _ => Gt p) p 0 := by
  induction ps generalizing k0 with
  | nil => rfl
  | cons p ps ih =>
    by_cases h0 : p.dipm = 0
    · have hfil : ((p :: ps).filter fun p => decide (p.dipm ≠ 0)) =
          ps.filter fun p => decide (p.dipm ≠ 0) :=
        List.filter_cons_of_neg (by simpa using h0)
      rw [hfil] at hf ht
      rw [mdds_scatter_cons_zero sv g f t p ps k0 h0, List.map_cons, if_pos h0, ih k0 hf ht]
    · have hfil : ((p :: ps).filter fun p => decide (p.dipm ≠ 0)) =
          p :: ps.filter fun p => decide (p.dipm ≠ 0) :=
        List.filter_cons_of_pos (by simpa using h0)
      rw [hfil] at hf ht
      rw [mdds_scatter_cons_dipole sv g f t p ps k0 h0, List.map_cons, if_neg h0,
        ih (k0 + 1)
          (fun k hk => by
            have := hf (k + 1) (Nat.succ_lt_succ hk)
            rwa [List.getD_cons_succ, ← Nat.add_assoc, Nat.add_right_comm] at this)
          (fun hrot k hk => by
            have := ht hrot (k + 1) (Nat.succ_lt_succ hk)
            rwa [List.getD_cons_succ, ← Nat.add_assoc, Nat.add_right_comm] at this)]
      congr 1
      exact mdds_apply_congr sv g f t _ _ p k0 0 (hf 0 (Nat.succ_pos _))
        (fun hrot => ht hrot 0 (Nat.succ_pos _))

theorem Particle.eq_of_parts {R : Type} (p q : Particle R) (hs : p.static = q.static) (hf : p.f = q.f)
    (ht : p.torque = q.torque) : p = q := by
  cases p
  cases q
  simp only [Particle.static, Prod.mk.injEq] at hs
  simp only at hf ht
  rw [Particle.mk.injEq]
  exact ⟨hs.1, hs.2.1, hs.2.2, hf, ht⟩

end RefinementPieces

section RefinementParticles

variable {K : Type} [LinearOrderedField K]

theorem dawaanr_foldl_static (sv : Services K) (g : Globals K) (force_flag : Bool)
    (parts : List (Particle K)) (l : List (Nat × Nat)) (s : K × List (Particle K))
    (hs : s.2.map Particle.static = parts.map Particle.static) :
    (l.foldl (dawaanr_step sv g force_flag parts) s).2.map Particle.static =
      parts.map Particle.static := by
  induction l generalizing s with
  | nil => exact hs
  | cons ij l ih => exact ih _ (dawaanr_step_static sv g force_flag parts s ij hs)

theorem getD_map_of_lt {α β : Type} (f : α → β) (d : α) (e : β) (l : List α) (i : Nat)
    (hi : i < l.length) : (l.map f).getD i e = f (l.getD i d) := by
  induction l generalizing i with
  | nil => simp at hi
  | cons a l ih =>
    cases i with
    | zero => rfl
    | succ i =>
      rw [List.map_cons, List.getD_cons_succ, List.getD_cons_succ]
      exact ih i (by simpa using hi)

/-- The pairwise hypothesis on the dipole-bearing particles, by position in the particle
list. -/
theorem pairwise_dipoles_index (R : Particle K → Particle K → Prop)
    (parts : List (Particle K))
    (hmi : (parts.filter fun p => decide (p.dipm ≠ 0)).Pairwise R) (i j : Nat) (hij : i < j)
    (hj : j < parts.length) (hi0 : (parts.getD i Particle.nil).dipm ≠ 0)
    (hj0 : (parts.getD j Particle.nil).dipm ≠ 0) :
    R (parts.getD i Particle.nil) (parts.getD j Particle.nil) := by
  have hp := List.pairwise_filter.mp hmi
  have hi : i < parts.length := Nat.lt_trans hij hj
  have h := List.pairwise_iff_getElem.mp hp i j hi hj hij
  rw [List.getD_eq_getElem _ _ hi] at hi0 ⊢
  rw [List.getD_eq_getElem _ _ hj] at hj0 ⊢
  exact h (by simpa using hi0) (by simpa using hj0)

end RefinementParticles

section RefinementMain

variable {K : Type} [LinearOrderedField K]

/-- With no replicas the two engines leave the same particles when, for every two
dipole-bearing particles, the difference of the folded positions is the minimum-image
displacement. -/
theorem mdds_dawaanr_particles (sv : Services K) (g : Globals K) (parts : List (Particle K))
    (hN : g.Ncut_off_magnetic_dipolar_direct_sum = 0)
    (hmi : (parts.filter fun p => decide (p.dipm ≠ 0)).Pairwise fun p q =>
      sv.folded_position p.pos g.box_geo - sv.folded_position q.pos g.box_geo =
        sv.get_mi_vector p.pos q.pos g.box_geo) :
    mdds_scatter sv g (mdds_accumulate sv g parts true).f (mdds_accumulate sv g parts true).t
        parts 0 =
      ((dawaanr_pairs parts).foldl (dawaanr_step sv g true parts) (0, parts)).2 := by
  have hidx := pairwise_dipoles_index _ parts hmi
  rw [mdds_scatter_eq_map sv g _ _
    (fun p => ((parts.filter fun p => decide (p.dipm ≠ 0)).map fun q =>
        mdds_f_term sv p.dip q.dip (mdds_zero_sep sv g p q)).sum -
      mdds_f_term sv p.dip p.dip (mdds_zero_sep sv g p p))
    (fun p => ((parts.filter fun p => decide (p.dipm ≠ 0)).map fun q =>
        mdds_t_term sv p.dip q.dip (mdds_zero_sep sv g p q)).sum -
      mdds_t_term sv p.dip p.dip (mdds_zero_sep sv g p p))
    parts 0
    (fun k hk => by
      rw [Nat.zero_add, mdds_accumulate_f, (mdds_NCUT_zero g hN).1, (mdds_NCUT_zero g hN).2]
      exact mdds_zero_fiber_sum sv g parts (mdds_f_term sv) k hk)
    (fun hrot k hk => by
      rw [Nat.zero_add, mdds_accumulate_t sv g parts hrot, (mdds_NCUT_zero g hN).1,
        (mdds_NCUT_zero g hN).2]
      exact mdds_zero_fiber_sum sv g parts (mdds_t_term sv) k hk)]
  have hst := dawaanr_foldl_static sv g true parts (dawaanr_pairs parts) (0, parts) rfl
  have hlen : ((dawaanr_pairs parts).foldl (dawaanr_step sv g true parts) (0, parts)).2.length =
      parts.length := by
    have := congrArg List.length hst
    simpa using this
  refine list_ext_getD Particle.nil _ _ (by rw [List.length_map, hlen]) ?_
  intro idx hi
  rw [List.length_map] at hi
  rw [getD_map_of_lt _ Particle.nil Particle.nil parts idx hi]
  obtain ⟨hF, hT⟩ := dawaanr_foldl_getD sv g parts idx
  have hS := getD_of_map_eq Particle.static Particle.nil _ _ hst idx
  -- the sums of the kernel increments the particle at `idx` receives
  have hFsum := dawaanr_pairs_channel_sum parts idx hi (kernel_force sv g)
    (fun p q => -kernel_force sv g p q)
    (fun p q =>
      Vec3.smul g.dipole.prefactor (mdds_f_term sv p.dip q.dip (mdds_zero_sep sv g p q)))
    (fun i j hij hj hi0 hj0 => (kernel_increments_eq sv g _ _ (hidx i j hij hj hi0 hj0)).1)
    (fun i j hij hj hi0 hj0 => (kernel_increments_eq sv g _ _ (hidx i j hij hj hi0 hj0)).2.1)
  have hTsum := dawaanr_pairs_channel_sum parts idx hi (kernel_torque1 sv g)
    (kernel_torque2 sv g)
    (fun p q =>
      if sv.ROTATION = true then
        Vec3.smul g.dipole.prefactor (mdds_t_term sv p.dip q.dip (mdds_zero_sep sv g p q))
      else 0)
    (fun i j hij hj hi0 hj0 => (kernel_increments_eq sv g _ _ (hidx i j hij hj hi0 hj0)).2.2.1)
    (fun i j hij hj hi0 hj0 => (kernel_increments_eq sv g _ _ (hidx i j hij hj hi0 hj0)).2.2.2)
  rw [hFsum] at hF
  rw [hTsum] at hT
  by_cases h0 : (parts.getD idx Particle.nil).dipm = 0
  · rw [if_pos h0]
    rw [if_pos h0, add_zero] at hF hT
    exact (Particle.eq_of_parts _ _ hS hF hT).symm
  · rw [if_neg h0]
    rw [if_neg h0] at hF hT
    refine (Particle.eq_of_parts _ (mdds_apply sv g _ _ (parts.getD idx Particle.nil) 0) hS
      ?_ ?_).symm
    · rw [hF, mdds_apply_f, Vec3.smul_sub_vec, Vec3.smul_list_sum]
    · rw [hT, mdds_apply_torque]
      by_cases hrot : sv.ROTATION = true
      · simp only [if_pos hrot]
        rw [Vec3.smul_sub_vec, Vec3.smul_list_sum]
      · simp only [if_neg hrot]
        simp

end RefinementMain

section Refinement

variable {K : Type} [LinearOrderedField K]

/-- The increments of the guarded block of the direct sum for the triple `(i, j, n)` are
those of one kernel call with moments `m[i]`, `m[j]` and displacement `rn`, up to the
prefactor, which the kernel applies per call and the direct sum after summation. -/
theorem mdds_body_eq_kernel (sv : Services K) (g : Globals K) (ws : List (Vec3 K × Vec3 K))
    (s : MddsAcc K) (i j : Nat) (nx ny nz : Int) (p1 p2 : Particle K)
    (hm : p2.dip = mdds_m ws j)
    (hr : sv.get_mi_vector p1.pos p2.pos g.box_geo = mdds_rn g ws (i, j, nx, ny, nz)) :
    (calc_dipole_dipole_ia sv g p1 (mdds_m ws i) p2 true).1 =
        g.dipole.prefactor * ((mdds_body sv g ws true s i j nx ny nz).u - s.u) ∧
      (calc_dipole_dipole_ia sv g p1 (mdds_m ws i) p2 true).2.1.f =
        p1.f + Vec3.smul g.dipole.prefactor
          ((mdds_body sv g ws true s i j nx ny nz).f i - s.f i) ∧
      (calc_dipole_dipole_ia sv g p1 (mdds_m ws i) p2 true).2.1.torque =
        p1.torque + Vec3.smul g.dipole.prefactor
          ((mdds_body sv g ws true s i j nx ny nz).t i - s.t i) := by
  have hb : mdds_body sv g ws true s i j nx ny nz =
      mdds_step sv g ws true s (i, j, nx, ny, nz) := rfl
  rw [hb, mdds_step_u, mdds_step_f, mdds_step_t, if_pos rfl, calc_dipole_dipole_ia_fst,
    calc_dipole_dipole_ia_f1, calc_dipole_dipole_ia_t1, kernel_ff_eq_mdds_f_term,
    kernel_tt1_eq_mdds_t_term, hr, hm]
  refine ⟨?_, ?_, ?_⟩
  · rw [add_sub_cancel_left]
    unfold mdds_u_term
    simp only [Vec3.dot]
    ring
  · rw [Function.update_same, add_sub_cancel_left]
  · by_cases hrot : sv.ROTATION = true
    · have e : (true && sv.ROTATION) = true := by simp [hrot]
      rw [if_pos hrot, if_pos e, Function.update_same, add_sub_cancel_left]
    · have e : ¬ (true && sv.ROTATION) = true := by simp [hrot]
      rw [if_neg hrot, if_neg e, sub_self, Vec3.smul_zero_vec, add_zero]

/-- C23: with `Ncut = 0`, for every particle configuration in which, for every two
dipole-bearing particles (in iteration order), the difference of the folded positions is
the minimum-image displacement, `magnetic_dipolar_direct_sum_calculations` and
`dawaanr_calculations` give the same result for every pair of flags: the same returned
energy and the same particles afterwards, hence the same force and torque increment on
every particle. The increments of the guarded block of the direct sum are those of one
kernel call at the same moments and displacement. -/
theorem mdds_refines_dawaanr (sv : Services K) (g : Globals K) (parts : List (Particle K))
    (force_flag energy_flag : Bool)
    (hN : g.Ncut_off_magnetic_dipolar_direct_sum = 0)
    (hmi : (parts.filter fun p => decide (p.dipm ≠ 0)).Pairwise fun p q =>
      sv.folded_position p.pos g.box_geo - sv.folded_position q.pos g.box_geo =
        sv.get_mi_vector p.pos q.pos g.box_geo) :
    magnetic_dipolar_direct_sum_calculations sv g parts force_flag energy_flag =
        dawaanr_calculations sv g parts force_flag energy_flag ∧
      ∀ (ws : List (Vec3 K × Vec3 K)) (s : MddsAcc K) (i j : Nat) (nx ny nz : Int)
        (p1 p2 : Particle K), p2.dip = mdds_m ws j →
        sv.get_mi_vector p1.pos p2.pos g.box_geo = mdds_rn g ws (i, j, nx, ny, nz) →
        (calc_dipole_dipole_ia sv g p1 (mdds_m ws i) p2 true).1 =
            g.dipole.prefactor * ((mdds_body sv g ws true s i j nx ny nz).u - s.u) ∧
          (calc_dipole_dipole_ia sv g p1 (mdds_m ws i) p2 true).2.1.f =
            p1.f + Vec3.smul g.dipole.prefactor
              ((mdds_body sv g ws true s i j nx ny nz).f i - s.f i) ∧
          (calc_dipole_dipole_ia sv g p1 (mdds_m ws i) p2 true).2.1.torque =
            p1.torque + Vec3.smul g.dipole.prefactor
              ((mdds_body sv g ws true s i j nx ny nz).t i - s.t i) := by
  refine ⟨?_, fun ws s i j nx ny nz p1 p2 hm hr =>
    mdds_body_eq_kernel sv g ws s i j nx ny nz p1 p2 hm hr⟩
  by_cases h1 : g.n_nodes = 1
  · by_cases hflag : force_flag = true ∨ energy_flag = true
    · have hE := mdds_dawaanr_energy sv g parts force_flag energy_flag h1 hflag hN hmi
      cases force_flag with
      | true =>
        rw [mdds_run_force sv g parts energy_flag h1,
          dawaanr_run_eq sv g parts true energy_flag h1 hflag] at hE ⊢
        simp only [Option.map_some', Option.some.injEq] at hE
        rw [mdds_dawaanr_particles sv g parts hN hmi]
        exact congrArg some (Prod.ext hE rfl)
      | false =>
        have he : energy_flag = true := by
          rcases hflag with h | h
          · exact absurd h (by decide)
          · exact h
        subst he
        obtain ⟨E1, hE1⟩ := mdds_energy_only sv g parts h1
        obtain ⟨E2, hE2⟩ := dawaanr_energy_only sv g parts h1
        rw [hE1, hE2] at hE ⊢
        simp only [Option.map_some', Option.some.injEq] at hE
        rw [hE]
    · have hf : force_flag = false := by
        cases force_flag
        · rfl
        · exact absurd (Or.inl rfl) hflag
      have he : energy_flag = false := by
        cases energy_flag
        · rfl
        · exact absurd (Or.inr rfl) hflag
      rw [hf, he, mdds_calculations_no_flags sv g parts h1,
        dawaanr_calculations_no_flags sv g parts h1]
  · rw [mdds_calculations_of_many sv g parts force_flag energy_flag h1,
      dawaanr_calculations_of_many sv g parts force_flag energy_flag h1]

end Refinement

section RefinementExample

theorem mixedQ_pairs : dawaanr_pairs mixedQ = [(0, 2)] := by
  norm_num [dawaanr_pairs, mixedQ, dipoleQ, Particle.nil, List.range_succ, List.range'_succ,
    List.flatMap_cons, List.filter_cons]

theorem mixedQ_dawaanr :
    dawaanr_calculations (servicesQ true) (globalsQ ⟨true, true, true⟩ 0) mixedQ true true =
      some (0, [⟨⟨1, 0, 0⟩, 1, ⟨1, 0, 0⟩, ⟨-2 / 27, 0, 0⟩, ⟨0, -4 / 27, 0⟩⟩,
        ⟨⟨5, 0, 0⟩, 0, 0, 0, 0⟩,
        ⟨⟨1, 0, 3⟩, 1, ⟨0, 0, 1⟩, ⟨2 / 27, 0, 0⟩, ⟨0, -2 / 27, 0⟩⟩]) := by
  rw [dawaanr_run_eq _ _ _ _ _ rfl (Or.inl rfl), mixedQ_pairs]
  norm_num [dawaanr_step, dawaanr_kernel_at, calc_dipole_dipole_ia, mixedQ, dipoleQ,
    servicesQ, globalsQ, get_mi_vector_Q, get_mi_coord_Q, Vec3.dot, sqrtQ, abs_lt,
    Particle.nil]

theorem mixedQ_pairwise :
    (mixedQ.filter fun p => decide (p.dipm ≠ 0)).Pairwise fun p q =>
      (servicesQ true).folded_position p.pos (globalsQ ⟨true, true, true⟩ 0).box_geo -
          (servicesQ true).folded_position q.pos (globalsQ ⟨true, true, true⟩ 0).box_geo =
        (servicesQ true).get_mi_vector p.pos q.pos (globalsQ ⟨true, true, true⟩ 0).box_geo := by
  have hf : (mixedQ.filter fun p => decide (p.dipm ≠ 0)) =
      [dipoleQ ⟨1, 0, 0⟩ ⟨1, 0, 0⟩, dipoleQ ⟨1, 0, 3⟩ ⟨0, 0, 1⟩] := by
    norm_num [mixedQ, dipoleQ, List.filter_cons]
  rw [hf, List.pairwise_cons]
  refine ⟨?_, List.pairwise_singleton _ _⟩
  intro q hq
  rw [List.mem_singleton] at hq
  subst hq
  ext <;>
    norm_num [dipoleQ, servicesQ, globalsQ, folded_position_Q, fold_coordinate_Q,
      get_mi_vector_Q, get_mi_coord_Q, abs_lt]

/-- Witness of C23: a unit dipole along `x` at `(1,0,0)`, a particle without dipole and a unit
dipole along `z` at `(1,0,3)` in the periodic box of edge 10, prefactor 2, both flags set.
Both engines return energy 0, add `(-2/27,0,0)` to the force and `(0,-4/27,0)` to the
torque of the first dipole, add `(2/27,0,0)` and `(0,-2/27,0)` to those of the second, and
leave the particle without dipole as it was. -/
theorem mdds_refines_dawaanr_witness :
    magnetic_dipolar_direct_sum_calculations (servicesQ true) (globalsQ ⟨true, true, true⟩ 0)
        mixedQ true true =
      dawaanr_calculations (servicesQ true) (globalsQ ⟨true, true, true⟩ 0) mixedQ true
        true ∧
      dawaanr_calculations (servicesQ true) (globalsQ ⟨true, true, true⟩ 0) mixedQ true true =
        some (0, [⟨⟨1, 0, 0⟩, 1, ⟨1, 0, 0⟩, ⟨-2 / 27, 0, 0⟩, ⟨0, -4 / 27, 0⟩⟩,
          ⟨⟨5, 0, 0⟩, 0, 0, 0, 0⟩,
          ⟨⟨1, 0, 3⟩, 1, ⟨0, 0, 1⟩, ⟨2 / 27, 0, 0⟩, ⟨0, -2 / 27, 0⟩⟩]) :=
  ⟨(mdds_refines_dawaanr (servicesQ true) (globalsQ ⟨true, true, true⟩ 0) mixedQ true true rfl
    mixedQ_pairwise).1, mixedQ_dawaanr⟩

end RefinementExample

section ScatterExample

theorem mixedQ_pairwise_of (rot : Bool) :
    (mixedQ.filter fun p => decide (p.dipm ≠ 0)).Pairwise fun p q =>
      (servicesQ rot).folded_position p.pos (globalsQ ⟨true, true, true⟩ 0).box_geo -
          (servicesQ rot).folded_position q.pos (globalsQ ⟨true, true, true⟩ 0).box_geo =
        (servicesQ rot).get_mi_vector p.pos q.pos (globalsQ ⟨true, true, true⟩ 0).box_geo :=
  mixedQ_pairwise

theorem mixedQ_dawaanr_without_rotation :
    dawaanr_calculations (servicesQ false) (globalsQ ⟨true, true, true⟩ 0) mixedQ true false =
      some (0, [⟨⟨1, 0, 0⟩, 1, ⟨1, 0, 0⟩, ⟨-2 / 27, 0, 0⟩, 0⟩,
        ⟨⟨5, 0, 0⟩, 0, 0, 0, 0⟩,
        ⟨⟨1, 0, 3⟩, 1, ⟨0, 0, 1⟩, ⟨2 / 27, 0, 0⟩, 0⟩]) := by
  rw [dawaanr_run_eq _ _ _ _ _ rfl (Or.inl rfl), mixedQ_pairs]
  norm_num [dawaanr_step, dawaanr_kernel_at, calc_dipole_dipole_ia, mixedQ, dipoleQ,
    servicesQ, globalsQ, get_mi_vector_Q, get_mi_coord_Q, Vec3.dot, sqrtQ, abs_lt,
    Particle.nil]

theorem mixedQ_mdds_without_rotation :
    magnetic_dipolar_direct_sum_calculations (servicesQ false) (globalsQ ⟨true, true, true⟩ 0)
        mixedQ true false =
      some (0, [⟨⟨1, 0, 0⟩, 1, ⟨1, 0, 0⟩, ⟨-2 / 27, 0, 0⟩, 0⟩,
        ⟨⟨5, 0, 0⟩, 0, 0, 0, 0⟩,
        ⟨⟨1, 0, 3⟩, 1, ⟨0, 0, 1⟩, ⟨2 / 27, 0, 0⟩, 0⟩]) := by
  have hE := mdds_dawaanr_energy (servicesQ false) (globalsQ ⟨true, true, true⟩ 0) mixedQ true
    false rfl (Or.inl rfl) rfl (mixedQ_pairwise_of false)
  have hD := mixedQ_dawaanr_without_rotation
  rw [hD, mdds_run_force _ _ _ _ rfl] at hE
  simp only [Option.map_some', Option.some.injEq] at hE
  rw [dawaanr_run_eq _ _ _ _ _ rfl (Or.inl rfl)] at hD
  have hP := congrArg Prod.snd (Option.some.inj hD)
  rw [mdds_run_force _ _ _ _ rfl,
    mdds_dawaanr_particles _ _ _ rfl (mixedQ_pairwise_of false), hP, hE]

theorem mixedQ_gather (rot : Bool) :
    mdds_gather (servicesQ rot) (globalsQ ⟨true, true, true⟩ 0) mixedQ =
      [(⟨1, 0, 0⟩, ⟨1, 0, 0⟩), (⟨1, 0, 3⟩, ⟨0, 0, 1⟩)] := by
  norm_num [mdds_gather, mixedQ, dipoleQ, servicesQ, globalsQ, folded_position_Q,
    fold_coordinate_Q, List.filter_cons]

/-- Counterexample to C8: in a build without `ROTATION`, for a unit dipole along `x` at
`(1,0,0)`, a particle without dipole and a unit dipole along `z` at `(1,0,3)`, prefactor 2
and no replicas, the direct sum with `force_flag` set adds `(-2/27,0,0)` to the force of the
first dipole and leaves its torque at `(0,0,0)`, while its previous torque plus the
prefactor times the sum of the torque terms for `i = 0` is `(0,-4/27,0)`. -/
theorem mdds_force_torque_scatter_counterexample :
    magnetic_dipolar_direct_sum_calculations (servicesQ false) (globalsQ ⟨true, true, true⟩ 0)
        mixedQ true false =
      some (0, [⟨⟨1, 0, 0⟩, 1, ⟨1, 0, 0⟩, ⟨-2 / 27, 0, 0⟩, 0⟩,
        ⟨⟨5, 0, 0⟩, 0, 0, 0, 0⟩,
        ⟨⟨1, 0, 3⟩, 1, ⟨0, 0, 1⟩, ⟨2 / 27, 0, 0⟩, 0⟩]) ∧
      ((mixedQ.filter fun p => decide (p.dipm ≠ 0)).getD 0 Particle.nil).torque +
          Vec3.smul (globalsQ ⟨true, true, true⟩ 0).dipole.prefactor
            (((mdds_triples
                (mdds_gather (servicesQ false) (globalsQ ⟨true, true, true⟩ 0) mixedQ).length
                (mdds_NCUT (globalsQ ⟨true, true, true⟩ 0))
                (mdds_NCUT2 (globalsQ ⟨true, true, true⟩ 0))).filter
              fun t => decide (t.1 = 0)).map fun t =>
                pair_torque
                  (mdds_m (mdds_gather (servicesQ false) (globalsQ ⟨true, true, true⟩ 0) mixedQ)
                    t.1)
                  (mdds_m (mdds_gather (servicesQ false) (globalsQ ⟨true, true, true⟩ 0) mixedQ)
                    t.2.1)
                  (mdds_rn (globalsQ ⟨true, true, true⟩ 0)
                    (mdds_gather (servicesQ false) (globalsQ ⟨true, true, true⟩ 0) mixedQ) t)
                  ((servicesQ false).sqrt
                    ((mdds_rn (globalsQ ⟨true, true, true⟩ 0)
                      (mdds_gather (servicesQ false) (globalsQ ⟨true, true, true⟩ 0) mixedQ)
                      t).dot
                    (mdds_rn (globalsQ ⟨true, true, true⟩ 0)
                      (mdds_gather (servicesQ false) (globalsQ ⟨true, true, true⟩ 0) mixedQ)
                      t)))).sum =
        ⟨0, -4 / 27, 0⟩ ∧
      (([(⟨⟨1, 0, 0⟩, 1, ⟨1, 0, 0⟩, ⟨-2 / 27, 0, 0⟩, 0⟩ : Particle ℚ),
          ⟨⟨5, 0, 0⟩, 0, 0, 0, 0⟩,
          ⟨⟨1, 0, 3⟩, 1, ⟨0, 0, 1⟩, ⟨2 / 27, 0, 0⟩, 0⟩].filter
            fun p => decide (p.dipm ≠ 0)).getD 0 Particle.nil).torque ≠
        ⟨0, -4 / 27, 0⟩ := by
  refine ⟨mixedQ_mdds_without_rotation, ?_, ?_⟩
  · rw [mixedQ_gather]
    simp only [List.length_cons, List.length_nil, Nat.reduceAdd, pairQ_triples]
    ext <;>
      norm_num [mixedQ, dipoleQ, List.filter, mdds_rn, mdds_x, mdds_m, Vec3.dot, Vec3.cross,
        servicesQ, sqrtQ, globalsQ, pair_torque]
  · intro h
    have hy := congrArg Vec3.y h
    norm_num [List.filter] at hy

end ScatterExample

section AngularBalance

variable {K : Type} [LinearOrderedField K]

/-- Counterexample to C24: in a build without `ROTATION`, for a unit dipole along `x` at
`(0,0,1)` and a unit dipole along `z` at the origin with prefactor 2, the kernel adds
`(6,0,0)` to the force of particle 1 and no torque to either particle, so
`T1 + T2 + r x F1 = (0,6,0)`, which is not zero. -/
theorem calc_dipole_dipole_ia_angular_counterexample :
    ((calc_dipole_dipole_ia (servicesQ false) (globalsQ ⟨true, true, true⟩ 0)
          (dipoleQ ⟨0, 0, 1⟩ ⟨1, 0, 0⟩) ⟨1, 0, 0⟩ (dipoleQ ⟨0, 0, 0⟩ ⟨0, 0, 1⟩)
          true).2.1.torque - (dipoleQ ⟨0, 0, 1⟩ ⟨1, 0, 0⟩).torque) +
        ((calc_dipole_dipole_ia (servicesQ false) (globalsQ ⟨true, true, true⟩ 0)
          (dipoleQ ⟨0, 0, 1⟩ ⟨1, 0, 0⟩) ⟨1, 0, 0⟩ (dipoleQ ⟨0, 0, 0⟩ ⟨0, 0, 1⟩)
          true).2.2.torque - (dipoleQ ⟨0, 0, 0⟩ ⟨0, 0, 1⟩).torque) +
        ((servicesQ false).get_mi_vector (dipoleQ ⟨0, 0, 1⟩ ⟨1, 0, 0⟩).pos
          (dipoleQ ⟨0, 0, 0⟩ ⟨0, 0, 1⟩).pos (globalsQ ⟨true, true, true⟩ 0).box_geo).cross
          ((calc_dipole_dipole_ia (servicesQ false) (globalsQ ⟨true, true, true⟩ 0)
            (dipoleQ ⟨0, 0, 1⟩ ⟨1, 0, 0⟩) ⟨1, 0, 0⟩ (dipoleQ ⟨0, 0, 0⟩ ⟨0, 0, 1⟩)
            true).2.1.f - (dipoleQ ⟨0, 0, 1⟩ ⟨1, 0, 0⟩).f) ≠ 0 := by
  intro h
  have hy := congrArg Vec3.y h
  rw [calc_dipole_dipole_ia_t1, calc_dipole_dipole_ia_t2, calc_dipole_dipole_ia_f1] at hy
  norm_num [servicesQ, globalsQ, dipoleQ, get_mi_vector_Q, get_mi_coord_Q, Vec3.dot,
    Vec3.cross, kernel_ff, sqrtQ] at hy

/-- C24, amended: with `ROTATION` compiled in, for every `m1`, `m2` and minimum-image
displacement `r` with `|r| > 0` and both values of `force_flag`, the torque increments `T1`,
`T2` and the force increment `F1` of one kernel call satisfy `T1 + T2 + r x F1 = 0`. -/
theorem calc_dipole_dipole_ia_angular (sv : Services K) (g : Globals K) (p1 p2 : Particle K)
    (dip1 : Vec3 K) (force_flag : Bool) (d : K) (hrot : sv.ROTATION = true)
    (hd : d = sv.sqrt ((sv.get_mi_vector p1.pos p2.pos g.box_geo).dot
      (sv.get_mi_vector p1.pos p2.pos g.box_geo)))
    (hsq : d * d = (sv.get_mi_vector p1.pos p2.pos g.box_geo).dot
      (sv.get_mi_vector p1.pos p2.pos g.box_geo))
    (hpos : 0 < d) :
    ((calc_dipole_dipole_ia sv g p1 dip1 p2 force_flag).2.1.torque - p1.torque) +
        ((calc_dipole_dipole_ia sv g p1 dip1 p2 force_flag).2.2.torque - p2.torque) +
        (sv.get_mi_vector p1.pos p2.pos g.box_geo).cross
          ((calc_dipole_dipole_ia sv g p1 dip1 p2 force_flag).2.1.f - p1.f) = 0 := by
  have _hne : d ≠ 0 := ne_of_gt hpos
  cases force_flag with
  | false =>
    rw [calc_dipole_dipole_ia_no_force]
    ext <;> simp [Vec3.cross]
  | true =>
    rw [calc_dipole_dipole_ia_t1, calc_dipole_dipole_ia_t2, calc_dipole_dipole_ia_f1,
      if_pos hrot, if_pos hrot, ← hd, ← hsq, add_sub_cancel_left, add_sub_cancel_left,
      add_sub_cancel_left]
    exact kernel_angular_balance _ _ _ _ _ _

/-- Witness of the amended C24: the configuration of the counterexample in a build with
`ROTATION`: `T1 = (0,-4,0)`, `T2 = (0,-2,0)` and `r x F1 = (0,6,0)`. -/
theorem calc_dipole_dipole_ia_angular_witness :
    ((calc_dipole_dipole_ia (servicesQ true) (globalsQ ⟨true, true, true⟩ 0)
          (dipoleQ ⟨0, 0, 1⟩ ⟨1, 0, 0⟩) ⟨1, 0, 0⟩ (dipoleQ ⟨0, 0, 0⟩ ⟨0, 0, 1⟩)
          true).2.1.torque - (dipoleQ ⟨0, 0, 1⟩ ⟨1, 0, 0⟩).torque) +
        ((calc_dipole_dipole_ia (servicesQ true) (globalsQ ⟨true, true, true⟩ 0)
          (dipoleQ ⟨0, 0, 1⟩ ⟨1, 0, 0⟩) ⟨1, 0, 0⟩ (dipoleQ ⟨0, 0, 0⟩ ⟨0, 0, 1⟩)
          true).2.2.torque - (dipoleQ ⟨0, 0, 0⟩ ⟨0, 0, 1⟩).torque) +
        ((servicesQ true).get_mi_vector (dipoleQ ⟨0, 0, 1⟩ ⟨1, 0, 0⟩).pos
          (dipoleQ ⟨0, 0, 0⟩ ⟨0, 0, 1⟩).pos (globalsQ ⟨true, true, true⟩ 0).box_geo).cross
          ((calc_dipole_dipole_ia (servicesQ true) (globalsQ ⟨true, true, true⟩ 0)
            (dipoleQ ⟨0, 0, 1⟩ ⟨1, 0, 0⟩) ⟨1, 0, 0⟩ (dipoleQ ⟨0, 0, 0⟩ ⟨0, 0, 1⟩)
            true).2.1.f - (dipoleQ ⟨0, 0, 1⟩ ⟨1, 0, 0⟩).f) = 0 :=
  calc_dipole_dipole_ia_angular (servicesQ true) (globalsQ ⟨true, true, true⟩ 0)
    (dipoleQ ⟨0, 0, 1⟩ ⟨1, 0, 0⟩) (dipoleQ ⟨0, 0, 0⟩ ⟨0, 0, 1⟩) ⟨1, 0, 0⟩ true 1 rfl
    (by norm_num [servicesQ, globalsQ, dipoleQ, get_mi_vector_Q, get_mi_coord_Q, Vec3.dot,
      sqrtQ])
    (by norm_num [servicesQ, globalsQ, dipoleQ, get_mi_vector_Q, get_mi_coord_Q, Vec3.dot])
    (by norm_num)

end AngularBalance

section SetParamsAtomic

variable {K : Type}

theorem mdds_set_params_method_of_one (s : Node K) (n_cut : Int)
    (h : ¬ s.globals.n_nodes > 1) :
    (mdds_set_params s n_cut).2.globals.dipole.method =
      if s.globals.dipole.method = DipolarInteraction.DIPOLAR_MDLC_DS then
        DipolarInteraction.DIPOLAR_MDLC_DS
      else DipolarInteraction.DIPOLAR_DS := by
  have key : ∀ m : DipolarInteraction, s.globals.dipole.method = m →
      (mdds_set_params s n_cut).2.globals.dipole.method =
        if m = DipolarInteraction.DIPOLAR_MDLC_DS then DipolarInteraction.DIPOLAR_MDLC_DS
        else DipolarInteraction.DIPOLAR_DS := by
    intro m hm
    unfold mdds_set_params
    rw [if_neg h]
    cases m <;> simp [hm, set_method_local, mpi_bcast_coulomb_params]
  exact key _ rfl

/-- C25: `mdds_set_params(n_cut)` with `n_nodes > 1` returns `ES_ERROR` and leaves the stored
replica cutoff and the active method as they were; with `n_nodes <= 1`, in particular on a
single process, it returns `ES_OK`, the stored replica cutoff is `n_cut`, and the active
method is `DIPOLAR_MDLC_DS` if it was `DIPOLAR_MDLC_DS` before and `DIPOLAR_DS`
otherwise. -/
theorem mdds_set_params_atomic (s : Node K) (n_cut : Int) :
    (s.globals.n_nodes > 1 →
        (mdds_set_params s n_cut).1 = ES_ERROR ∧
          (mdds_set_params s n_cut).2.globals.Ncut_off_magnetic_dipolar_direct_sum =
            s.globals.Ncut_off_magnetic_dipolar_direct_sum ∧
          (mdds_set_params s n_cut).2.globals.dipole.method = s.globals.dipole.method) ∧
      (¬ s.globals.n_nodes > 1 →
        (mdds_set_params s n_cut).1 = ES_OK ∧
          (mdds_set_params s n_cut).2.globals.Ncut_off_magnetic_dipolar_direct_sum = n_cut ∧
          (mdds_set_params s n_cut).2.globals.dipole.method =
            if s.globals.dipole.method = DipolarInteraction.DIPOLAR_MDLC_DS then
              DipolarInteraction.DIPOLAR_MDLC_DS
            else DipolarInteraction.DIPOLAR_DS) := by
  constructor
  · intro h
    rw [mdds_set_params_of_many s n_cut h]
    exact ⟨rfl, rfl, rfl⟩
  · intro h
    exact ⟨mdds_set_params_fst_of_one s n_cut h, mdds_set_params_cutoff_of_one s n_cut h,
      mdds_set_params_method_of_one s n_cut h⟩

/-- Witness of C25: on two processes the cutoff 0 and the method `DIPOLAR_DS` stay; on one
process cutoff 3 is stored, `DIPOLAR_MDLC_DS` is kept and `DIPOLAR_P3M` becomes
`DIPOLAR_DS`. -/
theorem mdds_set_params_atomic_witness :
    ((mdds_set_params (⟨globalsQ_two, 0, []⟩ : Node ℚ) 3).1 = ES_ERROR ∧
        (mdds_set_params (⟨globalsQ_two, 0, []⟩ : Node ℚ)
          3).2.globals.Ncut_off_magnetic_dipolar_direct_sum = 0 ∧
        (mdds_set_params (⟨globalsQ_two, 0, []⟩ : Node ℚ) 3).2.globals.dipole.method =
          DipolarInteraction.DIPOLAR_DS) ∧
      ((mdds_set_params (nodeQ DipolarInteraction.DIPOLAR_MDLC_DS 0) 3).1 = ES_OK ∧
        (mdds_set_params (nodeQ DipolarInteraction.DIPOLAR_MDLC_DS 0)
          3).2.globals.Ncut_off_magnetic_dipolar_direct_sum = 3 ∧
        (mdds_set_params (nodeQ DipolarInteraction.DIPOLAR_MDLC_DS 0)
          3).2.globals.dipole.method = DipolarInteraction.DIPOLAR_MDLC_DS) ∧
      (mdds_set_params (nodeQ DipolarInteraction.DIPOLAR_P3M 0) 3).2.globals.dipole.method =
        DipolarInteraction.DIPOLAR_DS :=
  ⟨(mdds_set_params_atomic (⟨globalsQ_two, 0, []⟩ : Node ℚ) 3).1 (by decide),
    (mdds_set_params_atomic (nodeQ DipolarInteraction.DIPOLAR_MDLC_DS 0) 3).2 (by decide),
    ((mdds_set_params_atomic (nodeQ DipolarInteraction.DIPOLAR_P3M 0) 3).2
      (by decide)).2.2⟩

end SetParamsAtomic

end Espresso
